import Mathlib

/-!
# Portfolio dashboard: projects panel (`src/dashboard/Projects.jsx`)

A shallow embedding of the project-save and media-relocation workflow.

* JavaScript strings are modelled as `List Char` (sequences of characters);
  the string operations used by the source (`trim`, `split(",")`,
  `includes`) are defined structurally on that representation.
* The Firebase SDK (Firestore documents and Storage objects) is an external
  collaborator.  The program is parametric in a `Backend σ`, a record of state
  transformers that may fail; every call is recorded in a log.
* `RefStore` is a small reference implementation of that backend (objects
  addressed by path, documents addressed by id), used where a claim talks about
  what the stores hold afterwards.
-/

set_option autoImplicit false

namespace Projects

/-- A JavaScript string, as its sequence of characters. -/
abbrev Str := List Char

/-! ## String primitives -/

/-- The characters `String.prototype.trim` strips: ECMAScript WhiteSpace and
LineTerminator code points. -/
def isJsWhitespace (c : Char) : Bool :=
  let n := c.toNat
  n == 0x09 || n == 0x0A || n == 0x0B || n == 0x0C || n == 0x0D || n == 0x20 ||
  n == 0xA0 || n == 0x1680 || (0x2000 ≤ n && n ≤ 0x200A) || n == 0x2028 ||
  n == 0x2029 || n == 0x202F || n == 0x205F || n == 0x3000 || n == 0xFEFF

/-- Strip trailing whitespace. -/
def trimEnd : Str → Str
  | [] => []
  | c :: cs =>
    match trimEnd cs with
    | [] => if isJsWhitespace c then [] else [c]
    | r => c :: r

/-- JavaScript `s.trim()`. -/
def trim (s : Str) : Str := trimEnd (s.dropWhile isJsWhitespace)

/-- JavaScript `s.split(",")`: the pieces between commas; never empty
(`"".split(",")` is `[""]`). -/
def splitComma : Str → List Str
  | [] => [[]]
  | c :: cs =>
    if c = ',' then [] :: splitComma cs
    else
      match splitComma cs with
      | [] => [[c]]
      | p :: ps => (c :: p) :: ps

/-- JavaScript `s.includes(pat)`: `pat` occurs as a contiguous substring. -/
def includes : Str → Str → Bool
  | [], pat => pat.isEmpty
  | c :: cs, pat => pat.isPrefixOf (c :: cs) || includes cs pat

/-- The provisional-path marker tested by `moveUnsavedFilesForProject`. -/
def unsavedMarker : Str := "/projects/unsaved/".toList

/-- The guard `url && typeof url === "string" && url.includes("/projects/unsaved/")`
(the `typeof` test is always true for a `Str`). -/
def isUnsavedRef (url : Str) : Bool := !url.isEmpty && includes url unsavedMarker

/-- JavaScript truthiness of a string value. -/
def truthy (s : Str) : Bool := !s.isEmpty

example : trim " a b \n".toList = "a b".toList := by decide
example : splitComma "a, b,,c".toList = ["a".toList, " b".toList, [], "c".toList] := by decide
example : splitComma [] = [[]] := by decide
example : includes "x/projects/unsaved/main/1".toList unsavedMarker = true := by decide
example : includes "x/projects%2Funsaved".toList unsavedMarker = false := by decide

/-! ## Data model -/

/-- Bytes of a stored object. -/
abbrev Blob := List Nat

/-- An error thrown by a store call (or by the program itself). -/
structure JsError where
  msg : String
deriving DecidableEq, Repr

/-- A file picked in a file input. -/
structure JsFile where
  name : Str
  bytes : Blob
deriving DecidableEq, Repr

/-- The `type` option of an upload: the two values the panel passes. -/
inductive Slot
  | main
  | gallery
deriving DecidableEq, Repr

/-- The string a slot is spliced into a path as. -/
def Slot.str : Slot → Str
  | .main => "main".toList
  | .gallery => "gallery".toList

/-- The `formData` state of the panel. -/
structure FormData where
  name : Str
  description : Str
  date : Str
  technologies : Str
  liveUrl : Str
  githubUrl : Str
  imageUrl : Str
  role : Str
  duration : Str
  tools : Str
  results : Str
  gallery : List Str
  stages : List Str
deriving DecidableEq, Repr

/-- The object `formatted` built by `handleSaveProject`: the form's fields with
`technologies` turned into a sequence. -/
structure ProjectFields where
  name : Str
  description : Str
  date : Str
  technologies : List Str
  liveUrl : Str
  githubUrl : Str
  imageUrl : Str
  role : Str
  duration : Str
  tools : Str
  results : Str
  gallery : List Str
  stages : List Str
deriving DecidableEq, Repr

/-- Which server timestamp a document write carries besides the fields. -/
inductive Stamp
  | createdAt
  | updatedAt
deriving DecidableEq, Repr

/-- The data object handed to `addDoc` / `updateDoc`:
`{ ...fields, createdAt | updatedAt: serverTimestamp() }`. -/
structure DocData where
  fields : ProjectFields
  stamp : Stamp
deriving DecidableEq, Repr

/-- What `uploadBytesResumable` does with a task: the percentages its
`state_changed` snapshots round to, then completion or an error. -/
structure UploadTask where
  progress : List Nat
  result : Except JsError Unit

/-- The Firebase SDK as seen by the panel: every call transforms the store state
`σ` and may fail.  Storage references are represented by their full path. -/
structure Backend (σ : Type) where
  listAll : Str → σ → Except JsError (List Str) × σ
  getDownloadURL : Str → σ → Except JsError Str × σ
  fetch : Str → σ → Except JsError Blob × σ
  uploadBytesResumable : Str → Blob → σ → UploadTask × σ
  deleteObject : Str → σ → Except JsError Unit × σ
  addDoc : DocData → σ → Except JsError Str × σ
  updateDoc : Str → DocData → σ → Except JsError Unit × σ
  uuidv4 : σ → Str × σ

/-- A store call the program made, with whether it succeeded. -/
inductive Call
  | listAll (folder : Str) (ok : Bool)
  | getDownloadURL (path : Str) (ok : Bool)
  | fetch (url : Str) (ok : Bool)
  | uploadBytes (path : Str) (blob : Blob) (ok : Bool)
  | deleteObject (path : Str) (ok : Bool)
  | addDoc (data : DocData) (ok : Bool)
  | updateDoc (id : Str) (data : DocData) (ok : Bool)
deriving DecidableEq, Repr

/-- Whether the call succeeded. -/
def Call.ok : Call → Bool
  | .listAll _ b => b
  | .getDownloadURL _ b => b
  | .fetch _ b => b
  | .uploadBytes _ _ b => b
  | .deleteObject _ b => b
  | .addDoc _ b => b
  | .updateDoc _ _ b => b

/-- Document-store writes. -/
def Call.isDocWrite : Call → Bool
  | .addDoc _ _ => true
  | .updateDoc _ _ _ => true
  | _ => false

/-- Object-store operations (list, URL lookup, fetch, upload, delete). -/
def Call.isStorage (c : Call) : Bool := !c.isDocWrite

/-- The React state of the panel plus what it showed the user. -/
structure Panel where
  formData : FormData
  editId : Option Str
  showModal : Bool
  saving : Bool
  moving : Bool
  uploading : List (Nat × Bool)
  uploadProgress : List (Nat × Nat)
  uploadingMain : Bool
  mainProgress : Nat
  alerts : List String
  console : List String
  onUpdateCalls : Nat
deriving DecidableEq, Repr

/-- Everything a handler can read or change: the store, the calls made so far,
and the panel. -/
structure World (σ : Type) where
  store : σ
  log : List Call
  ui : Panel

/-- The empty form (`resetForm` and the initial `useState` value). -/
def emptyForm : FormData :=
  { name := [], description := [], date := [], technologies := [], liveUrl := [],
    githubUrl := [], imageUrl := [], role := [], duration := [], tools := [],
    results := [], gallery := [[]], stages := [[]] }

/-- The panel as first rendered. -/
def initialPanel : Panel :=
  { formData := emptyForm, editId := none, showModal := false, saving := false,
    moving := false, uploading := [], uploadProgress := [], uploadingMain := false,
    mainProgress := 0, alerts := [], console := [], onUpdateCalls := 0 }

/-! ## Store calls, logged -/

section Calls
variable {σ : Type}

/-- Record a call in the log, keeping the new store state. -/
def World.record (w : World σ) (s : σ) (c : Call) : World σ :=
  { w with store := s, log := w.log ++ [c] }

/-- Whether a result is a success. -/
def isOk {ε α : Type} : Except ε α → Bool
  | .ok _ => true
  | .error _ => false

def callListAll (B : Backend σ) (folder : Str) (w : World σ) :
    Except JsError (List Str) × World σ :=
  let r := B.listAll folder w.store
  (r.1, w.record r.2 (.listAll folder (isOk r.1)))

def callGetDownloadURL (B : Backend σ) (path : Str) (w : World σ) :
    Except JsError Str × World σ :=
  let r := B.getDownloadURL path w.store
  (r.1, w.record r.2 (.getDownloadURL path (isOk r.1)))

/-- `fetch(url)` followed by `res.blob()`. -/
def callFetch (B : Backend σ) (url : Str) (w : World σ) :
    Except JsError Blob × World σ :=
  let r := B.fetch url w.store
  (r.1, w.record r.2 (.fetch url (isOk r.1)))

def callUpload (B : Backend σ) (path : Str) (blob : Blob) (w : World σ) :
    UploadTask × World σ :=
  let r := B.uploadBytesResumable path blob w.store
  (r.1, w.record r.2 (.uploadBytes path blob (isOk r.1.result)))

def callDeleteObject (B : Backend σ) (path : Str) (w : World σ) :
    Except JsError Unit × World σ :=
  let r := B.deleteObject path w.store
  (r.1, w.record r.2 (.deleteObject path (isOk r.1)))

def callAddDoc (B : Backend σ) (data : DocData) (w : World σ) :
    Except JsError Str × World σ :=
  let r := B.addDoc data w.store
  (r.1, w.record r.2 (.addDoc data (isOk r.1)))

def callUpdateDoc (B : Backend σ) (id : Str) (data : DocData) (w : World σ) :
    Except JsError Unit × World σ :=
  let r := B.updateDoc id data w.store
  (r.1, w.record r.2 (.updateDoc id data (isOk r.1)))

/-- `uuidv4()`: a generated name; not a store call. -/
def callUuid (B : Backend σ) (w : World σ) : Str × World σ :=
  let r := B.uuidv4 w.store
  (r.1, { w with store := r.2 })

/-- Change the panel only. -/
def World.setUi (w : World σ) (f : Panel → Panel) : World σ :=
  { w with ui := f w.ui }

/-- `console.warn` / `console.error` with the given label. -/
def World.consoleLog (w : World σ) (label : String) : World σ :=
  w.setUi fun p => { p with console := p.console ++ [label] }

/-- `alert(msg)`. -/
def World.alert (w : World σ) (msg : String) : World σ :=
  w.setUi fun p => { p with alerts := p.alerts ++ [msg] }

end Calls

/-! ## Upload -/

/-- The folder an upload goes to:
`projectId ? "projects/" + projectId + "/" + type : "projects/unsaved/" + type`. -/
def baseFolder (projectId : Option Str) (type : Slot) : Str :=
  match projectId with
  | some id =>
    if truthy id then "projects/".toList ++ id ++ "/".toList ++ type.str
    else "projects/unsaved/".toList ++ type.str
  | none => "projects/unsaved/".toList ++ type.str

/-- The storage path of an upload, `baseFolder + "/" + filename`. -/
def uploadPath (projectId : Option Str) (type : Slot) (filename : Str) : Str :=
  baseFolder projectId type ++ "/".toList ++ filename

/-- Update of a keyed state object, `{ ...m, [k]: v }`. -/
def setKey {α : Type} (m : List (Nat × α)) (k : Nat) (v : α) : List (Nat × α) :=
  (k, v) :: m.filter fun e => e.1 != k

/-- The three places `uploadFileWithProgress` writes the upload indicators:
`setUploadingMain` / `setMainProgress` for the main slot, the per-index maps for a
gallery upload with an index, nothing otherwise. -/
def setUploadState (type : Slot) (index : Option Nat) (busy : Bool) (percent : Nat)
    (p : Panel) : Panel :=
  match type, index with
  | .main, _ => { p with uploadingMain := busy, mainProgress := percent }
  | .gallery, some i =>
    { p with uploading := setKey p.uploading i busy,
             uploadProgress := setKey p.uploadProgress i percent }
  | .gallery, none => p

/-- The progress callback: only the percentage changes. -/
def setProgress (type : Slot) (index : Option Nat) (percent : Nat) (p : Panel) : Panel :=
  match type, index with
  | .main, _ => { p with mainProgress := percent }
  | .gallery, some i => { p with uploadProgress := setKey p.uploadProgress i percent }
  | .gallery, none => p

section Upload
variable {σ : Type}

/-- The function `uploadFileWithProgress(file, { projectId, type, index })`; the
promise it returns is modelled by its settled value. -/
def uploadFileWithProgress (B : Backend σ) (file : Option JsFile) (projectId : Option Str)
    (type : Slot) (index : Option Nat) (w : World σ) :
    Except JsError (Str × Str) × World σ :=
  match file with
  | none => (.error ⟨"No file provided"⟩, w)
  | some f =>
    let path := uploadPath projectId type (callUuid B w).1
    let up := callUpload B path f.bytes (callUuid B w).2
    let w3 := up.2.setUi (setUploadState type index true 0)
    let w4 := up.1.progress.foldl (fun acc pc => acc.setUi (setProgress type index pc)) w3
    match up.1.result with
    | .error e => (.error e, w4.setUi (setUploadState type index false 0))
    | .ok _ =>
      match callGetDownloadURL B path w4 with
      | (.ok url, w5) => (.ok (url, path), w5.setUi (setUploadState type index false 100))
      | (.error e, w5) => (.error e, w5)

/-- Assignment `copy[index] = url` on a copy of an array; slots created past the
end are holes, which the save filter drops like blank entries, so they are
filled with the empty string here. -/
def arraySet (xs : List Str) (index : Nat) (url : Str) : List Str :=
  if index < xs.length then xs.set index url
  else xs ++ List.replicate (index - xs.length) [] ++ [url]

/-- The handler `handleFileSelect(e, index)` with `e.target.files?.[0] = file`. -/
def handleFileSelect (B : Backend σ) (file : Option JsFile) (index : Nat) (w : World σ) :
    World σ :=
  match file with
  | none => w
  | some f =>
    match uploadFileWithProgress B (some f) w.ui.editId .gallery (some index) w with
    | (.ok (url, _), w1) =>
      w1.setUi fun p =>
        { p with formData := { p.formData with gallery := arraySet p.formData.gallery index url } }
    | (.error _, w1) =>
      (w1.consoleLog "Upload failed").alert "Image upload failed. Check console."

/-- The handler `handleMainImageFileSelect(e)`; the delayed `setMainProgress(0)` of
its `finally` block has run. -/
def handleMainImageFileSelect (B : Backend σ) (file : Option JsFile) (w : World σ) :
    World σ :=
  match file with
  | none => w
  | some f =>
    let w2 :=
      match uploadFileWithProgress B (some f) w.ui.editId .main none w with
      | (.ok (url, _), w1) =>
        w1.setUi fun p => { p with formData := { p.formData with imageUrl := url } }
      | (.error _, w1) =>
        (w1.consoleLog "Main image upload failed").alert "Image upload failed. Check console."
    w2.setUi fun p => { p with mainProgress := 0 }

end Upload

/-! ## Relocation of provisional uploads -/

/-- The folder listed for a slot, `"projects/unsaved/" + type`. -/
def unsavedFolder (type : Slot) : Str := "projects/unsaved/".toList ++ type.str

/-- The path a relocated object is uploaded to,
`"projects/" + projectId + "/" + type + "/" + newFilename`. -/
def newPath (projectId : Str) (type : Slot) (newFilename : Str) : Str :=
  "projects/".toList ++ projectId ++ "/".toList ++ type.str ++ "/".toList ++ newFilename

section Relocation
variable {σ : Type}

/-- The `for (const itemRef of listed.items)` loop of `moveSingleUnsavedUrl`.
Every failure inside the `try` is logged and the loop goes on with the next
item; a failed delete is logged and ignored; when no item matches, the
original URL is returned.  `newFilename` is `(callUuid B w2).1` and `newPath` is
`newPath projectId type newFilename`. -/
def moveSingleLoop (B : Backend σ) (oldUrl projectId : Str) (type : Slot) :
    List Str → World σ → Str × World σ
  | [], w => (oldUrl, w)
  | itemRef :: rest, w =>
    match callGetDownloadURL B itemRef w with
    | (.error _, w1) =>
      moveSingleLoop B oldUrl projectId type rest (w1.consoleLog "check item failed")
    | (.ok itemUrl, w1) =>
      if itemUrl = oldUrl then
        match callFetch B oldUrl w1 with
        | (.error _, w2) =>
          moveSingleLoop B oldUrl projectId type rest (w2.consoleLog "check item failed")
        | (.ok blob, w2) =>
          match callUpload B (newPath projectId type (callUuid B w2).1) blob (callUuid B w2).2 with
          | (⟨_, .error _⟩, w4) =>
            moveSingleLoop B oldUrl projectId type rest (w4.consoleLog "check item failed")
          | (⟨_, .ok _⟩, w4) =>
            match callGetDownloadURL B (newPath projectId type (callUuid B w2).1) w4 with
            | (.error _, w5) =>
              moveSingleLoop B oldUrl projectId type rest (w5.consoleLog "check item failed")
            | (.ok newUrl, w5) =>
              match callDeleteObject B itemRef w5 with
              | (.error _, w6) =>
                (newUrl, w6.consoleLog "Failed to delete old unsaved object:")
              | (.ok _, w6) => (newUrl, w6)
      else moveSingleLoop B oldUrl projectId type rest w1

/-- The function `moveSingleUnsavedUrl(oldUrl, projectId, type)`; only a failing
`listAll` makes it throw. -/
def moveSingleUnsavedUrl (B : Backend σ) (oldUrl projectId : Str) (type : Slot)
    (w : World σ) : Except JsError Str × World σ :=
  match callListAll B (unsavedFolder type) w with
  | (.error e, w1) => (.error e, w1)
  | (.ok items, w1) =>
    let r := moveSingleLoop B oldUrl projectId type items w1
    (.ok r.1, r.2)

/-- The gallery loop of `moveUnsavedFilesForProject`, from some index on: the
entries still to visit, in order.  The result is the entries as they are when
the loop ends, and the error if a relocation threw (the loop stops there). -/
def moveGallery (B : Backend σ) (projectId : Str) :
    List Str → World σ → (List Str × Option JsError) × World σ
  | [], w => (([], none), w)
  | url :: rest, w =>
    if isUnsavedRef url then
      match moveSingleUnsavedUrl B url projectId .gallery w with
      | (.error e, w1) => ((url :: rest, some e), w1)
      | (.ok newUrl, w1) =>
        let r := moveGallery B projectId rest w1
        ((newUrl :: r.1.1, r.1.2), r.2)
    else
      let r := moveGallery B projectId rest w
      ((url :: r.1.1, r.1.2), r.2)

/-- The main-image step of `moveUnsavedFilesForProject`: the guarded call of
`moveSingleUnsavedUrl` for `updated.imageUrl`. -/
def moveMain (B : Backend σ) (projectId : Str) (imageUrl : Str) (w : World σ) :
    Except JsError Str × World σ :=
  if isUnsavedRef imageUrl then moveSingleUnsavedUrl B imageUrl projectId .main w
  else (.ok imageUrl, w)

/-- The `catch` (when something threw) and `finally` blocks of
`moveUnsavedFilesForProject`. -/
def endMove (threw : Bool) (w : World σ) : World σ :=
  (if threw then w.consoleLog "moveUnsavedFilesForProject error" else w).setUi
    fun p => { p with moving := false }

/-- The function `moveUnsavedFilesForProject(projectId, formatted)`.  A throw in the
`try` block is logged and the fields updated so far are returned. -/
def moveUnsavedFilesForProject (B : Backend σ) (projectId : Str) (formatted : ProjectFields)
    (w : World σ) : ProjectFields × World σ :=
  match moveMain B projectId formatted.imageUrl (w.setUi fun p => { p with moving := true }) with
  | (.error _, w1) => (formatted, endMove true w1)
  | (.ok newMain, w1) =>
    let r := moveGallery B projectId formatted.gallery w1
    ({ formatted with imageUrl := newMain, gallery := r.1.1 }, endMove r.1.2.isSome r.2)

end Relocation

/-! ## Saving a project -/

/-- The `formatted` object: `technologies` split on commas, trimmed, empty pieces
dropped (`filter(Boolean)`); blank gallery and stage entries dropped.  The test
`typeof g === "string"` of the gallery filter is always true for a `Str`. -/
def formatFields (formData : FormData) : ProjectFields :=
  { name := formData.name
    description := formData.description
    date := formData.date
    technologies := ((splitComma formData.technologies).map trim).filter fun t => !t.isEmpty
    liveUrl := formData.liveUrl
    githubUrl := formData.githubUrl
    imageUrl := formData.imageUrl
    role := formData.role
    duration := formData.duration
    tools := formData.tools
    results := formData.results
    gallery := formData.gallery.filter fun g => trim g != []
    stages := formData.stages.filter fun s => trim s != [] }

/-- The condition `if (editId)`: the id when `editId` is a non-empty string. -/
def editTarget (editId : Option Str) : Option Str :=
  match editId with
  | some id => if truthy id then some id else none
  | none => none

section Save
variable {σ : Type}

/-- The body of the `try` block of `handleSaveProject`: the store calls of the
two flows.  The result is the error thrown, if any. -/
def saveWrites (B : Backend σ) (editId : Option Str) (formatted : ProjectFields)
    (w : World σ) : Except JsError Unit × World σ :=
  match editTarget editId with
  | some id => callUpdateDoc B id ⟨formatted, .updatedAt⟩ w
  | none =>
    match callAddDoc B ⟨formatted, .createdAt⟩ w with
    | (.error e, w1) => (.error e, w1)
    | (.ok docRefId, w1) =>
      let m := moveUnsavedFilesForProject B docRefId formatted w1
      callUpdateDoc B docRefId ⟨m.1, .updatedAt⟩ m.2

/-- The handler `handleSaveProject()`. -/
def handleSaveProject (B : Backend σ) (w : World σ) : World σ :=
  let formData := w.ui.formData
  if (trim formData.name).isEmpty || (trim formData.description).isEmpty then
    w.alert "Please fill Name and Description."
  else
    let w1 := w.setUi fun p => { p with saving := true }
    let formatted := formatFields formData
    let w3 :=
      match saveWrites B w.ui.editId formatted w1 with
      | (.ok _, w2) =>
        w2.setUi fun p =>
          { p with showModal := false, editId := none, formData := emptyForm,
                   onUpdateCalls := p.onUpdateCalls + 1 }
      | (.error _, w2) => (w2.consoleLog "save error").alert "Save failed. See console."
    w3.setUi fun p => { p with saving := false }

end Save

/-! ## Reference stores

A reference implementation of the two external stores: objects addressed by
path, documents of the `projects` collection addressed by id.  The access-URL
scheme and the generators of document ids and file names are parameters. -/

/-- Modelled from the spec: the parameters of the external stores (the hosted
backend behind the SDK, which is not part of this repository): the access-URL
scheme and the generators of document ids and of file names. -/
structure RefConfig where
  urlOf : Str → Str
  docId : Nat → Str
  uuid : Nat → Str

/-- A stored project document. -/
structure ProjectDoc where
  fields : ProjectFields
  createdAt : Option Nat
  updatedAt : Option Nat
deriving DecidableEq, Repr

/-- Modelled from the spec: the state of the Object Store Client (path-addressed
blobs) and of the Document Store Client (the `projects` collection). -/
structure RefStore where
  objects : List (Str × Blob)
  docs : List (Str × ProjectDoc)
  nextDoc : Nat
  nextUuid : Nat
  clock : Nat
deriving DecidableEq, Repr

/-- The value stored under a key. -/
def getKey {α : Type} : List (Str × α) → Str → Option α
  | [], _ => none
  | (k, v) :: t, p => if k = p then some v else getKey t p

/-- Store a value under a key, replacing the one there. -/
def putKey {α : Type} : List (Str × α) → Str → α → List (Str × α)
  | [], p, v => [(p, v)]
  | (k, x) :: t, p, v => if k = p then (p, v) :: t else (k, x) :: putKey t p v

/-- Remove a key. -/
def eraseKey {α : Type} (m : List (Str × α)) (p : Str) : List (Str × α) :=
  m.filter fun e => e.1 != p

/-- Whether `path` names an object directly inside `folder`:
`folder + "/" + name` with a non-empty `name` without `/`. -/
def isDirectChild (folder path : Str) : Bool :=
  (folder ++ ['/']).isPrefixOf path &&
    (!(path.drop (folder.length + 1)).isEmpty && !(path.drop (folder.length + 1)).contains '/')

/-- The bytes an access URL resolves to: those of the first object whose access
URL it is. -/
def resolveUrl (cfg : RefConfig) : List (Str × Blob) → Str → Option Blob
  | [], _ => none
  | (p, b) :: t, url => if cfg.urlOf p = url then some b else resolveUrl cfg t url

/-- Merge a write into a document: the fields are overwritten and the timestamp
the write carries is set. -/
def applyWrite (old : Option ProjectDoc) (data : DocData) (now : Nat) : ProjectDoc :=
  match data.stamp with
  | .createdAt =>
    { fields := data.fields, createdAt := some now, updatedAt := old.bind (·.updatedAt) }
  | .updatedAt =>
    { fields := data.fields, createdAt := old.bind (·.createdAt), updatedAt := some now }

/-- Modelled from the spec: the Object Store Client and the Document Store Client,
which the repository only calls through the SDK.  `list` returns the objects
directly inside a folder, the access URL of an existing object is `urlOf path`,
`put` overwrites, `delete` fails when nothing is stored at the path, `insert`
allocates the next id, `update` merges into an existing document and fails when
there is none.  No call fails for transport reasons. -/
def refBackend (cfg : RefConfig) : Backend RefStore where
  listAll folder s := (.ok ((s.objects.map Prod.fst).filter (isDirectChild folder)), s)
  getDownloadURL path s :=
    match getKey s.objects path with
    | some _ => (.ok (cfg.urlOf path), s)
    | none => (.error ⟨"storage/object-not-found"⟩, s)
  fetch url s :=
    match resolveUrl cfg s.objects url with
    | some b => (.ok b, s)
    | none => (.error ⟨"fetch failed"⟩, s)
  uploadBytesResumable path blob s :=
    (⟨[100], .ok ()⟩, { s with objects := putKey s.objects path blob })
  deleteObject path s :=
    match getKey s.objects path with
    | some _ => (.ok (), { s with objects := eraseKey s.objects path })
    | none => (.error ⟨"storage/object-not-found"⟩, s)
  addDoc data s :=
    (.ok (cfg.docId s.nextDoc),
      { s with docs := s.docs ++ [(cfg.docId s.nextDoc, applyWrite none data s.clock)],
               nextDoc := s.nextDoc + 1, clock := s.clock + 1 })
  updateDoc id data s :=
    match getKey s.docs id with
    | some d =>
      (.ok (), { s with docs := putKey s.docs id (applyWrite (some d) data s.clock),
                        clock := s.clock + 1 })
    | none => (.error ⟨"not-found"⟩, s)
  uuidv4 s := (cfg.uuid s.nextUuid, { s with nextUuid := s.nextUuid + 1 })

/-- A sample configuration: URLs embed the path literally. -/
def demoConfig : RefConfig where
  urlOf p := "https://cdn.test/".toList ++ p
  docId n := 'd' :: List.replicate n 'x'
  uuid n := 'u' :: List.replicate n 'x'

/-- A configuration whose access URLs percent-encode the `/` of the path. -/
def encodedConfig : RefConfig where
  urlOf p := "https://cdn.test/o/".toList ++ p.flatMap fun c => if c = '/' then "%2F".toList else [c]
  docId n := 'd' :: List.replicate n 'x'
  uuid n := 'u' :: List.replicate n 'x'

/-- An empty reference store. -/
def emptyStore : RefStore :=
  { objects := [], docs := [], nextDoc := 0, nextUuid := 0, clock := 0 }

/-- A world over the reference stores with the given store and panel. -/
def mkWorld (s : RefStore) (p : Panel) : World RefStore := { store := s, log := [], ui := p }

/-! ## Observations on a run -/

/-- The data of a document write. -/
def Call.docData : Call → Option DocData
  | .addDoc d _ => some d
  | .updateDoc _ d _ => some d
  | _ => none

/-- An entry that is empty or consists of whitespace only. -/
def isBlank (s : Str) : Bool := s.all isJsWhitespace

/-- The technologies sequence in the words of the specification: the string split
on commas (`List.splitOn`), every piece stripped of leading and trailing
whitespace, empty pieces removed. -/
def technologiesSpec (s : Str) : List Str :=
  ((s.splitOn ',').map fun p => (p.dropWhile isJsWhitespace).rdropWhile isJsWhitespace).filter
    fun p => decide (p ≠ [])

/-- The sub-sequence of the entries that are not blank, in the words of the
specification. -/
def nonBlankSpec (l : List Str) : List Str := l.filter fun e => !isBlank e

/-- The world right after the `addDoc` of a new-project save. -/
def insertedWorld {σ : Type} (B : Backend σ) (w : World σ) : World σ :=
  (callAddDoc B ⟨formatFields w.ui.formData, .createdAt⟩
    (w.setUi fun p => { p with saving := true })).2

/-- The later world `w2` is reached from `w1` by object-store operations only (besides
changes of the panel): its log is the log of `w1` followed by such calls. -/
def StorageOnly {σ : Type} (w1 w2 : World σ) : Prop :=
  ∃ calls, w2.log = w1.log ++ calls ∧ ∀ c ∈ calls, c.isStorage = true

/-- Look-ups in the object store: listing a folder and asking for an access URL. -/
def Call.isLookup : Call → Bool
  | .listAll _ _ => true
  | .getDownloadURL _ _ => true
  | _ => false

/-- Looking up the access URLs of the listed items one after the other, as the loop
of `moveSingleUnsavedUrl` does, none of them comes back as `oldUrl`. -/
def noMatch {σ : Type} (B : Backend σ) (oldUrl : Str) : List Str → σ → Bool
  | [], _ => true
  | item :: rest, s =>
    (match (B.getDownloadURL item s).1 with
      | .ok u => u != oldUrl
      | .error _ => true) && noMatch B oldUrl rest (B.getDownloadURL item s).2

/-- What the calls `calls` made from world `w` say when they contain a failed delete of
`item`: they end with the upload of some bytes to a path
`projects/<pid>/<slot>/<name>`, the successful look-up of the access URL of that
path, and the failed delete; `url` is the access URL the store returned at that
look-up. -/
def ReturnsUploaded {σ : Type} (B : Backend σ) (pid : Str) (t : Slot) (w : World σ)
    (calls : List Call) (url : Str) : Prop :=
  ∀ item, Call.deleteObject item false ∈ calls →
    ∃ (pre : List Call) (name : Str) (blob : Blob) (v : World σ),
      calls = pre ++ [Call.uploadBytes (newPath pid t name) blob true,
        Call.getDownloadURL (newPath pid t name) true, Call.deleteObject item false] ∧
      v.log = w.log ++ pre ++ [Call.uploadBytes (newPath pid t name) blob true] ∧
      (B.getDownloadURL (newPath pid t name) v.store).1 = .ok url

/-- The world in which a new-project save starts the relocation of the main image. -/
def movingWorld {σ : Type} (B : Backend σ) (w : World σ) : World σ :=
  (insertedWorld B w).setUi fun p => { p with moving := true }

/-- The URL an upload resolved with, if it did. -/
def resultUrl (r : Except JsError (Str × Str)) : Option Str :=
  match r with
  | .ok (url, _) => some url
  | .error _ => none

/-- A backend whose `deleteObject` always fails, otherwise `B`. -/
def withFailingDelete {σ : Type} (B : Backend σ) : Backend σ :=
  { B with deleteObject := fun _ s => (.error ⟨"storage/unauthorized"⟩, s) }

/-- A backend whose `listAll` always fails, otherwise `B`. -/
def withFailingList {σ : Type} (B : Backend σ) : Backend σ :=
  { B with listAll := fun _ s => (.error ⟨"storage/retry-limit-exceeded"⟩, s) }

/-- A backend whose `updateDoc` always fails, otherwise `B`. -/
def withFailingUpdate {σ : Type} (B : Backend σ) : Backend σ :=
  { B with updateDoc := fun _ _ s => (.error ⟨"unavailable"⟩, s) }

/-- A backend whose `addDoc` always fails, otherwise `B`. -/
def withFailingAdd {σ : Type} (B : Backend σ) : Backend σ :=
  { B with addDoc := fun _ s => (.error ⟨"unavailable"⟩, s) }

/-- The fields and the world `moveUnsavedFilesForProject` returns in a new-project save
whose insert returned `id`. -/
def movedFor {σ : Type} (B : Backend σ) (w : World σ) (id : Str) : ProjectFields × World σ :=
  moveUnsavedFilesForProject B id (formatFields w.ui.formData) (insertedWorld B w)

/-- The save was aborted with the form open and intact: modal, `editId` and
`formData` as before, the saving flag cleared, and the failure alert shown. -/
def SaveAborted {σ : Type} (w w2 : World σ) : Prop :=
  w2.ui.showModal = w.ui.showModal ∧ w2.ui.editId = w.ui.editId ∧
    w2.ui.formData = w.ui.formData ∧ w2.ui.saving = false ∧
    w2.ui.alerts = w.ui.alerts ++ ["Save failed. See console."]

/-- The save finished as a success: modal closed, `editId` cleared, form reset, the
saving flag cleared, `onUpdate` called once, no alert. -/
def SaveSucceeded {σ : Type} (w w2 : World σ) : Prop :=
  w2.ui.showModal = false ∧ w2.ui.editId = none ∧ w2.ui.formData = emptyForm ∧
    w2.ui.saving = false ∧ w2.ui.alerts = w.ui.alerts ∧
    w2.ui.onUpdateCalls = w.ui.onUpdateCalls + 1

/-- A change of the panel that touches only the `moving` flag and the console. -/
def OnlyMoving (f : Panel → Panel) : Prop :=
  ∀ p, { f p with moving := p.moving, console := p.console } = p

/-- What a relocation may do to the world, step by step: change the `moving` flag and
the console of the panel, list a folder, look up an access URL, fetch a URL,
upload to a freshly named path under `projects/<pid>/<slot>/` for a slot
satisfying `T`, and delete a path that satisfies `D`. -/
inductive Reach {σ : Type} (B : Backend σ) (pid : Str) (T : Slot → Prop) (D : Str → Prop) :
    World σ → World σ → Prop
  | refl (w : World σ) : Reach B pid T D w w
  | trans {w1 w2 w3 : World σ} :
      Reach B pid T D w1 w2 → Reach B pid T D w2 w3 → Reach B pid T D w1 w3
  | ui (w : World σ) (f : Panel → Panel) (hf : OnlyMoving f) : Reach B pid T D w (w.setUi f)
  | listAll (folder : Str) (w : World σ) : Reach B pid T D w (callListAll B folder w).2
  | getDownloadURL (path : Str) (w : World σ) :
      Reach B pid T D w (callGetDownloadURL B path w).2
  | fetch (url : Str) (w : World σ) : Reach B pid T D w (callFetch B url w).2
  | upload (t : Slot) (blob : Blob) (w : World σ) (h : T t) :
      Reach B pid T D w (callUpload B (newPath pid t (callUuid B w).1) blob (callUuid B w).2).2
  | delete (item : Str) (w : World σ) (h : D item) :
      Reach B pid T D w (callDeleteObject B item w).2

/-- A path that `listAll` returned for the provisional folder of the slot and whose
access URL was looked up as `url`: the only kind of path a relocation of the
reference `url` in that slot deletes. -/
def Matched {σ : Type} (B : Backend σ) (t : Slot) (url : Str) (item : Str) : Prop :=
  (∃ (s : σ) (items : List Str),
      (B.listAll (unsavedFolder t) s).1 = .ok items ∧ item ∈ items) ∧
    ∃ s : σ, (B.getDownloadURL item s).1 = .ok url

/-- The paths `moveUnsavedFilesForProject` may delete for a field set. -/
def MatchedFields {σ : Type} (B : Backend σ) (f : ProjectFields) (item : Str) : Prop :=
  (isUnsavedRef f.imageUrl = true ∧ Matched B .main f.imageUrl item) ∨
    ∃ u ∈ f.gallery, isUnsavedRef u = true ∧ Matched B .gallery u item

/-- The store after the object at `old` was copied to `np` and deleted. -/
def relocated (s : RefStore) (old np : Str) (b : Blob) : RefStore :=
  { s with objects := eraseKey (putKey s.objects np b) old, nextUuid := s.nextUuid + 1 }

/-- The `technologies` field of a stored project as `handleEdit` may find it: an array,
a string, or something falsy (for example absent). -/
inductive StoredTechnologies
  | list (items : List Str)
  | text (s : Str)
  | missing
deriving DecidableEq, Repr

/-- A project of the `projects` state, as read from a snapshot: the document id and
the fields `handleEdit` reads; a field the document lacks is none. -/
structure StoredProject where
  id : Str
  name : Option Str
  description : Option Str
  date : Option Str
  technologies : StoredTechnologies
  liveUrl : Option Str
  githubUrl : Option Str
  imageUrl : Option Str
  role : Option Str
  duration : Option Str
  tools : Option Str
  results : Option Str
  gallery : Option (List Str)
  stages : Option (List Str)
deriving DecidableEq, Repr

/-- JavaScript `arr.join(sep)` on an array of strings. -/
def join (sep : Str) : List Str → Str
  | [] => []
  | [x] => x
  | x :: y :: rest => x ++ sep ++ join sep (y :: rest)

/-- The expression `v || ""` on an optional string. -/
def orEmpty (v : Option Str) : Str := v.getD []

/-- The expression `arr?.length ? arr : [""]`. -/
def orBlankRow (arr : Option (List Str)) : List Str :=
  match arr with
  | some (x :: xs) => x :: xs
  | _ => [[]]

/-- The handler `handleEdit(project)`: the form is filled from the project, the
edit id is set and the modal is opened. -/
def handleEdit (project : StoredProject) (p : Panel) : Panel :=
  { p with
    formData :=
      { name := orEmpty project.name
        description := orEmpty project.description
        date := orEmpty project.date
        technologies :=
          match project.technologies with
          | .list items => join ", ".toList items
          | .text s => s
          | .missing => []
        liveUrl := orEmpty project.liveUrl
        githubUrl := orEmpty project.githubUrl
        imageUrl := orEmpty project.imageUrl
        role := orEmpty project.role
        duration := orEmpty project.duration
        tools := orEmpty project.tools
        results := orEmpty project.results
        gallery := orBlankRow project.gallery
        stages := orBlankRow project.stages }
    editId := some project.id
    showModal := true }

/-- A string has no leading and no trailing whitespace: neither its first nor its
last character is a whitespace character. -/
def noOuterSpace (t : Str) : Bool :=
  (match t.head? with
    | some c => !isJsWhitespace c
    | none => true) &&
  (match t.getLast? with
    | some c => !isJsWhitespace c
    | none => true)

/-- A stored project with three technologies, one gallery image and two stages. -/
def storedSample : StoredProject :=
  { id := "p1".toList, name := some "Shop".toList, description := some "A shop".toList,
    date := none, technologies := .list ["React".toList, "Node JS".toList, "C#".toList],
    liveUrl := none, githubUrl := none, imageUrl := none, role := none, duration := none,
    tools := none, results := none, gallery := some ["https://x.test/a.png".toList],
    stages := some ["Design".toList, "Build it".toList] }

/-- Whether `uploadFileWithProgress` tracks the upload in the panel: always for the
main image, for a gallery upload only when an index is given. -/
def tracked (type : Slot) (index : Option Nat) : Bool :=
  match type, index with
  | .gallery, none => false
  | _, _ => true

/-- The uploading flag of an upload as the panel holds it: `uploadingMain` for the main
image, `uploading[index]` for a gallery upload (none when the key is absent). -/
def uploadingFlag (type : Slot) (index : Option Nat) (p : Panel) : Option Bool :=
  match type, index with
  | .main, _ => some p.uploadingMain
  | .gallery, some i => p.uploading.lookup i
  | .gallery, none => none

/-- The progress indicator of an upload as the panel holds it: `mainProgress` for the
main image, `uploadProgress[index]` for a gallery upload. -/
def progressOf (type : Slot) (index : Option Nat) (p : Panel) : Option Nat :=
  match type, index with
  | .main, _ => some p.mainProgress
  | .gallery, some i => p.uploadProgress.lookup i
  | .gallery, none => none

/-- The task and the world of `uploadFileWithProgress` when the upload task has ended
(after the initial state and the progress snapshots, before the error or the
completion callback runs). -/
def uploadedTask {σ : Type} (B : Backend σ) (f : JsFile) (projectId : Option Str)
    (type : Slot) (index : Option Nat) (w : World σ) : UploadTask × World σ :=
  ((callUpload B (uploadPath projectId type (callUuid B w).1) f.bytes (callUuid B w).2).1,
    (callUpload B (uploadPath projectId type (callUuid B w).1) f.bytes
        (callUuid B w).2).1.progress.foldl
      (fun acc pc => acc.setUi (setProgress type index pc))
      ((callUpload B (uploadPath projectId type (callUuid B w).1) f.bytes
        (callUuid B w).2).2.setUi (setUploadState type index true 0)))

/-- A backend whose `getDownloadURL` always fails, otherwise `B`. -/
def withFailingUrl {σ : Type} (B : Backend σ) : Backend σ :=
  { B with getDownloadURL := fun _ s => (.error ⟨"storage/unauthorized"⟩, s) }

/-- A backend whose transfers stop with an error after 40 percent, otherwise `B`. -/
def withFailingTransfer {σ : Type} (B : Backend σ) : Backend σ :=
  { B with uploadBytesResumable := fun _ _ s => (⟨[40], .error ⟨"storage/canceled"⟩⟩, s) }

/-! ## Sample inputs -/

/-- A filled-in form with one provisional main image and one pasted gallery URL. -/
def sampleForm : FormData :=
  { name := "Site".toList, description := "A site".toList, date := "2024".toList,
    technologies := " react, ,firebase ,".toList, liveUrl := [], githubUrl := [],
    imageUrl := "https://cdn.test/projects/unsaved/main/abc".toList,
    role := [], duration := [], tools := [], results := [],
    gallery := ["https://ext.test/a.png".toList, "  ".toList],
    stages := [[], "plan".toList, " ".toList, "build".toList] }

/-- A store holding the provisional main image of `sampleForm` and one project. -/
def sampleStore : RefStore :=
  { objects := [("projects/unsaved/main/abc".toList, [1, 2, 3])],
    docs := [("p1".toList, ⟨formatFields sampleForm, some 0, none⟩)],
    nextDoc := 0, nextUuid := 0, clock := 1 }

/-- The store of `sampleStore` after the provisional main image was deleted by someone
else. -/
def danglingStore : RefStore := { sampleStore with objects := [] }

/-- A form whose first gallery entry is a provisional upload. -/
def galleryForm : FormData :=
  { sampleForm with
      imageUrl := [],
      gallery := ["https://cdn.test/projects/unsaved/gallery/g1".toList, " ".toList,
        "https://ext.test/a.png".toList] }

/-- Fields with a provisional main image and a gallery holding a pasted URL and a
provisional upload. -/
def twoRefFields : ProjectFields :=
  { formatFields sampleForm with
      gallery := ["https://ext.test/a.png".toList,
        "https://cdn.test/projects/unsaved/gallery/g1".toList] }

/-- A store holding the two provisional objects of `twoRefFields`. -/
def twoRefStore : RefStore :=
  { objects := [("projects/unsaved/main/abc".toList, [1, 2, 3]),
      ("projects/unsaved/gallery/g1".toList, [9, 9])],
    docs := [], nextDoc := 0, nextUuid := 0, clock := 0 }

/-- A store holding the provisional gallery upload of `galleryForm`. -/
def galleryStore : RefStore :=
  { objects := [("projects/unsaved/gallery/g1".toList, [9, 9])],
    docs := [], nextDoc := 0, nextUuid := 0, clock := 0 }

/-- The panel with the modal open on a form, creating (`none`) or editing. -/
def panelWith (form : FormData) (editId : Option Str) : Panel :=
  { initialPanel with formData := form, editId := editId, showModal := true }

end Projects

/-! # Gallery manager (`src/dashboard/Gallery.jsx`)

The profile-photo selector.  As for the projects panel, the SDK is a record of
state transformers that may fail, every call is logged, and `refBackend` is a
reference implementation of the stores. -/

namespace Gallery

open Projects (Str Blob JsError JsFile UploadTask getKey putKey eraseKey isOk)

/-- The data of a document of the gallery collection.  `isProfile` is `true` exactly
when the stored value is the boolean `true` (the tests are `=== true`). -/
structure ImageData where
  url : Str
  storagePath : Str
  createdAt : Nat
  isProfile : Bool
deriving DecidableEq, Repr

/-- The object `handleUpload` hands to `addDoc`, next to the server timestamp:
`{ url, storagePath, createdAt: serverTimestamp(), isProfile }`. -/
structure NewImage where
  url : Str
  storagePath : Str
  isProfile : Bool
deriving DecidableEq, Repr

/-- The SDK calls of `Gallery.jsx`.  `updateDoc coll id b` is
`updateDoc(doc(db, coll, id), { isProfile: b })`; `now` is `Date.now()`. -/
structure Backend (σ : Type) where
  getDocs : Str → σ → Except JsError (List (Str × ImageData)) × σ
  updateDoc : Str → Str → Bool → σ → Except JsError Unit × σ
  addDoc : Str → NewImage → σ → Except JsError Str × σ
  deleteDoc : Str → Str → σ → Except JsError Unit × σ
  uploadBytesResumable : Str → Blob → σ → UploadTask × σ
  getDownloadURL : Str → σ → Except JsError Str × σ
  deleteObject : Str → σ → Except JsError Unit × σ
  now : σ → Nat × σ

/-- A store call the gallery manager made, with whether it succeeded. -/
inductive Call
  | getDocs (coll : Str) (ok : Bool)
  | updateDoc (coll id : Str) (isProfile : Bool) (ok : Bool)
  | addDoc (coll : Str) (data : NewImage) (ok : Bool)
  | deleteDoc (coll id : Str) (ok : Bool)
  | uploadBytes (path : Str) (blob : Blob) (ok : Bool)
  | getDownloadURL (path : Str) (ok : Bool)
  | deleteObject (path : Str) (ok : Bool)
deriving DecidableEq, Repr

/-- Whether the call succeeded. -/
def Call.ok : Call → Bool
  | .getDocs _ b => b
  | .updateDoc _ _ _ b => b
  | .addDoc _ _ b => b
  | .deleteDoc _ _ b => b
  | .uploadBytes _ _ b => b
  | .getDownloadURL _ b => b
  | .deleteObject _ b => b

/-- The document write a call is: collection, document id and the value written
to `isProfile`; none for the other calls. -/
def Call.write : Call → Option (Str × Str × Bool)
  | .updateDoc coll id b _ => some (coll, id, b)
  | _ => none

/-- The React state of the gallery manager plus what it showed the user;
`unhandled` counts rejected promises that nothing awaits. -/
structure Panel where
  images : List (Str × ImageData)
  uploading : Bool
  progress : Nat
  alerts : List String
  console : List String
  unhandled : Nat
deriving DecidableEq, Repr

/-- The store, the calls made so far, and the panel. -/
structure World (σ : Type) where
  store : σ
  log : List Call
  ui : Panel

/-- The panel as first rendered. -/
def initialPanel : Panel :=
  { images := [], uploading := false, progress := 0, alerts := [], console := [],
    unhandled := 0 }

/-- The collection the gallery manager reads and writes. -/
def collectionName : Str := "aboutGallery".toList

section Handlers
variable {σ : Type}

/-- Record a call in the log, keeping the new store state. -/
def World.record (w : World σ) (s : σ) (c : Call) : World σ :=
  { w with store := s, log := w.log ++ [c] }

def callGetDocs (B : Backend σ) (coll : Str) (w : World σ) :
    Except JsError (List (Str × ImageData)) × World σ :=
  let r := B.getDocs coll w.store
  (r.1, w.record r.2 (.getDocs coll (isOk r.1)))

def callUpdateDoc (B : Backend σ) (coll id : Str) (b : Bool) (w : World σ) :
    Except JsError Unit × World σ :=
  let r := B.updateDoc coll id b w.store
  (r.1, w.record r.2 (.updateDoc coll id b (isOk r.1)))

/-- The callback of `allDocs.forEach(async (d) => ...)` for one document of the
snapshot: the clearing `updateDoc` is issued when the document is flagged; its
promise is not awaited by `setAsProfile`, so a failure is an unhandled rejection. -/
def clearFlag (B : Backend σ) (d : Str × ImageData) (w : World σ) : World σ :=
  if d.2.isProfile then
    match callUpdateDoc B collectionName d.1 false w with
    | (.ok _, w1) => w1
    | (.error _, w1) => { w1 with ui := { w1.ui with unhandled := w1.ui.unhandled + 1 } }
  else w

/-- The handler `setAsProfile(item)`, with `item.id = itemId`. -/
def setAsProfile (B : Backend σ) (itemId : Str) (w : World σ) : World σ :=
  match callGetDocs B collectionName w with
  | (.error _, w1) =>
    { w1 with ui := { w1.ui with console := w1.ui.console ++ ["Error setting profile:"] } }
  | (.ok allDocs, w1) =>
    match callUpdateDoc B collectionName itemId true
        (allDocs.foldl (fun acc d => clearFlag B d acc) w1) with
    | (.ok _, w3) =>
      { w3 with ui := { w3.ui with alerts := w3.ui.alerts ++ ["Profile photo updated!"] } }
    | (.error _, w3) =>
      { w3 with ui := { w3.ui with console := w3.ui.console ++ ["Error setting profile:"] } }

end Handlers

/-! ## Reference stores -/

/-- Modelled from the spec: the state of the Document Store Client (collections by
name, documents in snapshot order) and of the Object Store Client, which the
repository only calls through the SDK.  `denied` lists the ids of documents whose
writes the store rejects. -/
structure RefDb where
  collections : List (Str × List (Str × ImageData))
  objects : List (Str × Blob)
  denied : List Str
  nextId : Nat
  clock : Nat
deriving DecidableEq, Repr

/-- The documents of a collection, none when the collection does not exist. -/
def docsOf (db : RefDb) (coll : Str) : List (Str × ImageData) :=
  (getKey db.collections coll).getD []

/-- The partial update `{ isProfile: b }` of document `id`. -/
def setFlag (docs : List (Str × ImageData)) (id : Str) (b : Bool) : List (Str × ImageData) :=
  docs.map fun e => if e.1 = id then (e.1, { e.2 with isProfile := b }) else e

/-- Modelled from the spec: the Document Store Client and the Object Store Client
behind the SDK.  A read returns the documents of the collection in order; an
update fails for a denied or missing document and otherwise merges the field;
an insert appends a document under the next id; deleting a document always
succeeds; objects behave as in the projects panel. -/
def refBackend (cfg : Projects.RefConfig) : Backend RefDb where
  getDocs coll s := (.ok (docsOf s coll), s)
  updateDoc coll id b s :=
    if id ∈ s.denied then (.error ⟨"permission-denied"⟩, s)
    else if id ∈ (docsOf s coll).map Prod.fst then
      (.ok (), { s with collections := putKey s.collections coll (setFlag (docsOf s coll) id b) })
    else (.error ⟨"not-found"⟩, s)
  addDoc coll data s :=
    (.ok (cfg.docId s.nextId),
      { s with
          collections := putKey s.collections coll
            (docsOf s coll ++
              [(cfg.docId s.nextId, ⟨data.url, data.storagePath, s.clock, data.isProfile⟩)]),
          nextId := s.nextId + 1, clock := s.clock + 1 })
  deleteDoc coll id s :=
    (.ok (), { s with collections := putKey s.collections coll (eraseKey (docsOf s coll) id) })
  uploadBytesResumable path blob s :=
    (⟨[100], .ok ()⟩, { s with objects := putKey s.objects path blob })
  getDownloadURL path s :=
    match getKey s.objects path with
    | some _ => (.ok (cfg.urlOf path), s)
    | none => (.error ⟨"storage/object-not-found"⟩, s)
  deleteObject path s :=
    match getKey s.objects path with
    | some _ => (.ok (), { s with objects := eraseKey s.objects path })
    | none => (.error ⟨"storage/object-not-found"⟩, s)
  now s := (s.clock, s)

/-- A world over the reference stores. -/
def mkWorld (db : RefDb) (p : Panel) : World RefDb := { store := db, log := [], ui := p }

/-- The ids of the flagged documents of a snapshot. -/
def flaggedIds (snap : List (Str × ImageData)) : List Str :=
  (snap.filter fun e => e.2.isProfile).map Prod.fst

/-- All clearing writes of a snapshot applied to the documents, in order. -/
def clearedDocs (snap docs : List (Str × ImageData)) : List (Str × ImageData) :=
  snap.foldl (fun ds e => if e.2.isProfile then setFlag ds e.1 false else ds) docs

/-! ## Sample inputs -/

/-- Two images, the first one the current profile photo. -/
def twoImages : List (Str × ImageData) :=
  [("img1".toList, ⟨"https://cdn.test/1.png".toList, "aboutGallery/uploads/1-a.png".toList, 1, true⟩),
   ("img2".toList, ⟨"https://cdn.test/2.png".toList, "aboutGallery/uploads/2-b.png".toList, 2, false⟩)]

/-- A database holding `twoImages` in the collection of the gallery manager. -/
def sampleDb : RefDb :=
  { collections := [(collectionName, twoImages)], objects := [], denied := [],
    nextId := 0, clock := 3 }

/-- A database in which the current profile photo `img1` cannot be written. -/
def lockedDb : RefDb := { sampleDb with denied := ["img1".toList] }

/-! ## Upload and delete -/

section Uploads
variable {σ : Type}

def callUpload (B : Backend σ) (path : Str) (blob : Blob) (w : World σ) :
    UploadTask × World σ :=
  let r := B.uploadBytesResumable path blob w.store
  (r.1, w.record r.2 (.uploadBytes path blob (isOk r.1.result)))

def callGetDownloadURL (B : Backend σ) (path : Str) (w : World σ) :
    Except JsError Str × World σ :=
  let r := B.getDownloadURL path w.store
  (r.1, w.record r.2 (.getDownloadURL path (isOk r.1)))

def callAddDoc (B : Backend σ) (coll : Str) (data : NewImage) (w : World σ) :
    Except JsError Str × World σ :=
  let r := B.addDoc coll data w.store
  (r.1, w.record r.2 (.addDoc coll data (isOk r.1)))

def callDeleteObject (B : Backend σ) (path : Str) (w : World σ) :
    Except JsError Unit × World σ :=
  let r := B.deleteObject path w.store
  (r.1, w.record r.2 (.deleteObject path (isOk r.1)))

def callDeleteDoc (B : Backend σ) (coll id : Str) (w : World σ) :
    Except JsError Unit × World σ :=
  let r := B.deleteDoc coll id w.store
  (r.1, w.record r.2 (.deleteDoc coll id (isOk r.1)))

/-- The storage path of a gallery upload: the template
"aboutGallery/uploads/" + Date.now() + "-" + file.name, the time in decimal. -/
def uploadPath (now : Nat) (name : Str) : Str :=
  "aboutGallery/uploads/".toList ++ (Nat.repr now).toList ++ "-".toList ++ name

/-- The world after `setUploading(true)` and the `state_changed` snapshots of a task:
each sets `progress` to its rounded percentage. -/
def afterProgress (task : UploadTask) (w : World σ) : World σ :=
  task.progress.foldl (fun acc pc => { acc with ui := { acc.ui with progress := pc } })
    { w with ui := { w.ui with uploading := true } }

/-- The handler `handleUpload(e)` with `e.target.files[0] = file`, followed to the
end of the upload task.  The error callback logs and clears `uploading`; the
completion callback is an async function nobody awaits, so a failure of
`getDownloadURL` or of `addDoc` in it is an unhandled rejection and skips the
rest of the callback. -/
def handleUpload (B : Backend σ) (file : Option JsFile) (w : World σ) : World σ :=
  match file with
  | none => w
  | some f =>
    let path := uploadPath (B.now w.store).1 f.name
    let up := callUpload B path f.bytes { w with store := (B.now w.store).2 }
    let w3 := afterProgress up.1 up.2
    match up.1.result with
    | .error e =>
      { w3 with ui := { w3.ui with console := w3.ui.console ++ [e.msg], uploading := false } }
    | .ok _ =>
      match callGetDownloadURL B path w3 with
      | (.error _, w4) => { w4 with ui := { w4.ui with unhandled := w4.ui.unhandled + 1 } }
      | (.ok url, w4) =>
        match callAddDoc B collectionName ⟨url, path, false⟩ w4 with
        | (.error _, w5) => { w5 with ui := { w5.ui with unhandled := w5.ui.unhandled + 1 } }
        | (.ok _, w5) => { w5 with ui := { w5.ui with uploading := false, progress := 0 } }

/-- The task and the world of `handleUpload` when the task has ended (after the
progress snapshots, before the error or completion callback runs). -/
def uploaded (B : Backend σ) (f : JsFile) (w : World σ) : UploadTask × World σ :=
  ((callUpload B (uploadPath (B.now w.store).1 f.name) f.bytes
      { w with store := (B.now w.store).2 }).1,
    afterProgress
      (callUpload B (uploadPath (B.now w.store).1 f.name) f.bytes
        { w with store := (B.now w.store).2 }).1
      (callUpload B (uploadPath (B.now w.store).1 f.name) f.bytes
        { w with store := (B.now w.store).2 }).2)

/-- The handler `handleDelete(item)`; `confirmed` is the answer to
`window.confirm("Delete this image?")`. -/
def handleDelete (B : Backend σ) (confirmed : Bool) (item : Str × ImageData) (w : World σ) :
    World σ :=
  if confirmed then
    match callDeleteObject B item.2.storagePath w with
    | (.error e, w1) => { w1 with ui := { w1.ui with console := w1.ui.console ++ [e.msg] } }
    | (.ok _, w1) =>
      match callDeleteDoc B collectionName item.1 w1 with
      | (.error e, w2) => { w2 with ui := { w2.ui with console := w2.ui.console ++ [e.msg] } }
      | (.ok _, w2) => w2
  else w

/-- A backend whose transfers stop with an error after 40 percent, otherwise `B`. -/
def withFailingTransfer (B : Backend σ) : Backend σ :=
  { B with uploadBytesResumable := fun _ _ s => (⟨[40], .error ⟨"storage/canceled"⟩⟩, s) }

/-- A backend whose `getDownloadURL` always fails, otherwise `B`. -/
def withFailingUrl (B : Backend σ) : Backend σ :=
  { B with getDownloadURL := fun _ s => (.error ⟨"storage/unauthorized"⟩, s) }

end Uploads

/-- A picked image file. -/
def sampleFile : Projects.JsFile := ⟨"me.png".toList, [1, 2, 3]⟩

/-- The gallery document of `img1` as the panel lists it. -/
def img1 : Str × ImageData :=
  ("img1".toList,
    ⟨"https://cdn.test/1.png".toList, "aboutGallery/uploads/1-a.png".toList, 1, true⟩)

/-- The sample database with the blob of `img1` in the object store. -/
def storedDb : RefDb :=
  { sampleDb with objects := [("aboutGallery/uploads/1-a.png".toList, [9, 9])] }

end Gallery

/-! # Public About section (`src/portfolio/About.jsx`) -/

namespace About

open Projects (Str)

/-- The collection the About section subscribes to. -/
def collectionName : Str := "gallery".toList

/-- The snapshot listener of the About section: with `all` the documents of the
snapshot, `active = all.find(img => img.isProfile === true)` and
`if (active) setProfileImage(active.url)`.  The result is the new `profileImage`
state. -/
def onSnapshot (snap : List (Str × Gallery.ImageData)) (profileImage : Option Str) :
    Option Str :=
  match snap.find? fun img => img.2.isProfile with
  | some active => some active.2.url
  | none => profileImage

/-- The `profileImage` state after the listener ran for each snapshot of a
sequence, starting from `useState(null)`. -/
def profileAfter (snaps : List (List (Str × Gallery.ImageData))) : Option Str :=
  snaps.foldl (fun st snap => onSnapshot snap st) none

/-- The url of the first flagged document of a snapshot, if there is one. -/
def firstFlaggedUrl (snap : List (Str × Gallery.ImageData)) : Option Str :=
  (snap.find? fun img => img.2.isProfile).map fun img => img.2.url

/-- The snapshot the subscription of the About section delivers for a database:
the documents of the collection it names. -/
def snapshotOf (db : Gallery.RefDb) : List (Str × Gallery.ImageData) :=
  Gallery.docsOf db collectionName

end About

/-! # Document writes of the dashboard forms

The social-media and the awards panels write flat documents of string fields.
As before the SDK is a record of state transformers that may fail and every
call is logged. -/

namespace Docs

open Projects (Str JsError isOk getKey putKey)

/-- The data object of a document write: its fields, in source order, with their
string values. -/
abbrev Fields := List (String × Str)

/-- The SDK calls of the two panels: `addDoc(collection(db, coll), data)` and
`updateDoc(doc(db, coll, id), data)`. -/
structure Backend (σ : Type) where
  addDoc : Str → Fields → σ → Except JsError Str × σ
  updateDoc : Str → Str → Fields → σ → Except JsError Unit × σ

/-- A document write a panel made, with whether it succeeded. -/
inductive Call
  | addDoc (coll : Str) (data : Fields) (ok : Bool)
  | updateDoc (coll id : Str) (data : Fields) (ok : Bool)
deriving DecidableEq, Repr

/-- A call of react-hot-toast. -/
inductive Toast
  | error (msg : String)
  | loading (msg : String)
  | success (msg : String)
deriving DecidableEq, Repr

/-- The store, the calls made so far, and the state `π` of a panel. -/
structure World (σ π : Type) where
  store : σ
  log : List Call
  ui : π

section Calls
variable {σ π : Type}

def callAddDoc (B : Backend σ) (coll : Str) (data : Fields) (w : World σ π) :
    Except JsError Str × World σ π :=
  ((B.addDoc coll data w.store).1,
    { w with store := (B.addDoc coll data w.store).2,
             log := w.log ++ [.addDoc coll data (isOk (B.addDoc coll data w.store).1)] })

def callUpdateDoc (B : Backend σ) (coll id : Str) (data : Fields) (w : World σ π) :
    Except JsError Unit × World σ π :=
  ((B.updateDoc coll id data w.store).1,
    { w with store := (B.updateDoc coll id data w.store).2,
             log := w.log ++ [.updateDoc coll id data (isOk (B.updateDoc coll id data w.store).1)] })

/-- The write of a save: an update of the edited document when there is one, an
insert otherwise; the id an insert returns is not used. -/
def callWrite (B : Backend σ) (coll : Str) (editing : Option Str) (data : Fields)
    (w : World σ π) : Except JsError Unit × World σ π :=
  match editing with
  | some id => callUpdateDoc B coll id data w
  | none =>
    ((callAddDoc B coll data w).1.map fun _ => (), (callAddDoc B coll data w).2)

/-- The outcome of the write of a save on a store state. -/
def writeResult (B : Backend σ) (coll : Str) (editing : Option Str) (data : Fields)
    (s : σ) : Except JsError Unit :=
  match editing with
  | some id => (B.updateDoc coll id data s).1
  | none => (B.addDoc coll data s).1.map fun _ => ()

/-- The call the write of a save is logged as. -/
def writeCall (coll : Str) (editing : Option Str) (data : Fields) (ok : Bool) : Call :=
  match editing with
  | some id => .updateDoc coll id data ok
  | none => .addDoc coll data ok

/-- A backend whose document writes always fail. -/
def failing : Backend Unit where
  addDoc _ _ s := (.error ⟨"unavailable"⟩, s)
  updateDoc _ _ _ s := (.error ⟨"unavailable"⟩, s)

/-- A backend whose document writes always succeed, keeping nothing. -/
def accepting : Backend Unit where
  addDoc _ _ s := (.ok "new".toList, s)
  updateDoc _ _ _ s := (.ok (), s)

end Calls

/-- Evaluating an identifier where the names of `scope` are bound: a
ReferenceError when it is none of them. -/
def resolve (scope : List String) (name : String) : Except JsError Unit :=
  if name ∈ scope then .ok () else .error ⟨"ReferenceError: " ++ name ++ " is not defined"⟩

end Docs

/-! # Social-media links (`src/dashboard/SocialMedia.jsx`) -/

namespace SocialMedia

open Projects (Str JsError isOk)
open Docs (Fields Backend Call Toast World callWrite)

/-- The `formData` state. -/
structure LinkForm where
  name : Str
  displayName : Str
  url : Str
deriving DecidableEq, Repr

/-- A link of the list, as `handleOpenForm(link)` stores it in `editingLink`. -/
structure Link where
  id : Str
  name : Str
  displayName : Str
  url : Str
deriving DecidableEq, Repr

/-- The React state of the panel plus the toasts it raised. -/
structure Panel where
  showForm : Bool
  editingLink : Option Link
  formData : LinkForm
  toasts : List Toast
deriving DecidableEq, Repr

/-- The form after `setFormData({ name: "", displayName: "", url: "" })`. -/
def emptyForm : LinkForm := { name := [], displayName := [], url := [] }

/-- The collection of the panel. -/
def collectionName : Str := "socialMedia".toList

/-- The data object of both writes: `{ name: name.toLowerCase(), displayName, url }`;
`toLowerCase` is the string method of the runtime. -/
def linkData (toLowerCase : Str → Str) (form : LinkForm) : Fields :=
  [("name", toLowerCase form.name), ("displayName", form.displayName), ("url", form.url)]

/-- The handler `handleSave()`, with the settled value of its promise. -/
def handleSave {σ : Type} (toLowerCase : Str → Str) (B : Backend σ) (w : World σ Panel) :
    Except JsError Unit × World σ Panel :=
  if w.ui.formData.name.isEmpty || w.ui.formData.url.isEmpty then
    (.ok (), { w with ui := { w.ui with
      toasts := w.ui.toasts ++ [.error "Platform name and URL are required."] } })
  else
    match callWrite B collectionName (w.ui.editingLink.map fun l => l.id)
        (linkData toLowerCase w.ui.formData) w with
    | (.ok _, w1) =>
      (.ok (), { w1 with ui := { w1.ui with
        showForm := false, editingLink := none, formData := emptyForm } })
    | (.error _, w1) =>
      (.ok (), { w1 with ui := { w1.ui with
        toasts := w1.ui.toasts ++ [.error "Error saving link:"] } })

/-- Lower-casing of the letters A to Z, with which the runtime's `toLowerCase`
agrees on ASCII input. -/
def asciiLower (s : Str) : Str := s.map Char.toLower

/-- The panel with the form open on the given values. -/
def panelWith (form : LinkForm) (editing : Option Link) : Panel :=
  { showForm := true, editingLink := editing, formData := form, toasts := [] }

/-- A filled form. -/
def sampleForm : LinkForm :=
  { name := "GitHub".toList, displayName := "My GitHub".toList,
    url := "https://github.com/Me".toList }

/-- A link being edited. -/
def sampleLink : Link :=
  { id := "l1".toList, name := "github".toList, displayName := "Old".toList,
    url := "https://github.com/old".toList }

end SocialMedia

/-! # Awards panel (`src/dashboard/Awards.jsx`) -/

namespace Awards

open Projects (Str JsError isOk getKey)
open Docs (Fields Backend Call Toast World callWrite resolve)

/-- The icon components of react-icons the two awards components name, and any
other export of that module. -/
inductive Icon
  | FaTrophy
  | FaMedal
  | FaAward
  | FaStar
  | FaCrown
  | FaRibbon
  | other (exportName : Str)
deriving DecidableEq, Repr

/-- The object `awardIcons`: icon names to components. -/
def awardIcons : List (Str × Icon) :=
  [("trophy".toList, .FaTrophy), ("medal".toList, .FaMedal), ("award".toList, .FaAward),
   ("star".toList, .FaStar), ("crown".toList, .FaCrown), ("ribbon".toList, .FaRibbon)]

/-- The icon names the form's dropdown offers: `Object.keys(awardIcons)`. -/
def selectable : List Str := awardIcons.map Prod.fst

/-- The property names every object literal inherits from `Object.prototype`; all
their values are truthy. -/
def objectPrototypeKeys : List Str :=
  ["constructor", "hasOwnProperty", "isPrototypeOf", "propertyIsEnumerable",
   "toLocaleString", "toString", "valueOf", "__proto__", "__defineGetter__",
   "__defineSetter__", "__lookupGetter__", "__lookupSetter__"].map String.toList

/-- What the list renders in the icon slot of an award. -/
inductive Rendered
  | icon (i : Icon)
  | inherited (key : Str)
deriving DecidableEq, Repr

/-- The expression `awardIcons[award.icon] || <FaTrophy />`. -/
def shownIcon (icon : Str) : Rendered :=
  match getKey awardIcons icon with
  | some i => .icon i
  | none => if icon ∈ objectPrototypeKeys then .inherited icon else .icon .FaTrophy

/-- The `formData` state. -/
structure AwardForm where
  title : Str
  description : Str
  icon : Str
  year : Str
deriving DecidableEq, Repr

/-- An award of the list, as `openForm(award)` stores it in `editingAward`. -/
structure Award where
  id : Str
  title : Str
  description : Str
  icon : Str
  year : Str
deriving DecidableEq, Repr

/-- The React state of the panel plus the toasts and console output it produced. -/
structure Panel where
  showForm : Bool
  editingAward : Option Award
  formData : AwardForm
  toasts : List Toast
  console : List String
deriving DecidableEq, Repr

/-- The form after a save: empty, icon "trophy", the current year in decimal. -/
def freshForm (currentYear : Nat) : AwardForm :=
  { title := [], description := [], icon := "trophy".toList,
    year := (Nat.repr currentYear).toList }

/-- The collection of the panel. -/
def collectionName : Str := "awards".toList

/-- The data object of both writes: `{ title, description, icon, year }`. -/
def awardData (form : AwardForm) : Fields :=
  [("title", form.title), ("description", form.description), ("icon", form.icon),
   ("year", form.year)]

/-- The identifiers bound where the `catch` block of `saveAward` is evaluated: the
catch parameter, the constants of the function body, the bindings of the
component and those of the module.  The constant `loading` is declared inside
the `try` block, whose scope has ended; nothing else declares that name. -/
def saveAwardCatchScope : List String :=
  ["error", "title", "description", "icon", "year",
   "theme", "awards", "setAwards", "showForm", "setShowForm", "editingAward",
   "setEditingAward", "formData", "setFormData", "openForm", "saveAward", "deleteAward",
   "bgMain", "cardBg", "inputBg",
   "React", "useEffect", "useState", "collection", "addDoc", "updateDoc", "deleteDoc",
   "doc", "onSnapshot", "query", "orderBy", "db", "Toaster", "toast", "FaTrophy",
   "FaMedal", "FaAward", "FaStar", "FaCrown", "FaRibbon", "awardIcons", "Awards",
   "console"]

/-- The `catch` block of `saveAward`: the argument `{ id: loading }` of
`toast.error` is evaluated before the call, then `console.error(error)`. -/
def saveAwardCatch {σ : Type} (w : World σ Panel) : Except JsError Unit × World σ Panel :=
  match resolve saveAwardCatchScope "loading" with
  | .error e => (.error e, w)
  | .ok _ =>
    (.ok (), { w with ui := { w.ui with
      toasts := w.ui.toasts ++ [.error "Failed to save award."],
      console := w.ui.console ++ ["error"] } })

/-- The handler `saveAward()`, with the settled value of its promise;
`currentYear` is `new Date().getFullYear()`. -/
def saveAward {σ : Type} (currentYear : Nat) (B : Backend σ) (w : World σ Panel) :
    Except JsError Unit × World σ Panel :=
  if w.ui.formData.title.isEmpty || w.ui.formData.description.isEmpty ||
      w.ui.formData.year.isEmpty then
    (.ok (), { w with ui := { w.ui with
      toasts := w.ui.toasts ++ [.error "Please fill in all fields."] } })
  else
    match callWrite B collectionName (w.ui.editingAward.map fun a => a.id)
        (awardData w.ui.formData)
        { w with ui := { w.ui with toasts := w.ui.toasts ++
          [.loading (if w.ui.editingAward.isSome then "Updating award..."
            else "Saving award...")] } } with
    | (.ok _, w1) =>
      (.ok (), { w1 with ui := { w1.ui with
        toasts := w1.ui.toasts ++
          [.success (if w.ui.editingAward.isSome then "Award updated!" else "Award added!")],
        showForm := false, editingAward := none, formData := freshForm currentYear } })
    | (.error _, w1) => saveAwardCatch w1

/-- The panel with the form open on the given values. -/
def panelWith (form : AwardForm) (editing : Option Award) : Panel :=
  { showForm := true, editingAward := editing, formData := form, toasts := [], console := [] }

/-- A filled form. -/
def sampleForm : AwardForm :=
  { title := "Best App".toList, description := "Won it".toList, icon := "star".toList,
    year := "2024".toList }

end Awards

/-! # Public awards section (`src/portfolio/Awards.jsx`) -/

namespace PortfolioAwards

open Projects (Str getKey truthy isJsWhitespace)

/-- The expression
`award.icon && Icons[award.icon] ? Icons[award.icon] : Icons.FaAward`, where
`Icons` is the namespace of the icon module (its exports by name; a module
namespace has no inherited properties).  None when the chosen export is absent. -/
def iconComponent (Icons : List (Str × Awards.Icon)) (icon : Str) : Option Awards.Icon :=
  if truthy icon then
    match getKey Icons icon with
    | some c => some c
    | none => getKey Icons "FaAward".toList
  else getKey Icons "FaAward".toList

/-- The exports of the icon module the dashboard imports by name. -/
def faIcons : List (Str × Awards.Icon) :=
  [("FaTrophy".toList, .FaTrophy), ("FaMedal".toList, .FaMedal), ("FaAward".toList, .FaAward),
   ("FaStar".toList, .FaStar), ("FaCrown".toList, .FaCrown), ("FaRibbon".toList, .FaRibbon)]

/-- A badge of the `badges` state. -/
structure Badge where
  id : Nat
  title : String
  value : String
deriving DecidableEq, Repr

/-- The initial `badges` state. -/
def initialBadges : List Badge :=
  [⟨1, "Awards Won", "0"⟩, ⟨2, "Projects Completed", "0"⟩,
   ⟨3, "Customer Satisfaction", "0%"⟩, ⟨4, "Years of Experience", "0+"⟩]

/-- The value of a digit or letter as a numeral digit. -/
def digitValue (c : Char) : Option Nat :=
  if '0' ≤ c ∧ c ≤ '9' then some (c.toNat - '0'.toNat)
  else if 'a' ≤ c ∧ c ≤ 'z' then some (c.toNat - 'a'.toNat + 10)
  else if 'A' ≤ c ∧ c ≤ 'Z' then some (c.toNat - 'A'.toNat + 10)
  else none

/-- The values of the longest prefix of digits of the radix. -/
def takeDigits (radix : Nat) : Str → List Nat
  | [] => []
  | c :: cs =>
    match digitValue c with
    | some d => if d < radix then d :: takeDigits radix cs else []
    | none => []

/-- The input of `parseInt` without leading whitespace and sign. -/
def unsigned (s : Str) : Str :=
  match s.dropWhile isJsWhitespace with
  | '-' :: r => r
  | '+' :: r => r
  | r => r

/-- JavaScript `parseInt(s)` without a radix: leading whitespace and a sign are
skipped, a prefix `0x` or `0X` selects radix 16, the longest prefix of digits is
read; none stands for NaN.  Numbers are modelled as integers, which is exact
for the magnitudes below 2^53 a double holds exactly. -/
def parseInt (s : Str) : Option Int :=
  let neg := (s.dropWhile isJsWhitespace).head? = some '-'
  let radix := match unsigned s with
    | '0' :: 'x' :: _ => 16
    | '0' :: 'X' :: _ => 16
    | _ => 10
  let body := match unsigned s with
    | '0' :: 'x' :: r => r
    | '0' :: 'X' :: r => r
    | r => r
  match takeDigits radix body with
  | [] => none
  | d :: ds =>
    some ((if neg then -1 else 1) * ((d :: ds).foldl (fun acc x => acc * radix + x) 0 : Nat))

/-- The least of a non-empty list, `Math.min(...years)`. -/
def minOf (y : Int) (ys : List Int) : Int := ys.foldl min y

/-- The greatest of a non-empty list, `Math.max(...years)`. -/
def maxOf (y : Int) (ys : List Int) : Int := ys.foldl max y

/-- The listener of the experience collection: `docYears` holds, for each document
of the snapshot, the string `parseInt` converts `doc.data().year` to, and
`currentYear` is `new Date().getFullYear()`.  The result is the new `badges`. -/
def onExperience (docYears : List Str) (currentYear : Int) (badges : List Badge) : List Badge :=
  if docYears.isEmpty then badges
  else
    match docYears.filterMap parseInt with
    | [] => badges
    | y :: ys =>
      badges.map fun b =>
        if b.title = "Years of Experience" then
          { b with value := toString (max (currentYear - minOf y ys + 1)
              (maxOf y ys - minOf y ys + 1)) ++ "+" }
        else b

example : parseInt "2019".toList = some 2019 := by decide
example : parseInt "  -12px".toList = some (-12) := by decide
example : parseInt "0x1F".toList = some 31 := by decide
example : parseInt "undefined".toList = none := by decide

end PortfolioAwards

namespace Projects

/-! ## Theorems -/

/-! ### String primitives against the library -/

theorem splitComma_eq_splitOn (s : Str) : splitComma s = s.splitOn ',' := by
  induction s with
  | nil => rfl
  | cons c cs ih =>
    have hne : List.splitOnP (fun x => x == ',') cs ≠ [] := List.splitOnP_ne_nil _ _
    unfold List.splitOn at ih ⊢
    rw [List.splitOnP_cons, splitComma, ih]
    by_cases hc : c = ','
    · simp [hc]
    · simp only [hc, if_false, beq_iff_eq, Bool.false_eq_true]
      cases h : List.splitOnP (fun x => x == ',') cs with
      | nil => exact absurd h hne
      | cons p ps => rfl

theorem dropWhile_append_singleton (p : Char → Bool) (xs : List Char) (c : Char) :
    (xs ++ [c]).dropWhile p =
      if xs.dropWhile p = [] then [c].dropWhile p else xs.dropWhile p ++ [c] := by
  induction xs with
  | nil => simp
  | cons x t ih =>
    by_cases hx : p x = true
    · rw [List.cons_append, List.dropWhile_cons_of_pos hx, List.dropWhile_cons_of_pos hx]
      exact ih
    · simp [List.dropWhile_cons, hx]

theorem trimEnd_eq_rdropWhile (s : Str) : trimEnd s = s.rdropWhile isJsWhitespace := by
  induction s with
  | nil => simp [trimEnd, List.rdropWhile]
  | cons c cs ih =>
    have key : (c :: cs).rdropWhile isJsWhitespace =
        if cs.rdropWhile isJsWhitespace = [] then (if isJsWhitespace c then [] else [c])
        else c :: cs.rdropWhile isJsWhitespace := by
      simp only [List.rdropWhile, List.reverse_cons, dropWhile_append_singleton,
        List.reverse_eq_nil_iff]
      by_cases h : List.dropWhile isJsWhitespace cs.reverse = []
      · by_cases hc : isJsWhitespace c = true <;> simp [h, hc, List.dropWhile]
      · simp [h]
    rw [key, trimEnd, ih]
    cases h : cs.rdropWhile isJsWhitespace with
    | nil => simp
    | cons a t => simp

theorem trimEnd_eq_nil_iff (s : Str) : trimEnd s = [] ↔ isBlank s = true := by
  induction s with
  | nil => simp [trimEnd, isBlank]
  | cons c cs ih =>
    have hb : isBlank (c :: cs) = (isJsWhitespace c && isBlank cs) := by
      simp [isBlank, List.all_cons]
    rw [trimEnd, hb]
    cases h : trimEnd cs with
    | nil =>
      have := ih.1 h
      by_cases hc : isJsWhitespace c = true <;> simp [hc, this]
    | cons a t =>
      have hn : ¬ isBlank cs = true := fun hcs => by
        have := ih.2 hcs
        rw [h] at this
        exact List.cons_ne_nil _ _ this
      simp [hn]

theorem isBlank_dropWhile (s : Str) :
    isBlank (s.dropWhile isJsWhitespace) = isBlank s := by
  induction s with
  | nil => rfl
  | cons c cs ih =>
    by_cases hc : isJsWhitespace c = true
    · simp only [List.dropWhile_cons, hc, if_true, ih]
      simp [isBlank, hc]
    · simp [List.dropWhile_cons, hc]

theorem trim_eq_nil_iff (s : Str) : trim s = [] ↔ isBlank s = true := by
  rw [trim, trimEnd_eq_nil_iff, isBlank_dropWhile]

theorem includes_iff_infix (s pat : Str) : includes s pat = true ↔ pat <:+: s := by
  induction s with
  | nil => simp [includes, List.isEmpty_iff]
  | cons c cs ih =>
    rw [includes, Bool.or_eq_true, ih, List.infix_cons_iff, List.isPrefixOf_iff_prefix]

theorem formatFields_technologies (form : FormData) :
    (formatFields form).technologies = technologiesSpec form.technologies := by
  simp only [formatFields, technologiesSpec, ← splitComma_eq_splitOn]
  have hmap : (splitComma form.technologies).map trim =
      (splitComma form.technologies).map
        fun p => (p.dropWhile isJsWhitespace).rdropWhile isJsWhitespace := by
    apply List.map_congr_left
    intro p _
    rw [trim, trimEnd_eq_rdropWhile]
  rw [hmap]
  apply List.filter_congr
  intro p _
  cases p <;> simp

theorem formatFields_gallery (form : FormData) :
    (formatFields form).gallery = nonBlankSpec form.gallery := by
  simp only [formatFields, nonBlankSpec]
  apply List.filter_congr
  intro e _
  by_cases h : isBlank e = true
  · simp [h, (trim_eq_nil_iff e).2 h]
  · have : trim e ≠ [] := fun ht => h ((trim_eq_nil_iff e).1 ht)
    simp [h, this]

theorem formatFields_stages (form : FormData) :
    (formatFields form).stages = nonBlankSpec form.stages := by
  simp only [formatFields, nonBlankSpec]
  apply List.filter_congr
  intro e _
  by_cases h : isBlank e = true
  · simp [h, (trim_eq_nil_iff e).2 h]
  · have : trim e ≠ [] := fun ht => h ((trim_eq_nil_iff e).1 ht)
    simp [h, this]

section SaveTheorems
variable {σ : Type}

/-- C1: when the trimmed name or the trimmed description of the form is empty,
`handleSaveProject` makes no store call at all (the log and the store are
unchanged, in the new-project and the edit flow alike, since `editId` is
arbitrary), reports the validation alert and changes nothing else; hence any
call it does make implies both are non-empty after trimming. -/
theorem handleSaveProject_validation (B : Backend σ) (w : World σ) :
    ((trim w.ui.formData.name = [] ∨ trim w.ui.formData.description = []) →
      (handleSaveProject B w).log = w.log ∧ (handleSaveProject B w).store = w.store ∧
      (handleSaveProject B w).ui =
        { w.ui with alerts := w.ui.alerts ++ ["Please fill Name and Description."] }) ∧
    ((handleSaveProject B w).log ≠ w.log →
      trim w.ui.formData.name ≠ [] ∧ trim w.ui.formData.description ≠ []) := by
  have key : (trim w.ui.formData.name = [] ∨ trim w.ui.formData.description = []) →
      handleSaveProject B w = w.alert "Please fill Name and Description." := by
    intro h
    have hc : ((trim w.ui.formData.name).isEmpty || (trim w.ui.formData.description).isEmpty)
        = true := by
      rcases h with h | h <;> simp [h]
    simp only [handleSaveProject, hc, if_true]
  refine ⟨fun h => ?_, fun hne => ?_⟩
  · rw [key h]
    exact ⟨rfl, rfl, rfl⟩
  · by_contra hcon
    apply hne
    have h : trim w.ui.formData.name = [] ∨ trim w.ui.formData.description = [] := by
      by_cases h1 : trim w.ui.formData.name = []
      · exact Or.inl h1
      · by_cases h2 : trim w.ui.formData.description = []
        · exact Or.inr h2
        · exact absurd ⟨h1, h2⟩ hcon
    rw [key h]
    rfl

/-- C1 at a concrete input: editing project `p1` with a whitespace-only
description. -/
theorem handleSaveProject_validation_witness :
    (handleSaveProject (refBackend demoConfig)
        (mkWorld sampleStore
          (panelWith { sampleForm with description := " \n".toList } (some "p1".toList)))).log = [] ∧
    (handleSaveProject (refBackend demoConfig)
        (mkWorld sampleStore
          (panelWith { sampleForm with description := " \n".toList } (some "p1".toList)))).store
      = sampleStore :=
  have h := (handleSaveProject_validation (refBackend demoConfig)
    (mkWorld sampleStore
      (panelWith { sampleForm with description := " \n".toList } (some "p1".toList)))).1
    (Or.inr (by decide))
  ⟨h.1, h.2.1⟩

/-! ### The calls of a relocation are object-store operations -/

theorem StorageOnly.refl (w : World σ) : StorageOnly w w := ⟨[], by simp, by simp⟩

theorem StorageOnly.trans {w1 w2 w3 : World σ} (h1 : StorageOnly w1 w2) (h2 : StorageOnly w2 w3) :
    StorageOnly w1 w3 := by
  obtain ⟨c1, e1, a1⟩ := h1
  obtain ⟨c2, e2, a2⟩ := h2
  refine ⟨c1 ++ c2, by rw [e2, e1, List.append_assoc], ?_⟩
  intro c hc
  rcases List.mem_append.1 hc with h | h
  · exact a1 c h
  · exact a2 c h

theorem StorageOnly.of_log {w1 w2 : World σ} (h : w2.log = w1.log) : StorageOnly w1 w2 :=
  ⟨[], by simp [h], by simp⟩

theorem StorageOnly.step {w1 w2 : World σ} (c : Call) (hc : c.isStorage = true)
    (h : w2.log = w1.log ++ [c]) : StorageOnly w1 w2 :=
  ⟨[c], h, by simpa using hc⟩

theorem Reach.mono {B : Backend σ} {pid : Str} {T U : Slot → Prop} {D E : Str → Prop}
    (hT : ∀ t, T t → U t) (h : ∀ p, D p → E p)
    {w1 w2 : World σ} (r : Reach B pid T D w1 w2) : Reach B pid U E w1 w2 := by
  induction r with
  | refl w => exact .refl w
  | trans _ _ ih1 ih2 => exact .trans ih1 ih2
  | ui w f hf => exact .ui w f hf
  | listAll f w => exact .listAll f w
  | getDownloadURL p w => exact .getDownloadURL p w
  | fetch u w => exact .fetch u w
  | upload t b w ht => exact .upload t b w (hT t ht)
  | delete i w hd => exact .delete i w (h i hd)

theorem Reach.storageOnly {B : Backend σ} {pid : Str} {T : Slot → Prop} {D : Str → Prop}
    {w1 w2 : World σ} (r : Reach B pid T D w1 w2) : StorageOnly w1 w2 := by
  induction r with
  | refl w => exact StorageOnly.refl w
  | trans _ _ ih1 ih2 => exact ih1.trans ih2
  | ui w f _ => exact StorageOnly.of_log rfl
  | listAll f w => exact StorageOnly.step (Call.listAll f (isOk (B.listAll f w.store).1)) rfl rfl
  | getDownloadURL p w =>
    exact StorageOnly.step (Call.getDownloadURL p (isOk (B.getDownloadURL p w.store).1)) rfl rfl
  | fetch u w => exact StorageOnly.step (Call.fetch u (isOk (B.fetch u w.store).1)) rfl rfl
  | upload t b w _ =>
    exact StorageOnly.step (Call.uploadBytes (newPath pid t (callUuid B w).1) b
      (isOk (B.uploadBytesResumable (newPath pid t (callUuid B w).1) b
        (callUuid B w).2.store).1.result)) rfl rfl
  | delete i w _ =>
    exact StorageOnly.step (Call.deleteObject i (isOk (B.deleteObject i w.store).1)) rfl rfl

/-- A property of the store kept by every step of a relocation is kept by the
relocation. -/
theorem Reach.preserves {B : Backend σ} {pid : Str} {T : Slot → Prop} {D : Str → Prop}
    (P : σ → Prop)
    (hlist : ∀ f s, P s → P (B.listAll f s).2)
    (hget : ∀ p s, P s → P (B.getDownloadURL p s).2)
    (hfetch : ∀ u s, P s → P (B.fetch u s).2)
    (hup : ∀ t b s, T t → P s →
      P (B.uploadBytesResumable (newPath pid t (B.uuidv4 s).1) b (B.uuidv4 s).2).2)
    (hdel : ∀ i s, D i → P s → P (B.deleteObject i s).2)
    {w1 w2 : World σ} (r : Reach B pid T D w1 w2) : P w1.store → P w2.store := by
  induction r with
  | refl w => exact id
  | trans _ _ ih1 ih2 => exact fun h => ih2 (ih1 h)
  | ui w f _ => exact id
  | listAll f w => exact hlist f w.store
  | getDownloadURL p w => exact hget p w.store
  | fetch u w => exact hfetch u w.store
  | upload t b w ht => exact hup t b w.store ht
  | delete i w hd => exact hdel i w.store hd

theorem reach_consoleLog (B : Backend σ) (pid : Str) (T : Slot → Prop) (D : Str → Prop)
    (w : World σ) (l : String) : Reach B pid T D w (w.consoleLog l) :=
  .ui w _ fun _ => rfl

theorem reach_moveSingleLoop (B : Backend σ) (oldUrl pid : Str) (t : Slot)
    (items : List Str) (w : World σ) :
    Reach B pid (fun x => x = t) (fun i => i ∈ items ∧ ∃ s, (B.getDownloadURL i s).1 = .ok oldUrl) w
      (moveSingleLoop B oldUrl pid t items w).2 := by
  induction items generalizing w with
  | nil => exact .refl w
  | cons item rest ih =>
    have ih2 : ∀ v, Reach B pid (fun x => x = t)
        (fun i => i ∈ item :: rest ∧ ∃ s, (B.getDownloadURL i s).1 = .ok oldUrl) v
        (moveSingleLoop B oldUrl pid t rest v).2 := fun v =>
      (ih v).mono (fun _ h => h) fun i hi => ⟨List.mem_cons_of_mem _ hi.1, hi.2⟩
    have warn := fun (v : World σ) (l : String) => reach_consoleLog B pid (fun x => x = t)
      (fun i => i ∈ item :: rest ∧ ∃ s, (B.getDownloadURL i s).1 = .ok oldUrl) v l
    unfold moveSingleLoop
    have h1 : Reach B pid (fun x => x = t) _ w _ := .getDownloadURL (D := fun i => i ∈ item :: rest ∧
      ∃ s, (B.getDownloadURL i s).1 = .ok oldUrl) item w
    split
    · rename_i e w1 heq
      rw [heq] at h1
      exact h1.trans ((warn w1 _).trans (ih2 _))
    · rename_i itemUrl w1 heq
      have hurl : (B.getDownloadURL item w.store).1 = .ok itemUrl :=
        congrArg Prod.fst heq
      rw [heq] at h1
      split
      · rename_i hmatch
        have h2 : Reach B pid (fun x => x = t) _ w1 _ := .fetch (D := fun i => i ∈ item :: rest ∧
          ∃ s, (B.getDownloadURL i s).1 = .ok oldUrl) oldUrl w1
        split
        · rename_i e w2 heq2
          rw [heq2] at h2
          exact h1.trans (h2.trans ((warn w2 _).trans (ih2 _)))
        · rename_i blob w2 heq2
          rw [heq2] at h2
          have h4 : Reach B pid (fun x => x = t) _ w2 _ := .upload (D := fun i => i ∈ item :: rest ∧
            ∃ s, (B.getDownloadURL i s).1 = .ok oldUrl) t blob w2 rfl
          have h14 := h1.trans (h2.trans h4)
          split
          · rename_i pr e w4 heq4
            rw [heq4] at h14
            exact h14.trans ((warn w4 _).trans (ih2 _))
          · rename_i pr u w4 heq4
            rw [heq4] at h14
            have h5 : Reach B pid (fun x => x = t) _ w4 _ := .getDownloadURL (D := fun i => i ∈ item :: rest ∧
              ∃ s, (B.getDownloadURL i s).1 = .ok oldUrl) (newPath pid t (callUuid B w2).1) w4
            split
            · rename_i e w5 heq5
              rw [heq5] at h5
              exact h14.trans (h5.trans ((warn w5 _).trans (ih2 _)))
            · rename_i newUrl w5 heq5
              rw [heq5] at h5
              have h6 : Reach B pid (fun x => x = t) _ w5 _ := .delete (D := fun i => i ∈ item :: rest ∧
                ∃ s, (B.getDownloadURL i s).1 = .ok oldUrl) item w5
                ⟨List.mem_cons_self _ _, w.store, hmatch ▸ hurl⟩
              split
              · rename_i e w6 heq6
                rw [heq6] at h6
                exact h14.trans (h5.trans (h6.trans (warn w6 _)))
              · rename_i u6 w6 heq6
                rw [heq6] at h6
                exact h14.trans (h5.trans h6)
      · exact h1.trans (ih2 _)

theorem reach_moveSingleUnsavedUrl (B : Backend σ) (oldUrl pid : Str) (t : Slot)
    (w : World σ) :
    Reach B pid (fun x => x = t) (Matched B t oldUrl) w
      (moveSingleUnsavedUrl B oldUrl pid t w).2 := by
  unfold moveSingleUnsavedUrl
  have h1 : Reach B pid (fun x => x = t) (Matched B t oldUrl) w _ := .listAll (unsavedFolder t) w
  split
  · rename_i e w1 heq
    rw [heq] at h1
    exact h1
  · rename_i items w1 heq
    have hl : (B.listAll (unsavedFolder t) w.store).1 = .ok items := congrArg Prod.fst heq
    rw [heq] at h1
    exact h1.trans ((reach_moveSingleLoop B oldUrl pid t items w1).mono (fun _ h => h)
      fun i hi => ⟨⟨w.store, items, hl, hi.1⟩, hi.2⟩)

theorem reach_moveGallery (B : Backend σ) (pid : Str) (g : List Str) (w : World σ) :
    Reach B pid (fun x => x = .gallery)
      (fun i => ∃ u ∈ g, isUnsavedRef u = true ∧ Matched B .gallery u i) w
      (moveGallery B pid g w).2 := by
  induction g generalizing w with
  | nil => exact .refl w
  | cons u rest ih =>
    have ih2 : ∀ v, Reach B pid (fun x => x = .gallery)
        (fun i => ∃ x ∈ u :: rest, isUnsavedRef x = true ∧ Matched B .gallery x i)
        v (moveGallery B pid rest v).2 := fun v =>
      (ih v).mono (fun _ h => h) fun i ⟨x, hx, h⟩ => ⟨x, List.mem_cons_of_mem _ hx, h⟩
    unfold moveGallery
    split
    · rename_i hu
      have h1 : Reach B pid (fun x => x = .gallery)
          (fun i => ∃ x ∈ u :: rest, isUnsavedRef x = true ∧ Matched B .gallery x i) w _ :=
        (reach_moveSingleUnsavedUrl B u pid .gallery w).mono (fun _ h => h)
          fun i hi => ⟨u, List.mem_cons_self _ _, hu, hi⟩
      split
      · rename_i e w1 heq
        rw [heq] at h1
        exact h1
      · rename_i newUrl w1 heq
        rw [heq] at h1
        exact h1.trans (ih2 w1)
    · exact ih2 w

theorem reach_moveMain (B : Backend σ) (pid : Str) (u : Str) (w : World σ) :
    Reach B pid (fun x => x = .main) (fun i => isUnsavedRef u = true ∧ Matched B .main u i) w
      (moveMain B pid u w).2 := by
  unfold moveMain
  split
  · rename_i hu
    exact (reach_moveSingleUnsavedUrl B u pid .main w).mono (fun _ h => h) fun i hi => ⟨hu, hi⟩
  · exact .refl _

theorem reach_endMove (B : Backend σ) (pid : Str) (T : Slot → Prop) (D : Str → Prop) (b : Bool)
    (w : World σ) : Reach B pid T D w (endMove b w) := by
  cases b
  · exact .ui w _ fun _ => rfl
  · exact (reach_consoleLog B pid T D w "moveUnsavedFilesForProject error").trans
      (.ui _ _ fun _ => rfl)

theorem reach_moveUnsavedFilesForProject (B : Backend σ) (pid : Str) (f : ProjectFields)
    (w : World σ) :
    Reach B pid (fun _ => True) (MatchedFields B f) w
      (moveUnsavedFilesForProject B pid f w).2 := by
  unfold moveUnsavedFilesForProject
  have h0 : Reach B pid (fun _ => True) (MatchedFields B f) w
      (w.setUi fun p => { p with moving := true }) := .ui w _ fun _ => rfl
  have h1 := (reach_moveMain B pid f.imageUrl (w.setUi fun p => { p with moving := true })).mono
    (U := fun _ => True) (E := MatchedFields B f) (fun _ _ => trivial) fun i hi => Or.inl hi
  split
  · rename_i e w1 heq
    rw [heq] at h1
    exact h0.trans (h1.trans (reach_endMove B pid _ _ _ _))
  · rename_i newMain w1 heq
    rw [heq] at h1
    have h2 := (reach_moveGallery B pid f.gallery w1).mono (U := fun _ => True)
      (E := MatchedFields B f) (fun _ _ => trivial) fun i hi => Or.inr hi
    exact h0.trans (h1.trans (h2.trans (reach_endMove B pid _ _ _ _)))

theorem storageOnly_moveUnsavedFilesForProject (B : Backend σ) (pid : Str) (f : ProjectFields)
    (w : World σ) : StorageOnly w (moveUnsavedFilesForProject B pid f w).2 :=
  (reach_moveUnsavedFilesForProject B pid f w).storageOnly

/-! ### Frame lemmas for relocation -/

theorem includes_false_isUnsavedRef {u : Str} (h : includes u unsavedMarker = false) :
    isUnsavedRef u = false := by
  simp [isUnsavedRef, h]

theorem moveGallery_length (B : Backend σ) (pid : Str) (g : List Str) (w : World σ) :
    (moveGallery B pid g w).1.1.length = g.length := by
  induction g generalizing w with
  | nil => simp [moveGallery]
  | cons u rest ih =>
    unfold moveGallery
    split
    · split
      · simp
      · simp [ih]
    · simp [ih]

theorem moveGallery_keeps (B : Backend σ) (pid : Str) (g : List Str) (w : World σ)
    (i : Nat) (u : Str) (hi : g[i]? = some u) (hu : isUnsavedRef u = false) :
    (moveGallery B pid g w).1.1[i]? = some u := by
  induction g generalizing w i with
  | nil => simp at hi
  | cons v rest ih =>
    unfold moveGallery
    cases i with
    | zero =>
      simp only [List.getElem?_cons_zero, Option.some.injEq] at hi
      subst hi
      simp [hu]
    | succ j =>
      simp only [List.getElem?_cons_succ] at hi
      split
      · split
        · simpa using hi
        · simpa using ih _ j hi
      · simpa using ih _ j hi

theorem moveUnsavedFilesForProject_gallery (B : Backend σ) (pid : Str) (f : ProjectFields)
    (w : World σ) :
    (moveUnsavedFilesForProject B pid f w).1.gallery = f.gallery ∨
    ∃ w1, (moveUnsavedFilesForProject B pid f w).1.gallery = (moveGallery B pid f.gallery w1).1.1 := by
  unfold moveUnsavedFilesForProject
  split
  · exact Or.inl rfl
  · exact Or.inr ⟨_, rfl⟩

theorem moveUnsaved_gallery_length (B : Backend σ) (pid : Str) (f : ProjectFields)
    (w : World σ) :
    (moveUnsavedFilesForProject B pid f w).1.gallery.length = f.gallery.length := by
  rcases moveUnsavedFilesForProject_gallery B pid f w with h | ⟨w1, h⟩
  · rw [h]
  · rw [h, moveGallery_length]

theorem moveUnsaved_gallery_keeps (B : Backend σ) (pid : Str) (f : ProjectFields)
    (w : World σ) (i : Nat) (u : Str) (hi : f.gallery[i]? = some u)
    (hu : includes u unsavedMarker = false) :
    (moveUnsavedFilesForProject B pid f w).1.gallery[i]? = some u := by
  rcases moveUnsavedFilesForProject_gallery B pid f w with h | ⟨w1, h⟩
  · rw [h, hi]
  · rw [h]
    exact moveGallery_keeps B pid f.gallery w1 i u hi (includes_false_isUnsavedRef hu)

theorem moveUnsaved_other_fields (B : Backend σ) (pid : Str) (f : ProjectFields)
    (w : World σ) :
    { (moveUnsavedFilesForProject B pid f w).1 with
        imageUrl := f.imageUrl, gallery := f.gallery } = f := by
  unfold moveUnsavedFilesForProject
  split <;> rfl

/-- C8: for every backend (every behaviour of the stores), every project id and
every field set, the result of `moveUnsavedFilesForProject` has a gallery of the
same length as the input, keeps every gallery entry and the `imageUrl` that do
not contain the provisional marker at the same position, and leaves every
other field unchanged. -/
theorem moveUnsavedFilesForProject_frame (B : Backend σ) (pid : Str) (f : ProjectFields)
    (w : World σ) :
    (moveUnsavedFilesForProject B pid f w).1.gallery.length = f.gallery.length ∧
    (∀ (i : Nat) (u : Str), f.gallery[i]? = some u → includes u unsavedMarker = false →
      (moveUnsavedFilesForProject B pid f w).1.gallery[i]? = some u) ∧
    (includes f.imageUrl unsavedMarker = false →
      (moveUnsavedFilesForProject B pid f w).1.imageUrl = f.imageUrl) ∧
    { (moveUnsavedFilesForProject B pid f w).1 with
        imageUrl := f.imageUrl, gallery := f.gallery } = f := by
  refine ⟨moveUnsaved_gallery_length B pid f w, moveUnsaved_gallery_keeps B pid f w, ?_,
    moveUnsaved_other_fields B pid f w⟩
  intro hu
  have hu2 := includes_false_isUnsavedRef hu
  simp [moveUnsavedFilesForProject, moveMain, hu2]

theorem moveGallery_noop (B : Backend σ) (pid : Str) (g : List Str) (w : World σ)
    (hg : ∀ u ∈ g, isUnsavedRef u = false) : moveGallery B pid g w = ((g, none), w) := by
  induction g generalizing w with
  | nil => rfl
  | cons u rest ih =>
    have hu : isUnsavedRef u = false := hg u (List.mem_cons_self _ _)
    have hrest : ∀ v ∈ rest, isUnsavedRef v = false := fun v hv => hg v (List.mem_cons_of_mem _ hv)
    unfold moveGallery
    simp [hu, ih w hrest]

/-- C7: when neither `imageUrl` nor any gallery entry contains the provisional
marker, `moveUnsavedFilesForProject` makes no store call (the log and the store
state are unchanged, for every backend and project id) and returns a field set
equal to its input. -/
theorem moveUnsavedFilesForProject_noop (B : Backend σ) (pid : Str) (f : ProjectFields)
    (w : World σ) (hmain : includes f.imageUrl unsavedMarker = false)
    (hgal : ∀ u ∈ f.gallery, includes u unsavedMarker = false) :
    (moveUnsavedFilesForProject B pid f w).1 = f ∧
    (moveUnsavedFilesForProject B pid f w).2.log = w.log ∧
    (moveUnsavedFilesForProject B pid f w).2.store = w.store := by
  have hm := includes_false_isUnsavedRef hmain
  have hg : ∀ u ∈ f.gallery, isUnsavedRef u = false := fun u hu =>
    includes_false_isUnsavedRef (hgal u hu)
  simp only [moveUnsavedFilesForProject, moveMain, hm, Bool.false_eq_true, if_false,
    moveGallery_noop B pid f.gallery _ hg]
  exact ⟨trivial, rfl, rfl⟩

/-- C7 at a concrete input: fields whose references are already permanent or
external, over a store that still holds a provisional object. -/
theorem moveUnsavedFilesForProject_noop_witness :
    (moveUnsavedFilesForProject (refBackend demoConfig) "p1".toList
      { formatFields sampleForm with
          imageUrl := "https://cdn.test/projects/p1/main/u".toList }
      (mkWorld sampleStore initialPanel)).2.log = [] :=
  (moveUnsavedFilesForProject_noop (refBackend demoConfig) "p1".toList
      { formatFields sampleForm with
          imageUrl := "https://cdn.test/projects/p1/main/u".toList }
      (mkWorld sampleStore initialPanel) (by decide) (by decide)).2.1

/-! ### The calls of a save -/

theorem handleSaveProject_valid (B : Backend σ) (w : World σ)
    (hn : trim w.ui.formData.name ≠ []) (hd : trim w.ui.formData.description ≠ []) :
    handleSaveProject B w =
      (match saveWrites B w.ui.editId (formatFields w.ui.formData)
          (w.setUi fun p => { p with saving := true }) with
        | (.ok _, w2) =>
          w2.setUi fun p =>
            { p with showModal := false, editId := none, formData := emptyForm,
                     onUpdateCalls := p.onUpdateCalls + 1 }
        | (.error _, w2) => (w2.consoleLog "save error").alert "Save failed. See console.").setUi
        fun p => { p with saving := false } := by
  have hc : ((trim w.ui.formData.name).isEmpty || (trim w.ui.formData.description).isEmpty)
      = false := by
    simp [List.isEmpty_iff, hn, hd]
  simp only [handleSaveProject, hc, Bool.false_eq_true, if_false]

theorem handleSaveProject_store_log (B : Backend σ) (w : World σ)
    (hn : trim w.ui.formData.name ≠ []) (hd : trim w.ui.formData.description ≠ []) :
    (handleSaveProject B w).log =
      (saveWrites B w.ui.editId (formatFields w.ui.formData)
        (w.setUi fun p => { p with saving := true })).2.log ∧
    (handleSaveProject B w).store =
      (saveWrites B w.ui.editId (formatFields w.ui.formData)
        (w.setUi fun p => { p with saving := true })).2.store := by
  rw [handleSaveProject_valid B w hn hd]
  split <;> (rename_i heq; rw [heq]; exact ⟨rfl, rfl⟩)

/-- C5: in edit mode (a non-empty `editId`) with a valid form, the calls
`handleSaveProject` makes are exactly one: `updateDoc` on document `editId` with
the normalised fields.  No object-store operation is made, whatever references
the form holds, and the store is changed by that update only. -/
theorem handleSaveProject_edit (B : Backend σ) (w : World σ) (id : Str)
    (hedit : w.ui.editId = some id) (hid : id ≠ [])
    (hn : trim w.ui.formData.name ≠ []) (hd : trim w.ui.formData.description ≠ []) :
    (handleSaveProject B w).log =
      w.log ++ [Call.updateDoc id ⟨formatFields w.ui.formData, .updatedAt⟩
        (isOk (B.updateDoc id ⟨formatFields w.ui.formData, .updatedAt⟩ w.store).1)] ∧
    (handleSaveProject B w).store =
      (B.updateDoc id ⟨formatFields w.ui.formData, .updatedAt⟩ w.store).2 := by
  have ht : editTarget w.ui.editId = some id := by
    simp [editTarget, hedit, truthy, List.isEmpty_iff, hid]
  have h := handleSaveProject_store_log B w hn hd
  rw [h.1, h.2]
  simp only [saveWrites, ht]
  exact ⟨rfl, rfl⟩

/-- C5 at a concrete input: editing `p1` with a form whose main image is still a
provisional reference. -/
theorem handleSaveProject_edit_witness :
    (handleSaveProject (refBackend demoConfig)
        (mkWorld sampleStore (panelWith sampleForm (some "p1".toList)))).log =
      [Call.updateDoc "p1".toList ⟨formatFields sampleForm, .updatedAt⟩ true] :=
  (handleSaveProject_edit (refBackend demoConfig)
    (mkWorld sampleStore (panelWith sampleForm (some "p1".toList))) "p1".toList rfl
    (by decide) (by decide) (by decide)).1

/-- C4: for a new project (`editId` absent) with a valid form whose `addDoc`
returns the id `id`, the calls `handleSaveProject` makes are, in this order: the
insert of the normalised fields, then object-store operations only (the
relocation keyed by `id`), then one `updateDoc` of document `id` with the fields
`moveUnsavedFilesForProject` returned. -/
theorem handleSaveProject_new (B : Backend σ) (w : World σ) (id : Str)
    (hnew : w.ui.editId = none)
    (hn : trim w.ui.formData.name ≠ []) (hd : trim w.ui.formData.description ≠ [])
    (hadd : (B.addDoc ⟨formatFields w.ui.formData, .createdAt⟩ w.store).1 = .ok id) :
    ∃ reloc : List Call, (∀ c ∈ reloc, c.isStorage = true) ∧
      (handleSaveProject B w).log =
        w.log ++ [Call.addDoc ⟨formatFields w.ui.formData, .createdAt⟩ true] ++ reloc ++
          [Call.updateDoc id
            ⟨(moveUnsavedFilesForProject B id (formatFields w.ui.formData)
                (insertedWorld B w)).1, .updatedAt⟩
            (isOk (B.updateDoc id
              ⟨(moveUnsavedFilesForProject B id (formatFields w.ui.formData)
                  (insertedWorld B w)).1, .updatedAt⟩
              (moveUnsavedFilesForProject B id (formatFields w.ui.formData)
                (insertedWorld B w)).2.store).1)] := by
  have ht : editTarget w.ui.editId = none := by simp [editTarget, hnew]
  obtain ⟨reloc, hlog, hst⟩ := storageOnly_moveUnsavedFilesForProject B id
    (formatFields w.ui.formData) (insertedWorld B w)
  refine ⟨reloc, hst, ?_⟩
  rw [(handleSaveProject_store_log B w hn hd).1]
  have hcall : callAddDoc B ⟨formatFields w.ui.formData, .createdAt⟩
      (w.setUi fun p => { p with saving := true }) = (.ok id, insertedWorld B w) := by
    apply Prod.ext
    · exact hadd
    · rfl
  have hins : (insertedWorld B w).log =
      w.log ++ [Call.addDoc ⟨formatFields w.ui.formData, .createdAt⟩ true] := by
    show w.log ++ [Call.addDoc _ (isOk (B.addDoc _ w.store).1)] = _
    rw [hadd]
    rfl
  simp only [saveWrites, ht, hcall]
  show (moveUnsavedFilesForProject B id (formatFields w.ui.formData) (insertedWorld B w)).2.log
    ++ [_] = _
  rw [hlog, hins]

/-- C4 at a concrete input: the new-project save of `sampleForm`, whose `addDoc`
returns the id `d`. -/
theorem handleSaveProject_new_witness :
    ∃ reloc : List Call, (∀ c ∈ reloc, c.isStorage = true) ∧
      (handleSaveProject (refBackend demoConfig)
          (mkWorld sampleStore (panelWith sampleForm none))).log =
        [] ++ [Call.addDoc ⟨formatFields sampleForm, .createdAt⟩ true] ++ reloc ++
          [Call.updateDoc "d".toList
            ⟨(moveUnsavedFilesForProject (refBackend demoConfig) "d".toList
                (formatFields sampleForm)
                (insertedWorld (refBackend demoConfig)
                  (mkWorld sampleStore (panelWith sampleForm none)))).1, .updatedAt⟩
            (isOk ((refBackend demoConfig).updateDoc "d".toList
              ⟨(moveUnsavedFilesForProject (refBackend demoConfig) "d".toList
                  (formatFields sampleForm)
                  (insertedWorld (refBackend demoConfig)
                    (mkWorld sampleStore (panelWith sampleForm none)))).1, .updatedAt⟩
              (moveUnsavedFilesForProject (refBackend demoConfig) "d".toList
                (formatFields sampleForm)
                (insertedWorld (refBackend demoConfig)
                  (mkWorld sampleStore (panelWith sampleForm none)))).2.store).1)] :=
  handleSaveProject_new (refBackend demoConfig)
    (mkWorld sampleStore (panelWith sampleForm none)) "d".toList rfl (by decide) (by decide) rfl

/-! ### Upload paths -/

theorem foldl_setUi_log (l : List Nat) (g : Nat → Panel → Panel) (w : World σ) :
    (l.foldl (fun acc pc => acc.setUi (g pc)) w).log = w.log := by
  induction l generalizing w with
  | nil => rfl
  | cons a t ih => simp only [List.foldl_cons]; rw [ih]; rfl

theorem uploadFileWithProgress_log (B : Backend σ) (f : JsFile) (projectId : Option Str)
    (type : Slot) (index : Option Nat) (w : World σ) :
    ∃ (ok : Bool) (rest : List Call),
      (uploadFileWithProgress B (some f) projectId type index w).2.log =
        w.log ++ Call.uploadBytes (uploadPath projectId type (B.uuidv4 w.store).1) f.bytes ok
          :: rest := by
  have hw4 : World.log (List.foldl (fun acc pc => acc.setUi (setProgress type index pc))
      ((callUpload B (uploadPath projectId type (callUuid B w).1) f.bytes
        (callUuid B w).2).2.setUi (setUploadState type index true 0))
      (callUpload B (uploadPath projectId type (callUuid B w).1) f.bytes
        (callUuid B w).2).1.progress) = w.log ++
        [Call.uploadBytes (uploadPath projectId type (B.uuidv4 w.store).1) f.bytes
          (isOk (B.uploadBytesResumable (uploadPath projectId type (B.uuidv4 w.store).1) f.bytes
            (B.uuidv4 w.store).2).1.result)] := by
    rw [foldl_setUi_log]
    rfl
  have hget : ∀ (path : Str) (v : World σ), (callGetDownloadURL B path v).2.log =
      v.log ++ [Call.getDownloadURL path (isOk (B.getDownloadURL path v.store).1)] :=
    fun _ _ => rfl
  simp only [uploadFileWithProgress]
  split
  · exact ⟨_, [], hw4⟩
  · split
    · rename_i url w5 heq
      have h5 : w5.log = _ := (congrArg (fun r : Except JsError Str × World σ => r.2.log) heq).symm
      rw [hget] at h5
      rw [hw4] at h5
      exact ⟨_, _, h5.trans (List.append_assoc _ _ _)⟩
    · rename_i e w5 heq
      have h5 : w5.log = _ := (congrArg (fun r : Except JsError Str × World σ => r.2.log) heq).symm
      rw [hget] at h5
      rw [hw4] at h5
      exact ⟨_, _, h5.trans (List.append_assoc _ _ _)⟩

/-- C6: `uploadFileWithProgress` uploads the file's bytes to
`projects/unsaved/<slot>/<n>` when `projectId` is null and to
`projects/<projectId>/<slot>/<n>` when it is a (non-empty) project id, `n` being
the generated name; `handleFileSelect` and `handleMainImageFileSelect` pass the
current `editId`, so while editing project `P` their upload goes to
`projects/<P>/gallery/<n>` and `projects/<P>/main/<n>`. -/
theorem uploadFileWithProgress_path (B : Backend σ) (f : JsFile) (type : Slot)
    (index : Option Nat) (i : Nat) (w : World σ) (P : Str) (hP : P ≠ []) :
    (∃ (ok : Bool) (rest : List Call),
      (uploadFileWithProgress B (some f) none type index w).2.log =
        w.log ++ Call.uploadBytes
          ("projects/unsaved/".toList ++ type.str ++ "/".toList ++ (B.uuidv4 w.store).1)
          f.bytes ok :: rest) ∧
    (∃ (ok : Bool) (rest : List Call),
      (uploadFileWithProgress B (some f) (some P) type index w).2.log =
        w.log ++ Call.uploadBytes
          ("projects/".toList ++ P ++ "/".toList ++ type.str ++ "/".toList ++
            (B.uuidv4 w.store).1)
          f.bytes ok :: rest) ∧
    (w.ui.editId = some P →
      (∃ (ok : Bool) (rest : List Call),
        (handleFileSelect B (some f) i w).log =
          w.log ++ Call.uploadBytes
            ("projects/".toList ++ P ++ "/gallery/".toList ++ (B.uuidv4 w.store).1)
            f.bytes ok :: rest) ∧
      (∃ (ok : Bool) (rest : List Call),
        (handleMainImageFileSelect B (some f) w).log =
          w.log ++ Call.uploadBytes
            ("projects/".toList ++ P ++ "/main/".toList ++ (B.uuidv4 w.store).1)
            f.bytes ok :: rest)) := by
  have hpath : ∀ t : Slot, uploadPath (some P) t (B.uuidv4 w.store).1 =
      "projects/".toList ++ P ++ "/".toList ++ t.str ++ "/".toList ++ (B.uuidv4 w.store).1 := by
    intro t
    simp [uploadPath, baseFolder, truthy, List.isEmpty_iff, hP]
  refine ⟨?_, ?_, ?_⟩
  · exact uploadFileWithProgress_log B f none type index w
  · have h := uploadFileWithProgress_log B f (some P) type index w
    rw [hpath] at h
    exact h
  · intro hedit
    constructor
    · obtain ⟨ok, rest, h⟩ := uploadFileWithProgress_log B f (some P) .gallery (some i) w
      rw [hpath] at h
      refine ⟨ok, rest, ?_⟩
      simp only [handleFileSelect, hedit]
      split
      · rename_i url fp w1 heq
        rw [heq] at h
        simpa [Slot.str, World.setUi] using h
      · rename_i e w1 heq
        rw [heq] at h
        simpa [Slot.str, World.setUi, World.alert, World.consoleLog] using h
    · obtain ⟨ok, rest, h⟩ := uploadFileWithProgress_log B f (some P) .main none w
      rw [hpath] at h
      refine ⟨ok, rest, ?_⟩
      simp only [handleMainImageFileSelect, hedit]
      split
      · rename_i url fp w1 heq
        rw [heq] at h
        simpa [Slot.str, World.setUi] using h
      · rename_i e w1 heq
        rw [heq] at h
        simpa [Slot.str, World.setUi, World.alert, World.consoleLog] using h

/-- C6 at a concrete input: a gallery upload while editing project `p1`. -/
theorem uploadFileWithProgress_path_witness :
    ∃ (ok : Bool) (rest : List Call),
      (handleFileSelect (refBackend demoConfig) (some ⟨"a.png".toList, [7]⟩) 0
          (mkWorld sampleStore (panelWith sampleForm (some "p1".toList)))).log =
        [] ++ Call.uploadBytes
          ("projects/".toList ++ "p1".toList ++ "/gallery/".toList ++ "u".toList) [7] ok :: rest :=
  ((uploadFileWithProgress_path (refBackend demoConfig) ⟨"a.png".toList, [7]⟩ .gallery none 0
    (mkWorld sampleStore (panelWith sampleForm (some "p1".toList))) "p1".toList
    (by decide)).2.2 rfl).1

/-! ### What a save persists -/

theorem saveWrites_docData (B : Backend σ) (editId : Option Str) (f : ProjectFields)
    (w : World σ) :
    ∃ calls, (saveWrites B editId f w).2.log = w.log ++ calls ∧
      ∀ c ∈ calls, ∀ d, c.docData = some d →
        (d = ⟨f, .updatedAt⟩ ∧ editTarget editId ≠ none) ∨ d = ⟨f, .createdAt⟩ ∨
        (editTarget editId = none ∧
          ∃ id w1, d = ⟨(moveUnsavedFilesForProject B id f w1).1, .updatedAt⟩) := by
  unfold saveWrites
  split
  · rename_i id hid
    refine ⟨[Call.updateDoc id ⟨f, .updatedAt⟩ _], rfl, ?_⟩
    intro c hc d hd
    rw [List.mem_singleton] at hc
    subst hc
    simp only [Call.docData, Option.some.injEq] at hd
    exact Or.inl ⟨hd.symm, by simp [hid]⟩
  · rename_i hnone
    have hadd : (callAddDoc B ⟨f, .createdAt⟩ w).2.log =
        w.log ++ [Call.addDoc ⟨f, .createdAt⟩ (isOk (B.addDoc ⟨f, .createdAt⟩ w.store).1)] := rfl
    split
    · rename_i e w1 heq
      have h1 : w1.log = _ :=
        (congrArg (fun r : Except JsError Str × World σ => r.2.log) heq).symm
      rw [hadd] at h1
      refine ⟨_, h1, ?_⟩
      intro c hc d hd
      rw [List.mem_singleton] at hc
      subst hc
      simp only [Call.docData, Option.some.injEq] at hd
      exact Or.inr (Or.inl hd.symm)
    · rename_i id w1 heq
      have h1 : w1.log = _ :=
        (congrArg (fun r : Except JsError Str × World σ => r.2.log) heq).symm
      rw [hadd] at h1
      obtain ⟨reloc, hlog, hst⟩ := storageOnly_moveUnsavedFilesForProject B id f w1
      refine ⟨[Call.addDoc ⟨f, .createdAt⟩ (isOk (B.addDoc ⟨f, .createdAt⟩ w.store).1)] ++ reloc ++
        [Call.updateDoc id ⟨(moveUnsavedFilesForProject B id f w1).1, .updatedAt⟩
          (isOk (B.updateDoc id ⟨(moveUnsavedFilesForProject B id f w1).1, .updatedAt⟩
            (moveUnsavedFilesForProject B id f w1).2.store).1)], ?_, ?_⟩
      · show (moveUnsavedFilesForProject B id f w1).2.log ++ [_] = _
        rw [hlog, h1]
        simp only [List.append_assoc]
      · intro c hc d hd
        simp only [List.mem_append, List.mem_singleton] at hc
        rcases hc with (hc | hc) | hc
        · subst hc
          simp only [Call.docData, Option.some.injEq] at hd
          exact Or.inr (Or.inl hd.symm)
        · have hs := hst c hc
          cases c <;> simp [Call.docData, Call.isStorage, Call.isDocWrite] at hd hs
        · subst hc
          simp only [Call.docData, Option.some.injEq] at hd
          exact Or.inr (Or.inr ⟨hnone, id, w1, hd.symm⟩)

theorem handleSaveProject_calls (B : Backend σ) (w : World σ) :
    ∃ calls, (handleSaveProject B w).log = w.log ++ calls ∧
      ∀ c ∈ calls, ∀ d, c.docData = some d →
        (d = ⟨formatFields w.ui.formData, .updatedAt⟩ ∧ editTarget w.ui.editId ≠ none) ∨
        d = ⟨formatFields w.ui.formData, .createdAt⟩ ∨
        (editTarget w.ui.editId = none ∧
          ∃ id w1, d = ⟨(moveUnsavedFilesForProject B id (formatFields w.ui.formData) w1).1,
            .updatedAt⟩) := by
  by_cases hv : trim w.ui.formData.name = [] ∨ trim w.ui.formData.description = []
  · have hc : ((trim w.ui.formData.name).isEmpty || (trim w.ui.formData.description).isEmpty)
        = true := by
      rcases hv with h | h <;> simp [h]
    refine ⟨[], ?_, by simp⟩
    simp only [handleSaveProject, hc, if_true, List.append_nil]
    rfl
  · have hn : trim w.ui.formData.name ≠ [] := fun h => hv (Or.inl h)
    have hd : trim w.ui.formData.description ≠ [] := fun h => hv (Or.inr h)
    rw [(handleSaveProject_store_log B w hn hd).1]
    exact saveWrites_docData B w.ui.editId (formatFields w.ui.formData)
      (w.setUi fun p => { p with saving := true })

/-- C3 (amended): every document write `handleSaveProject` makes carries as `stages`
exactly the non-blank entries of the form's stages, in order.  Its `gallery` has
the length of the sub-sequence of non-blank form entries and agrees with it at
every position whose entry does not contain the provisional marker; the insert of a
new project and the update of an edited one carry exactly that sub-sequence. -/
theorem handleSaveProject_gallery_stages (B : Backend σ) (w : World σ) (c : Call) (d : DocData)
    (hc : c ∈ (handleSaveProject B w).log.drop w.log.length) (hd : c.docData = some d) :
    d.fields.stages = nonBlankSpec w.ui.formData.stages ∧
    d.fields.gallery.length = (nonBlankSpec w.ui.formData.gallery).length ∧
    (∀ (i : Nat) (u : Str), (nonBlankSpec w.ui.formData.gallery)[i]? = some u →
      includes u unsavedMarker = false → d.fields.gallery[i]? = some u) ∧
    ((d.stamp = .createdAt ∨ editTarget w.ui.editId ≠ none) →
      d.fields.gallery = nonBlankSpec w.ui.formData.gallery) := by
  obtain ⟨calls, hlog, hall⟩ := handleSaveProject_calls B w
  rw [hlog, List.drop_left] at hc
  rw [← formatFields_gallery, ← formatFields_stages]
  rcases hall c hc d hd with ⟨h, he⟩ | h | ⟨hnone, id, w1, h⟩
  · subst h
    exact ⟨rfl, rfl, fun i u hi _ => hi, fun _ => rfl⟩
  · subst h
    exact ⟨rfl, rfl, fun i u hi _ => hi, fun _ => rfl⟩
  · subst h
    have hother := moveUnsaved_other_fields B id (formatFields w.ui.formData) w1
    refine ⟨?_, moveUnsaved_gallery_length B id _ w1, moveUnsaved_gallery_keeps B id _ w1, ?_⟩
    · have hst := congrArg ProjectFields.stages hother
      exact hst
    · intro h
      rcases h with h | h
      · exact Stamp.noConfusion h
      · exact absurd hnone h

/-- C3 as stated fails: saving a new project whose first gallery entry is a
provisional upload persists the relocated reference in its place, so the
persisted gallery is not the sub-sequence of non-blank form entries. -/
theorem handleSaveProject_gallery_counterexample :
    (getKey (handleSaveProject (refBackend demoConfig)
        (mkWorld galleryStore (panelWith galleryForm none))).store.docs "d".toList).map
      (fun d => d.fields.gallery) =
      some ["https://cdn.test/projects/d/gallery/u".toList, "https://ext.test/a.png".toList] ∧
    nonBlankSpec galleryForm.gallery =
      ["https://cdn.test/projects/unsaved/gallery/g1".toList, "https://ext.test/a.png".toList] := by
  decide

/-- C3 (amended) at a concrete input: the final update of the new-project save of
`galleryForm`. -/
theorem handleSaveProject_gallery_stages_witness :
    (["https://cdn.test/projects/d/gallery/u".toList, "https://ext.test/a.png".toList] :
      List Str).length = (nonBlankSpec galleryForm.gallery).length ∧
    (formatFields galleryForm).stages = nonBlankSpec galleryForm.stages :=
  have h := handleSaveProject_gallery_stages (refBackend demoConfig)
    (mkWorld galleryStore (panelWith galleryForm none))
    (Call.updateDoc "d".toList
      ⟨{ formatFields galleryForm with
          gallery := ["https://cdn.test/projects/d/gallery/u".toList,
            "https://ext.test/a.png".toList] }, .updatedAt⟩ true)
    ⟨{ formatFields galleryForm with
        gallery := ["https://cdn.test/projects/d/gallery/u".toList,
          "https://ext.test/a.png".toList] }, .updatedAt⟩
    (by decide) rfl
  ⟨h.2.1, h.1⟩

/-! ### The reference stores under a relocation -/

theorem getKey_append_fresh {α : Type} (m : List (Str × α)) (k : Str) (v : α)
    (h : getKey m k = none) : getKey (m ++ [(k, v)]) k = some v := by
  induction m with
  | nil => simp [getKey]
  | cons e t ih =>
    obtain ⟨k1, v1⟩ := e
    by_cases hk : k1 = k
    · simp [getKey, hk] at h
    · simp only [getKey, hk, if_false] at h
      simp [getKey, hk, ih h]

theorem putKey_append_fresh {α : Type} (m : List (Str × α)) (k : Str) (v v2 : α)
    (h : getKey m k = none) : putKey (m ++ [(k, v)]) k v2 = m ++ [(k, v2)] := by
  induction m with
  | nil => simp [putKey]
  | cons e t ih =>
    obtain ⟨k1, v1⟩ := e
    by_cases hk : k1 = k
    · simp [getKey, hk] at h
    · simp only [getKey, hk, if_false] at h
      simp [putKey, hk, ih h]

/-- A relocation over the reference stores leaves the documents, the id counter and
the clock alone. -/
theorem ref_reach_docs {cfg : RefConfig} {pid : Str} {T : Slot → Prop} {D : Str → Prop}
    {w1 w2 : World RefStore} (r : Reach (refBackend cfg) pid T D w1 w2) :
    w2.store.docs = w1.store.docs ∧ w2.store.nextDoc = w1.store.nextDoc ∧
      w2.store.clock = w1.store.clock := by
  refine Reach.preserves
    (fun s => s.docs = w1.store.docs ∧ s.nextDoc = w1.store.nextDoc ∧ s.clock = w1.store.clock)
    ?_ ?_ ?_ ?_ ?_ r ⟨rfl, rfl, rfl⟩
  · intro f s h
    exact h
  · intro p s h
    simp only [refBackend]
    split <;> exact h
  · intro u s h
    simp only [refBackend]
    split <;> exact h
  · intro t b s _ h
    exact h
  · intro i s _ h
    simp only [refBackend]
    split <;> exact h

/-- C2: over the reference stores, for every form with a non-blank name and
description whose store calls all succeed, `handleSaveProject` changes exactly one
document of the collection: in the edit flow the existing document `editId` is
replaced in place, in the new-project flow (the generated id being unused) one
document is appended; in both its `technologies` is the form's string split on
commas, each piece stripped of surrounding whitespace, empty pieces removed, in
order. -/
theorem handleSaveProject_persists (cfg : RefConfig) (s : RefStore) (p : Panel)
    (hn : isBlank p.formData.name = false) (hd : isBlank p.formData.description = false)
    (hok : ∀ c ∈ (handleSaveProject (refBackend cfg) (mkWorld s p)).log, c.ok = true)
    (hfresh : editTarget p.editId = none → getKey s.docs (cfg.docId s.nextDoc) = none) :
    ∃ (id : Str) (doc : ProjectDoc),
      doc.fields.technologies = technologiesSpec p.formData.technologies ∧
      ((editTarget p.editId = some id ∧ (getKey s.docs id).isSome = true ∧
          (handleSaveProject (refBackend cfg) (mkWorld s p)).store.docs = putKey s.docs id doc) ∨
       (editTarget p.editId = none ∧ id = cfg.docId s.nextDoc ∧
          (handleSaveProject (refBackend cfg) (mkWorld s p)).store.docs = s.docs ++ [(id, doc)])) := by
  have hn2 : trim (mkWorld s p).ui.formData.name ≠ [] := fun h => by
    have := (trim_eq_nil_iff _).1 h
    simp [mkWorld, hn] at this
  have hd2 : trim (mkWorld s p).ui.formData.description ≠ [] := fun h => by
    have := (trim_eq_nil_iff _).1 h
    simp [mkWorld, hd] at this
  obtain ⟨hlog, hstore⟩ := handleSaveProject_store_log (refBackend cfg) (mkWorld s p) hn2 hd2
  rw [hlog] at hok
  rw [hstore]
  have htech := formatFields_technologies p.formData
  cases het : editTarget p.editId with
  | some id =>
    have hsw : saveWrites (refBackend cfg) (mkWorld s p).ui.editId
        (formatFields (mkWorld s p).ui.formData)
        ((mkWorld s p).setUi fun q => { q with saving := true }) =
        callUpdateDoc (refBackend cfg) id ⟨formatFields p.formData, .updatedAt⟩
          ((mkWorld s p).setUi fun q => { q with saving := true }) := by
      simp only [saveWrites]
      show (match editTarget p.editId with | some id => _ | none => _) = _
      rw [het]
      rfl
    rw [hsw] at hok ⊢
    cases hget : getKey s.docs id with
    | none =>
      exfalso
      have := hok (Call.updateDoc id ⟨formatFields p.formData, .updatedAt⟩ false) (by
        simp [callUpdateDoc, World.record, World.setUi, mkWorld, refBackend, hget, isOk])
      simp [Call.ok] at this
    | some d0 =>
      refine ⟨id, applyWrite (some d0) ⟨formatFields p.formData, .updatedAt⟩ s.clock, htech,
        Or.inl ⟨rfl, by rw [hget]; rfl, ?_⟩⟩
      simp [callUpdateDoc, World.record, World.setUi, mkWorld, refBackend, hget]
  | none =>
    have hf := hfresh het
    let w1 : World RefStore := (callAddDoc (refBackend cfg) ⟨formatFields p.formData, .createdAt⟩
      ((mkWorld s p).setUi fun q => { q with saving := true })).2
    let m := moveUnsavedFilesForProject (refBackend cfg) (cfg.docId s.nextDoc)
      (formatFields p.formData) w1
    have hsw : saveWrites (refBackend cfg) (mkWorld s p).ui.editId
        (formatFields (mkWorld s p).ui.formData)
        ((mkWorld s p).setUi fun q => { q with saving := true }) =
        callUpdateDoc (refBackend cfg) (cfg.docId s.nextDoc) ⟨m.1, .updatedAt⟩ m.2 := by
      simp only [saveWrites]
      show (match editTarget p.editId with | some id => _ | none => _) = _
      rw [het]
      rfl
    rw [hsw]
    obtain ⟨hdocs, -, hclock⟩ := ref_reach_docs
      (reach_moveUnsavedFilesForProject (refBackend cfg) (cfg.docId s.nextDoc)
        (formatFields p.formData) w1)
    have hd1 : w1.store.docs = s.docs ++ [(cfg.docId s.nextDoc,
        applyWrite none ⟨formatFields p.formData, .createdAt⟩ s.clock)] := rfl
    have hget : getKey m.2.store.docs (cfg.docId s.nextDoc) =
        some (applyWrite none ⟨formatFields p.formData, .createdAt⟩ s.clock) := by
      rw [hdocs, hd1]
      exact getKey_append_fresh _ _ _ hf
    have hm : m.1.technologies = (formatFields p.formData).technologies := by
      have h := congrArg ProjectFields.technologies
        (moveUnsaved_other_fields (refBackend cfg) (cfg.docId s.nextDoc)
          (formatFields p.formData) w1)
      exact h
    refine ⟨cfg.docId s.nextDoc,
      applyWrite (some (applyWrite none ⟨formatFields p.formData, .createdAt⟩ s.clock))
        ⟨m.1, .updatedAt⟩ m.2.store.clock, ?_, Or.inr ⟨rfl, rfl, ?_⟩⟩
    · show m.1.technologies = _
      rw [hm, htech]
    · simp only [callUpdateDoc, World.record, refBackend, hget]
      show putKey m.2.store.docs _ _ = _
      rw [hdocs, hd1]
      exact putKey_append_fresh _ _ _ _ hf

/-- C2 at a concrete input: the new-project save of `sampleForm`. -/
theorem handleSaveProject_persists_witness :
    ∃ (id : Str) (doc : ProjectDoc),
      doc.fields.technologies = technologiesSpec sampleForm.technologies ∧
      ((editTarget none = some id ∧ (getKey sampleStore.docs id).isSome = true ∧
          (handleSaveProject (refBackend demoConfig)
            (mkWorld sampleStore (panelWith sampleForm none))).store.docs =
            putKey sampleStore.docs id doc) ∨
       (editTarget none = none ∧ id = demoConfig.docId sampleStore.nextDoc ∧
          (handleSaveProject (refBackend demoConfig)
            (mkWorld sampleStore (panelWith sampleForm none))).store.docs =
            sampleStore.docs ++ [(id, doc)])) :=
  handleSaveProject_persists demoConfig sampleStore (panelWith sampleForm none)
    (by decide) (by decide) (by decide) (fun _ => by decide)

/-! ### Keys and paths -/

theorem getKey_putKey {α : Type} (m : List (Str × α)) (k : Str) (v : α) (k2 : Str) :
    getKey (putKey m k v) k2 = if k = k2 then some v else getKey m k2 := by
  induction m with
  | nil => simp [putKey, getKey]
  | cons e t ih =>
    obtain ⟨k1, v1⟩ := e
    by_cases h1 : k1 = k
    · subst h1
      by_cases h2 : k1 = k2 <;> simp [putKey, getKey, h2]
    · by_cases h2 : k1 = k2
      · subst h2
        have : ¬ k = k1 := fun h => h1 h.symm
        simp [putKey, getKey, h1, this]
      · simp [putKey, getKey, h1, h2, ih]

theorem getKey_eraseKey {α : Type} (m : List (Str × α)) (k k2 : Str) :
    getKey (eraseKey m k) k2 = if k = k2 then none else getKey m k2 := by
  induction m with
  | nil => simp [eraseKey, getKey]
  | cons e t ih =>
    obtain ⟨k1, v1⟩ := e
    unfold eraseKey at ih ⊢
    by_cases h1 : k1 = k
    · subst h1
      by_cases h2 : k1 = k2
      · simpa [List.filter_cons, getKey, h2] using ih
      · simp only [List.filter_cons, bne_self_eq_false, Bool.false_eq_true, if_false, ih, h2,
          getKey]
    · have hb : (k1 != k) = true := by simpa using h1
      simp only [List.filter_cons, hb, if_true, getKey, ih]
      by_cases h2 : k1 = k2
      · subst h2
        have : ¬ k = k1 := fun h => h1 h.symm
        simp [this]
      · simp [h2]

theorem getKey_mem {α : Type} (m : List (Str × α)) (k : Str) (h : k ∈ m.map Prod.fst) :
    ∃ v, getKey m k = some v := by
  induction m with
  | nil => exact absurd h (List.not_mem_nil _)
  | cons e t ih =>
    obtain ⟨k1, v1⟩ := e
    by_cases h1 : k1 = k
    · exact ⟨v1, by simp [getKey, h1]⟩
    · have : k ∈ t.map Prod.fst := by
        rw [List.map_cons, List.mem_cons] at h
        rcases h with h | h
        · exact absurd h.symm h1
        · exact h
      obtain ⟨v, hv⟩ := ih this
      exact ⟨v, by simp [getKey, h1, hv]⟩

theorem mem_of_getKey {α : Type} (m : List (Str × α)) (k : Str) (v : α)
    (h : getKey m k = some v) : k ∈ m.map Prod.fst := by
  induction m with
  | nil => exact absurd h (by simp [getKey])
  | cons e t ih =>
    obtain ⟨k1, v1⟩ := e
    rw [List.map_cons, List.mem_cons]
    by_cases h1 : k1 = k
    · exact Or.inl h1.symm
    · simp only [getKey, h1, if_false] at h
      exact Or.inr (ih h)

theorem resolveUrl_eq_getKey (cfg : RefConfig) (hinj : Function.Injective cfg.urlOf)
    (m : List (Str × Blob)) (p : Str) : resolveUrl cfg m (cfg.urlOf p) = getKey m p := by
  induction m with
  | nil => rfl
  | cons e t ih =>
    obtain ⟨k1, v1⟩ := e
    by_cases h1 : k1 = p
    · simp [resolveUrl, getKey, h1]
    · have : ¬ cfg.urlOf k1 = cfg.urlOf p := fun h => h1 (hinj h)
      simp [resolveUrl, getKey, h1, this, ih]

/-- A path has one decomposition into a folder and a name without `/`. -/
theorem path_split {a b x y : Str} (hx : '/' ∉ x) (hy : '/' ∉ y)
    (h : a ++ '/' :: x = b ++ '/' :: y) : a = b ∧ x = y := by
  induction a generalizing b with
  | nil =>
    cases b with
    | nil => simpa using h
    | cons c b2 =>
      simp only [List.nil_append, List.cons_append, List.cons.injEq] at h
      exact absurd (h.2 ▸ (by simp : '/' ∈ b2 ++ '/' :: y)) hx
  | cons c a2 ih =>
    cases b with
    | nil =>
      simp only [List.nil_append, List.cons_append, List.cons.injEq] at h
      exact absurd (h.2 ▸ (by simp : '/' ∈ a2 ++ '/' :: x)) hy
    | cons d b2 =>
      simp only [List.cons_append, List.cons.injEq] at h
      obtain ⟨h1, h2⟩ := ih h.2
      exact ⟨by rw [h.1, h1], h2⟩

theorem slot_str_no_slash (t : Slot) : '/' ∉ t.str := by
  cases t <;> decide

theorem slot_str_injective {t u : Slot} (h : t.str = u.str) : t = u := by
  cases t <;> cases u <;> first | rfl | exact absurd h (by decide)

/-- A relocation target that coincides with an object directly inside a provisional
folder: only for the project id `unsaved`, the same slot and the same name. -/
theorem newPath_eq_child {pid x name : Str} {t u : Slot} (hx : '/' ∉ x) (hname : '/' ∉ name)
    (h : newPath pid t x = unsavedFolder u ++ '/' :: name) :
    pid = "unsaved".toList ∧ t = u ∧ x = name := by
  have h1 : ("projects/".toList ++ pid ++ '/' :: t.str) ++ '/' :: x =
      ("projects/unsaved".toList ++ '/' :: u.str) ++ '/' :: name := by
    simpa [newPath, unsavedFolder] using h
  obtain ⟨h2, h3⟩ := path_split hx hname h1
  obtain ⟨h4, h5⟩ := path_split (slot_str_no_slash t) (slot_str_no_slash u) h2
  refine ⟨?_, slot_str_injective h5, h3⟩
  have h6 : "projects/".toList ++ pid = "projects/".toList ++ "unsaved".toList := h4
  exact List.append_cancel_left h6

theorem isDirectChild_iff (folder path : Str) :
    isDirectChild folder path = true ↔
      ∃ name, path = folder ++ '/' :: name ∧ name ≠ [] ∧ '/' ∉ name := by
  constructor
  · intro h
    simp only [isDirectChild, Bool.and_eq_true, Bool.not_eq_true', List.isEmpty_eq_false,
      List.contains_eq_any_beq, List.any_eq_false, beq_iff_eq] at h
    obtain ⟨hp, hne, hns⟩ := h
    obtain ⟨r, hr⟩ := List.isPrefixOf_iff_prefix.1 hp
    have hd : path.drop (folder.length + 1) = r := by
      rw [← hr]
      have : (folder ++ ['/']).length = folder.length + 1 := by simp
      rw [← this, List.drop_left]
    rw [hd] at hne hns
    refine ⟨r, by rw [← hr]; simp, hne, ?_⟩
    intro hmem
    exact hns '/' hmem rfl
  · rintro ⟨name, rfl, hne, hns⟩
    have hd : (folder ++ '/' :: name).drop (folder.length + 1) = name := by
      have : folder ++ '/' :: name = (folder ++ ['/']) ++ name := by simp
      rw [this]
      have hl : (folder ++ ['/']).length = folder.length + 1 := by simp
      rw [← hl, List.drop_left]
    simp only [isDirectChild, hd, Bool.and_eq_true, Bool.not_eq_true', List.isEmpty_eq_false,
      List.contains_eq_any_beq, List.any_eq_false, beq_iff_eq]
    refine ⟨?_, hne, ?_⟩
    · apply List.isPrefixOf_iff_prefix.2
      exact ⟨name, by simp⟩
    · intro c hc hcs
      exact hns (hcs ▸ hc)

/-! ### Relocation of one reference over the reference stores -/

theorem ref_getDownloadURL_ok (cfg : RefConfig) (p : Str) (w : World RefStore) (b : Blob)
    (h : getKey w.store.objects p = some b) :
    callGetDownloadURL (refBackend cfg) p w =
      (.ok (cfg.urlOf p), w.record w.store (.getDownloadURL p true)) := by
  simp [callGetDownloadURL, refBackend, h, isOk]

theorem ref_fetch_ok (cfg : RefConfig) (u : Str) (w : World RefStore) (b : Blob)
    (h : resolveUrl cfg w.store.objects u = some b) :
    callFetch (refBackend cfg) u w = (.ok b, w.record w.store (.fetch u true)) := by
  simp [callFetch, refBackend, h, isOk]

theorem ref_deleteObject_ok (cfg : RefConfig) (p : Str) (w : World RefStore) (b : Blob)
    (h : getKey w.store.objects p = some b) :
    callDeleteObject (refBackend cfg) p w =
      (.ok (), w.record { w.store with objects := eraseKey w.store.objects p }
        (.deleteObject p true)) := by
  simp [callDeleteObject, refBackend, h, isOk]

theorem ref_upload (cfg : RefConfig) (p : Str) (b : Blob) (w : World RefStore) :
    callUpload (refBackend cfg) p b w =
      (⟨[100], .ok ()⟩, w.record { w.store with objects := putKey w.store.objects p b }
        (.uploadBytes p b true)) := rfl

theorem ref_moveSingleLoop_found (cfg : RefConfig) (hinj : Function.Injective cfg.urlOf)
    (old pid : Str) (t : Slot) (b : Blob) (items : List Str) (w : World RefStore)
    (hall : ∀ i ∈ items, ∃ bi, getKey w.store.objects i = some bi)
    (hmem : old ∈ items) (hobj : getKey w.store.objects old = some b) :
    (moveSingleLoop (refBackend cfg) (cfg.urlOf old) pid t items w).1 =
        cfg.urlOf (newPath pid t (cfg.uuid w.store.nextUuid)) ∧
    (moveSingleLoop (refBackend cfg) (cfg.urlOf old) pid t items w).2.store =
        relocated w.store old (newPath pid t (cfg.uuid w.store.nextUuid)) b := by
  induction items generalizing w with
  | nil => exact absurd hmem (List.not_mem_nil _)
  | cons i rest ih =>
    obtain ⟨bi, hbi⟩ := hall i (List.mem_cons_self _ _)
    rw [moveSingleLoop, ref_getDownloadURL_ok cfg i w bi hbi]
    by_cases hm : cfg.urlOf i = cfg.urlOf old
    · have hio : i = old := hinj hm
      subst hio
      have hres : resolveUrl cfg (w.record w.store (.getDownloadURL i true)).store.objects
          (cfg.urlOf i) = some b := by
        rw [resolveUrl_eq_getKey cfg hinj]
        exact hobj
      simp only [hm, if_true]
      rw [ref_fetch_ok cfg _ _ b hres]
      have hnew : getKey (putKey w.store.objects (newPath pid t (cfg.uuid w.store.nextUuid)) b)
          (newPath pid t (cfg.uuid w.store.nextUuid)) = some b := by
        rw [getKey_putKey, if_pos rfl]
      have hold : ∃ b2, getKey (putKey w.store.objects
          (newPath pid t (cfg.uuid w.store.nextUuid)) b) i = some b2 := by
        rw [getKey_putKey]
        split
        · exact ⟨b, rfl⟩
        · exact ⟨b, hobj⟩
      obtain ⟨b2, hb2⟩ := hold
      dsimp only
      rw [ref_upload]
      dsimp only
      rw [ref_getDownloadURL_ok cfg _ _ b hnew]
      dsimp only
      rw [ref_deleteObject_ok cfg _ _ b2 hb2]
      exact ⟨rfl, rfl⟩
    · simp only [hm, if_false]
      have hne : old ≠ i := fun h => hm (by rw [h])
      have hmem2 : old ∈ rest := by
        rcases List.mem_cons.1 hmem with h | h
        · exact absurd h hne
        · exact h
      exact ih _ (fun j hj => hall j (List.mem_cons_of_mem _ hj)) hmem2 hobj

theorem ref_moveSingle_found (cfg : RefConfig) (hinj : Function.Injective cfg.urlOf)
    (old pid : Str) (t : Slot) (b : Blob) (w : World RefStore)
    (hchild : isDirectChild (unsavedFolder t) old = true)
    (hobj : getKey w.store.objects old = some b) :
    ∃ w2, moveSingleUnsavedUrl (refBackend cfg) (cfg.urlOf old) pid t w =
        (.ok (cfg.urlOf (newPath pid t (cfg.uuid w.store.nextUuid))), w2) ∧
      w2.store = relocated w.store old (newPath pid t (cfg.uuid w.store.nextUuid)) b := by
  have hlist : callListAll (refBackend cfg) (unsavedFolder t) w =
      (.ok ((w.store.objects.map Prod.fst).filter (isDirectChild (unsavedFolder t))),
        w.record w.store (.listAll (unsavedFolder t) true)) := rfl
  have hmem : old ∈ (w.store.objects.map Prod.fst).filter (isDirectChild (unsavedFolder t)) :=
    List.mem_filter.2 ⟨mem_of_getKey _ _ _ hobj, hchild⟩
  have hall : ∀ i ∈ (w.store.objects.map Prod.fst).filter (isDirectChild (unsavedFolder t)),
      ∃ bi, getKey (w.record w.store (.listAll (unsavedFolder t) true)).store.objects i =
        some bi := fun i hi => getKey_mem _ _ (List.mem_filter.1 hi).1
  have h := ref_moveSingleLoop_found cfg hinj old pid t b _
    (w.record w.store (.listAll (unsavedFolder t) true)) hall hmem hobj
  refine ⟨_, ?_, h.2⟩
  rw [moveSingleUnsavedUrl, hlist]
  simp only
  rw [h.1]
  rfl

theorem ref_matched (cfg : RefConfig) (t : Slot) (u item : Str)
    (h : Matched (refBackend cfg) t u item) :
    isDirectChild (unsavedFolder t) item = true ∧ cfg.urlOf item = u := by
  obtain ⟨⟨s, items, hl, hi⟩, ⟨s2, hg⟩⟩ := h
  constructor
  · have : items = (s.objects.map Prod.fst).filter (isDirectChild (unsavedFolder t)) := by
      have h2 : (Except.ok ((s.objects.map Prod.fst).filter (isDirectChild (unsavedFolder t))) :
          Except JsError (List Str)) = .ok items := hl
      injection h2 with h3
      exact h3.symm
    rw [this] at hi
    exact (List.mem_filter.1 hi).2
  · simp only [refBackend] at hg
    split at hg
    · injection hg
    · exact absurd hg (by simp)

theorem includes_true_isUnsavedRef {u : Str} (h : includes u unsavedMarker = true) :
    isUnsavedRef u = true := by
  cases u with
  | nil => exact absurd h (by decide)
  | cons c cs => simp [isUnsavedRef, h]

theorem ref_moveUnsaved_main (cfg : RefConfig) (hinj : Function.Injective cfg.urlOf)
    (pid old : Str) (b : Blob) (f : ProjectFields) (w : World RefStore)
    (hurl : f.imageUrl = cfg.urlOf old) (hmark : includes f.imageUrl unsavedMarker = true)
    (hchild : isDirectChild (unsavedFolder .main) old = true)
    (hobj : getKey w.store.objects old = some b) :
    (moveUnsavedFilesForProject (refBackend cfg) pid f w).1.imageUrl =
      cfg.urlOf (newPath pid .main (cfg.uuid w.store.nextUuid)) ∧
    ∃ w2 : World RefStore,
      w2.store = relocated w.store old (newPath pid .main (cfg.uuid w.store.nextUuid)) b ∧
      Reach (refBackend cfg) pid (fun x => x = .gallery)
        (fun i => ∃ u ∈ f.gallery, isUnsavedRef u = true ∧ Matched (refBackend cfg) .gallery u i)
        w2 (moveUnsavedFilesForProject (refBackend cfg) pid f w).2 := by
  obtain ⟨w2, hms, hst⟩ := ref_moveSingle_found cfg hinj old pid .main b
    (w.setUi fun p => { p with moving := true }) hchild hobj
  have hmain : moveMain (refBackend cfg) pid f.imageUrl
      (w.setUi fun p => { p with moving := true }) =
      (.ok (cfg.urlOf (newPath pid .main (cfg.uuid w.store.nextUuid))), w2) := by
    rw [moveMain, if_pos (includes_true_isUnsavedRef hmark), hurl]
    exact hms
  refine ⟨?_, w2, hst, ?_⟩
  · rw [moveUnsavedFilesForProject, hmain]
  · rw [moveUnsavedFilesForProject, hmain]
    exact (reach_moveGallery (refBackend cfg) pid f.gallery w2).trans
      (reach_endMove (refBackend cfg) pid _ _ _ _)

theorem unsaved_main_path (name : Str) :
    "projects/unsaved/main/".toList ++ name = unsavedFolder .main ++ '/' :: name := by
  simp [unsavedFolder, Slot.str]

/-- A save at a concrete input, with the access URL of the provisional object
percent-encoding the `/` of the path, so that it does not contain the marker
`/projects/unsaved/` literally: the save keeps the provisional URL in the document
and the provisional object in the store. -/
theorem handleSaveProject_main_counterexample :
    getKey sampleStore.objects "projects/unsaved/main/abc".toList = some [1, 2, 3] ∧
    (getKey (handleSaveProject (refBackend encodedConfig)
        (mkWorld sampleStore (panelWith
          { sampleForm with
              imageUrl := encodedConfig.urlOf "projects/unsaved/main/abc".toList } none))).store.docs
        "d".toList).map (fun d => d.fields.imageUrl) =
      some "https://cdn.test/o/projects%2Funsaved%2Fmain%2Fabc".toList ∧
    getKey (handleSaveProject (refBackend encodedConfig)
        (mkWorld sampleStore (panelWith
          { sampleForm with
              imageUrl := encodedConfig.urlOf "projects/unsaved/main/abc".toList } none))).store.objects
      "projects/unsaved/main/abc".toList = some [1, 2, 3] := by
  decide

/-- The relocation of the main image when its URL does carry the marker: over the
reference stores with an injective access-URL scheme, for a new project with a
valid form whose `imageUrl` is the access URL of an object stored at
`projects/unsaved/main/<name>` and contains the provisional marker, after
`handleSaveProject` the persisted document (the one with the id allocated by the
insert) has as `imageUrl` the access URL of `projects/<newId>/main/<generated name>`,
and the store holds no object at `projects/unsaved/main/<name>`.  Nothing is said
here about the object at the new path. -/
theorem handleSaveProject_relocates_main (cfg : RefConfig) (s : RefStore) (p : Panel)
    (name : Str) (b : Blob)
    (hinj : Function.Injective cfg.urlOf) (huuid : ∀ n, '/' ∉ cfg.uuid n)
    (hnew : p.editId = none)
    (hn : isBlank p.formData.name = false) (hd : isBlank p.formData.description = false)
    (hname : name ≠ [] ∧ '/' ∉ name)
    (hobj : getKey s.objects ("projects/unsaved/main/".toList ++ name) = some b)
    (hurl : p.formData.imageUrl = cfg.urlOf ("projects/unsaved/main/".toList ++ name))
    (hmark : includes p.formData.imageUrl unsavedMarker = true) :
    (getKey (handleSaveProject (refBackend cfg) (mkWorld s p)).store.docs
        (cfg.docId s.nextDoc)).map (fun d => d.fields.imageUrl) =
      some (cfg.urlOf ("projects/".toList ++ cfg.docId s.nextDoc ++ "/main/".toList ++
        cfg.uuid s.nextUuid)) ∧
    getKey (handleSaveProject (refBackend cfg) (mkWorld s p)).store.objects
      ("projects/unsaved/main/".toList ++ name) = none := by
  have hn2 : trim (mkWorld s p).ui.formData.name ≠ [] := fun h => by
    have := (trim_eq_nil_iff _).1 h
    simp [mkWorld, hn] at this
  have hd2 : trim (mkWorld s p).ui.formData.description ≠ [] := fun h => by
    have := (trim_eq_nil_iff _).1 h
    simp [mkWorld, hd] at this
  rw [(handleSaveProject_store_log (refBackend cfg) (mkWorld s p) hn2 hd2).2]
  have het : editTarget p.editId = none := by simp [editTarget, hnew]
  let w1 : World RefStore := (callAddDoc (refBackend cfg) ⟨formatFields p.formData, .createdAt⟩
    ((mkWorld s p).setUi fun q => { q with saving := true })).2
  let m := moveUnsavedFilesForProject (refBackend cfg) (cfg.docId s.nextDoc)
    (formatFields p.formData) w1
  have hsw : saveWrites (refBackend cfg) (mkWorld s p).ui.editId
      (formatFields (mkWorld s p).ui.formData)
      ((mkWorld s p).setUi fun q => { q with saving := true }) =
      callUpdateDoc (refBackend cfg) (cfg.docId s.nextDoc) ⟨m.1, .updatedAt⟩ m.2 := by
    simp only [saveWrites]
    show (match editTarget p.editId with | some id => _ | none => _) = _
    rw [het]
    rfl
  rw [hsw]
  have hchild : isDirectChild (unsavedFolder .main) ("projects/unsaved/main/".toList ++ name)
      = true := by
    rw [unsaved_main_path]
    exact (isDirectChild_iff _ _).2 ⟨name, rfl, hname.1, hname.2⟩
  obtain ⟨himg, w2, hw2, hreach⟩ := ref_moveUnsaved_main cfg hinj (cfg.docId s.nextDoc)
    ("projects/unsaved/main/".toList ++ name) b (formatFields p.formData) w1 hurl hmark hchild hobj
  -- the gallery phase neither touches the documents nor re-creates the provisional object
  obtain ⟨hdocs, -, -⟩ := ref_reach_docs hreach
  have hgone : getKey m.2.store.objects ("projects/unsaved/main/".toList ++ name) = none := by
    refine Reach.preserves
      (fun st => getKey st.objects ("projects/unsaved/main/".toList ++ name) = none)
      ?_ ?_ ?_ ?_ ?_ hreach ?_
    · intro f st h
      exact h
    · intro q st h
      simp only [refBackend]
      split <;> exact h
    · intro u st h
      simp only [refBackend]
      split <;> exact h
    · intro t bl st ht h
      show getKey (putKey st.objects _ bl) _ = none
      rw [getKey_putKey, if_neg, h]
      intro heq
      rw [unsaved_main_path] at heq
      have := (newPath_eq_child (huuid _) hname.2 heq).2.1
      rw [ht] at this
      exact Slot.noConfusion this
    · intro i st _ h
      simp only [refBackend]
      split
      · show getKey (eraseKey st.objects i) _ = none
        rw [getKey_eraseKey, h]
        simp
      · exact h
    · rw [hw2]
      show getKey (eraseKey _ _) _ = none
      rw [getKey_eraseKey, if_pos rfl]
  have hd1 : m.2.store.docs = s.docs ++ [(cfg.docId s.nextDoc,
      applyWrite none ⟨formatFields p.formData, .createdAt⟩ s.clock)] := by
    rw [hdocs, hw2]
    rfl
  obtain ⟨d0, hd0⟩ := getKey_mem m.2.store.docs (cfg.docId s.nextDoc) (by
    rw [hd1, List.map_append]
    exact List.mem_append_right _ (List.mem_cons_self _ _))
  have hupd : callUpdateDoc (refBackend cfg) (cfg.docId s.nextDoc) ⟨m.1, .updatedAt⟩ m.2 =
      (.ok (), m.2.record { m.2.store with
          docs := putKey m.2.store.docs (cfg.docId s.nextDoc)
            (applyWrite (some d0) ⟨m.1, .updatedAt⟩ m.2.store.clock),
          clock := m.2.store.clock + 1 }
        (.updateDoc (cfg.docId s.nextDoc) ⟨m.1, .updatedAt⟩ true)) := by
    simp [callUpdateDoc, refBackend, hd0, isOk]
  rw [hupd]
  constructor
  · show (getKey (putKey m.2.store.docs _ _) _).map _ = _
    rw [getKey_putKey, if_pos rfl]
    show some m.1.imageUrl = _
    have hu : w1.store.nextUuid = s.nextUuid := rfl
    rw [himg, hu]
    simp [newPath, Slot.str]
  · exact hgone

/-- The relocation of the main image at a concrete input: the new-project save of
`sampleForm` over `sampleStore`, whose URLs embed the path. -/
theorem handleSaveProject_relocates_main_witness :
    (getKey (handleSaveProject (refBackend demoConfig)
        (mkWorld sampleStore (panelWith sampleForm none))).store.docs
        (demoConfig.docId sampleStore.nextDoc)).map (fun d => d.fields.imageUrl) =
      some (demoConfig.urlOf ("projects/".toList ++ demoConfig.docId sampleStore.nextDoc ++
        "/main/".toList ++ demoConfig.uuid sampleStore.nextUuid)) ∧
    getKey (handleSaveProject (refBackend demoConfig)
        (mkWorld sampleStore (panelWith sampleForm none))).store.objects
      ("projects/unsaved/main/".toList ++ "abc".toList) = none :=
  handleSaveProject_relocates_main demoConfig sampleStore (panelWith sampleForm none)
    "abc".toList [1, 2, 3] (fun _ _ h => List.append_cancel_left h)
    (fun n => by
      show '/' ∉ 'u' :: List.replicate n 'x'
      simp [List.mem_replicate])
    rfl (by decide) (by decide) (by decide) (by decide) (by decide) (by decide)

/-! ### Relocated objects stay in place -/

theorem ref_moveSingle_ok (cfg : RefConfig) (u pid : Str) (t : Slot) (w : World RefStore) :
    ∃ newUrl, (moveSingleUnsavedUrl (refBackend cfg) u pid t w).1 = .ok newUrl := by
  have hlist : callListAll (refBackend cfg) (unsavedFolder t) w =
      (.ok ((w.store.objects.map Prod.fst).filter (isDirectChild (unsavedFolder t))),
        w.record w.store (.listAll (unsavedFolder t) true)) := rfl
  rw [moveSingleUnsavedUrl, hlist]
  exact ⟨_, rfl⟩

/-- Over the reference stores a relocation keeps the object at `k`, provided it
uploads to no path equal to `k` (for generated names from the `n`-th on) and
deletes no path equal to `k`; the name counter does not decrease. -/
theorem ref_reach_keeps {cfg : RefConfig} {pid : Str} {T : Slot → Prop} {D : Str → Prop}
    {w1 w2 : World RefStore} (r : Reach (refBackend cfg) pid T D w1 w2)
    (k : Str) (b : Blob) (n : Nat)
    (hup : ∀ t m, T t → n ≤ m → newPath pid t (cfg.uuid m) ≠ k)
    (hdel : ∀ i, D i → i ≠ k)
    (h1 : getKey w1.store.objects k = some b) (hn : n ≤ w1.store.nextUuid) :
    getKey w2.store.objects k = some b ∧ n ≤ w2.store.nextUuid := by
  refine Reach.preserves (fun st => getKey st.objects k = some b ∧ n ≤ st.nextUuid)
    ?_ ?_ ?_ ?_ ?_ r ⟨h1, hn⟩
  · intro f st h
    exact h
  · intro q st h
    simp only [refBackend]
    split <;> exact h
  · intro u st h
    simp only [refBackend]
    split <;> exact h
  · intro t bl st ht h
    constructor
    · show getKey (putKey st.objects (newPath pid t (cfg.uuid st.nextUuid)) bl) k = some b
      rw [getKey_putKey, if_neg (hup t st.nextUuid ht h.2)]
      exact h.1
    · exact Nat.le_succ_of_le h.2
  · intro i st hd h
    simp only [refBackend]
    split
    · constructor
      · show getKey (eraseKey st.objects i) k = some b
        rw [getKey_eraseKey, if_neg (hdel i hd)]
        exact h.1
      · exact h.2
    · exact h

theorem child_ne_newPath {cfg : RefConfig} (huslash : ∀ n, '/' ∉ cfg.uuid n) {pid : Str}
    (hpid : pid ≠ "unsaved".toList) {t u : Slot} {item : Str} (m : Nat)
    (hitem : isDirectChild (unsavedFolder u) item = true) :
    newPath pid t (cfg.uuid m) ≠ item := by
  obtain ⟨name, hp, -, hns⟩ := (isDirectChild_iff _ _).1 hitem
  intro heq
  rw [hp] at heq
  exact hpid (newPath_eq_child (huslash m) hns heq).1

theorem newPath_injective {cfg : RefConfig} (huinj : Function.Injective cfg.uuid)
    (huslash : ∀ n, '/' ∉ cfg.uuid n) {pid : Str} {t u : Slot} {m n : Nat}
    (h : newPath pid t (cfg.uuid m) = newPath pid u (cfg.uuid n)) : t = u ∧ m = n := by
  have h1 : ("projects/".toList ++ pid ++ '/' :: t.str) ++ '/' :: cfg.uuid m =
      ("projects/".toList ++ pid ++ '/' :: u.str) ++ '/' :: cfg.uuid n := by
    simpa [newPath] using h
  obtain ⟨h2, h3⟩ := path_split (huslash m) (huslash n) h1
  have h4 : '/' :: t.str = '/' :: u.str := List.append_cancel_left h2
  exact ⟨slot_str_injective (List.cons.inj h4).2, huinj h3⟩

theorem child_folder_unique {t u : Slot} {item : Str}
    (h1 : isDirectChild (unsavedFolder t) item = true)
    (h2 : isDirectChild (unsavedFolder u) item = true) : t = u := by
  obtain ⟨n1, hp1, -, hs1⟩ := (isDirectChild_iff _ _).1 h1
  obtain ⟨n2, hp2, -, hs2⟩ := (isDirectChild_iff _ _).1 h2
  have h : unsavedFolder t = unsavedFolder u := (path_split hs1 hs2 (hp1.symm.trans hp2)).1
  exact slot_str_injective (List.append_cancel_left h)

/-- The object a relocation created at `projects/<pid>/<slot>/<uuid n>` survives the
relocations of later gallery entries. -/
theorem ref_new_survives {cfg : RefConfig} (huinj : Function.Injective cfg.uuid)
    (huslash : ∀ n, '/' ∉ cfg.uuid n) {pid : Str} (hpid : pid ≠ "unsaved".toList)
    {g : List Str} {w1 w2 : World RefStore}
    (r : Reach (refBackend cfg) pid (fun x => x = .gallery)
      (fun i => ∃ u ∈ g, isUnsavedRef u = true ∧ Matched (refBackend cfg) .gallery u i) w1 w2)
    (t : Slot) (n : Nat) (b : Blob)
    (h1 : getKey w1.store.objects (newPath pid t (cfg.uuid n)) = some b)
    (hn : n + 1 ≤ w1.store.nextUuid) :
    getKey w2.store.objects (newPath pid t (cfg.uuid n)) = some b := by
  refine (ref_reach_keeps r _ b (n + 1) ?_ ?_ h1 hn).1
  · intro t2 m _ hm heq
    have := (newPath_injective huinj huslash heq).2
    omega
  · intro i ⟨u, _, _, hmat⟩ heq
    exact child_ne_newPath huslash hpid n (ref_matched cfg .gallery u i hmat).1 heq.symm

theorem ref_moveGallery_position (cfg : RefConfig) (hinj : Function.Injective cfg.urlOf)
    (huinj : Function.Injective cfg.uuid) (huslash : ∀ n, '/' ∉ cfg.uuid n)
    (pid : Str) (hpid : pid ≠ "unsaved".toList) (old : Str) (b : Blob)
    (hchild : isDirectChild (unsavedFolder .gallery) old = true)
    (hu : isUnsavedRef (cfg.urlOf old) = true) :
    ∀ (g : List Str) (w : World RefStore) (i : Nat),
      g[i]? = some (cfg.urlOf old) → cfg.urlOf old ∉ g.take i →
      getKey w.store.objects old = some b →
      ∃ n, w.store.nextUuid ≤ n ∧
        (moveGallery (refBackend cfg) pid g w).1.1[i]? =
          some (cfg.urlOf (newPath pid .gallery (cfg.uuid n))) ∧
        getKey (moveGallery (refBackend cfg) pid g w).2.store.objects
          (newPath pid .gallery (cfg.uuid n)) = some b := by
  intro g
  induction g with
  | nil => intro w i hi; simp at hi
  | cons v rest ih =>
    intro w i hi hnot hobj
    cases i with
    | zero =>
      simp only [List.getElem?_cons_zero, Option.some.injEq] at hi
      subst hi
      obtain ⟨w2, hms, hst⟩ := ref_moveSingle_found cfg hinj old pid .gallery b w hchild hobj
      have hreach := reach_moveGallery (refBackend cfg) pid rest w2
      have hnew : getKey w2.store.objects (newPath pid .gallery (cfg.uuid w.store.nextUuid))
          = some b := by
        rw [hst]
        show getKey (eraseKey (putKey _ _ _) _) _ = _
        rw [getKey_eraseKey, if_neg, getKey_putKey, if_pos rfl]
        exact fun h => child_ne_newPath huslash hpid _ hchild h.symm
      have hcnt : w.store.nextUuid + 1 ≤ w2.store.nextUuid := by
        rw [hst]
        exact Nat.le_refl _
      refine ⟨w.store.nextUuid, Nat.le_refl _, ?_, ?_⟩
      · rw [moveGallery, if_pos hu, hms]
        simp
      · rw [moveGallery, if_pos hu, hms]
        exact ref_new_survives huinj huslash hpid hreach .gallery _ b hnew hcnt
    | succ j =>
      simp only [List.getElem?_cons_succ] at hi
      have hne : cfg.urlOf old ≠ v := fun h => hnot (by simp [h])
      have hnot2 : cfg.urlOf old ∉ rest.take j := fun h => hnot (by simp [h])
      by_cases hv : isUnsavedRef v = true
      · have hr := reach_moveSingleUnsavedUrl (refBackend cfg) v pid .gallery w
        obtain ⟨newUrl, hok⟩ := ref_moveSingle_ok cfg v pid .gallery w
        have hkeep := ref_reach_keeps hr old b w.store.nextUuid
          (fun t m _ _ => child_ne_newPath huslash hpid m hchild)
          (fun i hmat heq => hne (by rw [← (ref_matched cfg .gallery v i hmat).2, heq]))
          hobj (Nat.le_refl _)
        obtain ⟨n, hn, hres, hget⟩ := ih _ j hi hnot2 hkeep.1
        refine ⟨n, Nat.le_trans hkeep.2 hn, ?_, ?_⟩
        · rw [moveGallery, if_pos hv]
          cases hms : moveSingleUnsavedUrl (refBackend cfg) v pid .gallery w with
          | mk res w1 =>
            rw [hms] at hok hres
            simp only at hok
            subst hok
            simpa using hres
        · rw [moveGallery, if_pos hv]
          cases hms : moveSingleUnsavedUrl (refBackend cfg) v pid .gallery w with
          | mk res w1 =>
            rw [hms] at hok hget
            simp only at hok
            subst hok
            exact hget
      · obtain ⟨n, hn, hres, hget⟩ := ih w j hi hnot2 hobj
        refine ⟨n, hn, ?_, ?_⟩
        · rw [moveGallery, if_neg hv]
          simpa using hres
        · rw [moveGallery, if_neg hv]
          exact hget

theorem ref_moveMain_ok (cfg : RefConfig) (u pid : Str) (w : World RefStore) :
    ∃ x, (moveMain (refBackend cfg) pid u w).1 = .ok x := by
  unfold moveMain
  split
  · exact ref_moveSingle_ok cfg u pid .main w
  · exact ⟨u, rfl⟩

theorem includes_replicate_x (n : Nat) :
    includes (List.replicate n 'x') unsavedMarker = false := by
  induction n with
  | zero => decide
  | succ k ih =>
    rw [List.replicate_succ, includes, ih]
    rfl

theorem demo_permanent_url (t : Slot) (n : Nat) :
    includes (demoConfig.urlOf (newPath "p1".toList t (demoConfig.uuid n))) unsavedMarker
      = false := by
  have h := includes_replicate_x n
  cases t <;>
    simp [demoConfig, newPath, Slot.str, includes, List.isPrefixOf, unsavedMarker, h] <;>
    simpa [unsavedMarker] using h

theorem demo_uuid_injective : Function.Injective demoConfig.uuid := by
  intro m n h
  have h2 : ('u' :: List.replicate m 'x').length = ('u' :: List.replicate n 'x').length :=
    congrArg List.length h
  simpa using h2

theorem demo_uuid_no_slash (n : Nat) : '/' ∉ demoConfig.uuid n := by
  show '/' ∉ 'u' :: List.replicate n 'x'
  simp [List.mem_replicate]

/-- C10 as stated fails: a reference that contains the provisional marker but has no
object listed under the provisional folder (here the store is empty) is kept as it
is, marker included. -/
theorem moveUnsavedFilesForProject_relocates_counterexample :
    includes (formatFields sampleForm).imageUrl unsavedMarker = true ∧
    includes (moveUnsavedFilesForProject (refBackend demoConfig) "p1".toList
      (formatFields sampleForm) (mkWorld emptyStore initialPanel)).1.imageUrl unsavedMarker
      = true := by
  decide

/-- C10 (amended): over the reference stores, with injective access URLs and
generated names, a project id other than `unsaved` and permanent URLs free of the
marker: an `imageUrl` containing the marker that is the access URL of an object
listed in `projects/unsaved/main`, and a gallery entry containing the marker, at its
first occurrence, that is the access URL of an object listed in
`projects/unsaved/gallery`, are replaced at the same position by a reference
without the marker that resolves, in the store after the relocation, to the bytes
the input reference resolved to before it. -/
theorem moveUnsavedFilesForProject_relocates (cfg : RefConfig) (pid : Str) (f : ProjectFields)
    (w : World RefStore) (hinj : Function.Injective cfg.urlOf)
    (huinj : Function.Injective cfg.uuid) (huslash : ∀ n, '/' ∉ cfg.uuid n)
    (hpid : pid ≠ "unsaved".toList)
    (hperm : ∀ t n, includes (cfg.urlOf (newPath pid t (cfg.uuid n))) unsavedMarker = false) :
    (∀ (old : Str) (b : Blob), f.imageUrl = cfg.urlOf old →
      includes f.imageUrl unsavedMarker = true →
      isDirectChild (unsavedFolder .main) old = true → getKey w.store.objects old = some b →
      includes (moveUnsavedFilesForProject (refBackend cfg) pid f w).1.imageUrl unsavedMarker
        = false ∧
      resolveUrl cfg w.store.objects f.imageUrl = some b ∧
      resolveUrl cfg (moveUnsavedFilesForProject (refBackend cfg) pid f w).2.store.objects
        (moveUnsavedFilesForProject (refBackend cfg) pid f w).1.imageUrl = some b) ∧
    (∀ (i : Nat) (old : Str) (b : Blob), f.gallery[i]? = some (cfg.urlOf old) →
      includes (cfg.urlOf old) unsavedMarker = true → cfg.urlOf old ∉ f.gallery.take i →
      isDirectChild (unsavedFolder .gallery) old = true → getKey w.store.objects old = some b →
      ∃ v, (moveUnsavedFilesForProject (refBackend cfg) pid f w).1.gallery[i]? = some v ∧
        includes v unsavedMarker = false ∧
        resolveUrl cfg w.store.objects (cfg.urlOf old) = some b ∧
        resolveUrl cfg (moveUnsavedFilesForProject (refBackend cfg) pid f w).2.store.objects v
          = some b) := by
  constructor
  · intro old b hurl hmark hchild hobj
    obtain ⟨himg, w2, hw2, hreach⟩ :=
      ref_moveUnsaved_main cfg hinj pid old b f w hurl hmark hchild hobj
    have hnew : getKey w2.store.objects (newPath pid .main (cfg.uuid w.store.nextUuid))
        = some b := by
      rw [hw2]
      show getKey (eraseKey (putKey _ _ _) _) _ = _
      rw [getKey_eraseKey, if_neg, getKey_putKey, if_pos rfl]
      exact fun h => child_ne_newPath huslash hpid _ hchild h.symm
    have hcnt : w.store.nextUuid + 1 ≤ w2.store.nextUuid := by
      rw [hw2]
      exact Nat.le_refl _
    have hfinal := ref_new_survives huinj huslash hpid hreach .main _ b hnew hcnt
    rw [himg]
    refine ⟨hperm _ _, ?_, ?_⟩
    · rw [hurl, resolveUrl_eq_getKey cfg hinj]
      exact hobj
    · rw [resolveUrl_eq_getKey cfg hinj]
      exact hfinal
  · intro i old b hi hmark hnot hchild hobj
    have hr := reach_moveMain (refBackend cfg) pid f.imageUrl
      (w.setUi fun p => { p with moving := true })
    obtain ⟨x, hx⟩ := ref_moveMain_ok cfg f.imageUrl pid
      (w.setUi fun p => { p with moving := true })
    have hkeep := ref_reach_keeps hr old b w.store.nextUuid
      (fun t m _ _ => child_ne_newPath huslash hpid m hchild)
      (fun j hmat heq => by
        have h1 := (ref_matched cfg .main f.imageUrl j hmat.2).1
        rw [heq] at h1
        exact Slot.noConfusion (child_folder_unique h1 hchild))
      hobj (Nat.le_refl _)
    obtain ⟨n, -, hres, hget⟩ := ref_moveGallery_position cfg hinj huinj huslash pid hpid old b
      hchild (includes_true_isUnsavedRef hmark) f.gallery _ i hi hnot hkeep.1
    refine ⟨cfg.urlOf (newPath pid .gallery (cfg.uuid n)), ?_, hperm _ _, ?_, ?_⟩
    · rw [moveUnsavedFilesForProject]
      cases hmm : moveMain (refBackend cfg) pid f.imageUrl
          (w.setUi fun p => { p with moving := true }) with
      | mk res w1 =>
        rw [hmm] at hx hres
        simp only at hx
        subst hx
        exact hres
    · rw [resolveUrl_eq_getKey cfg hinj]
      exact hobj
    · rw [resolveUrl_eq_getKey cfg hinj, moveUnsavedFilesForProject]
      cases hmm : moveMain (refBackend cfg) pid f.imageUrl
          (w.setUi fun p => { p with moving := true }) with
      | mk res w1 =>
        rw [hmm] at hx hget
        simp only at hx
        subst hx
        have hend : ∀ (bo : Bool) (v : World RefStore), (endMove bo v).store = v.store :=
          fun bo v => by cases bo <;> rfl
        show getKey (RefStore.objects (World.store (endMove _ _))) _ = _
        rw [hend]
        exact hget

/-- C10 (amended) at a concrete input: the provisional gallery entry at position 1
of `twoRefFields`, relocated for project `p1`. -/
theorem moveUnsavedFilesForProject_relocates_witness :
    ∃ v, (moveUnsavedFilesForProject (refBackend demoConfig) "p1".toList twoRefFields
        (mkWorld twoRefStore initialPanel)).1.gallery[1]? = some v ∧
      includes v unsavedMarker = false ∧
      resolveUrl demoConfig (mkWorld twoRefStore initialPanel).store.objects
        (demoConfig.urlOf "projects/unsaved/gallery/g1".toList) = some [9, 9] ∧
      resolveUrl demoConfig (moveUnsavedFilesForProject (refBackend demoConfig) "p1".toList
        twoRefFields (mkWorld twoRefStore initialPanel)).2.store.objects v = some [9, 9] :=
  (moveUnsavedFilesForProject_relocates demoConfig "p1".toList twoRefFields
    (mkWorld twoRefStore initialPanel) (fun _ _ h => List.append_cancel_left h)
    demo_uuid_injective demo_uuid_no_slash (by decide) demo_permanent_url).2
    1 "projects/unsaved/gallery/g1".toList [9, 9] (by decide) (by decide) (by decide)
    (by decide) (by decide)

/-! ### Failures during a save -/

theorem onlyMoving_frame {p q r : Panel}
    (h1 : { q with moving := p.moving, console := p.console } = p)
    (h2 : { r with moving := q.moving, console := q.console } = q) :
    { r with moving := p.moving, console := p.console } = p := by
  cases p; cases q; cases r
  simp only [Panel.mk.injEq] at h1 h2 ⊢
  simp_all

/-- A relocation leaves every part of the panel but the `moving` flag and the console
as it was. -/
theorem Reach.ui_frame {B : Backend σ} {pid : Str} {T : Slot → Prop} {D : Str → Prop}
    {w1 w2 : World σ} (r : Reach B pid T D w1 w2) :
    { w2.ui with moving := w1.ui.moving, console := w1.ui.console } = w1.ui := by
  induction r with
  | refl w => rfl
  | trans _ _ ih1 ih2 => exact onlyMoving_frame ih1 ih2
  | ui w f hf => exact hf w.ui
  | listAll f w => rfl
  | getDownloadURL p w => rfl
  | fetch u w => rfl
  | upload t b w _ => rfl
  | delete i w _ => rfl

theorem handleSaveProject_new_eq (B : Backend σ) (w : World σ) (id : Str)
    (hnew : w.ui.editId = none)
    (hn : trim w.ui.formData.name ≠ []) (hd : trim w.ui.formData.description ≠ [])
    (hadd : (B.addDoc ⟨formatFields w.ui.formData, .createdAt⟩ w.store).1 = .ok id) :
    handleSaveProject B w =
      (match callUpdateDoc B id ⟨(movedFor B w id).1, .updatedAt⟩ (movedFor B w id).2 with
        | (.ok _, w2) =>
          w2.setUi fun p =>
            { p with showModal := false, editId := none, formData := emptyForm,
                     onUpdateCalls := p.onUpdateCalls + 1 }
        | (.error _, w2) => (w2.consoleLog "save error").alert "Save failed. See console.").setUi
        fun p => { p with saving := false } := by
  have ht : editTarget w.ui.editId = none := by simp [editTarget, hnew]
  have hcall : callAddDoc B ⟨formatFields w.ui.formData, .createdAt⟩
      (w.setUi fun p => { p with saving := true }) = (.ok id, insertedWorld B w) := by
    apply Prod.ext
    · exact hadd
    · rfl
  rw [handleSaveProject_valid B w hn hd]
  simp only [saveWrites, ht, hcall]
  rfl

theorem handleSaveProject_add_failed (B : Backend σ) (w : World σ) (e : JsError)
    (hnew : w.ui.editId = none)
    (hn : trim w.ui.formData.name ≠ []) (hd : trim w.ui.formData.description ≠ [])
    (hadd : (B.addDoc ⟨formatFields w.ui.formData, .createdAt⟩ w.store).1 = .error e) :
    handleSaveProject B w =
      (((insertedWorld B w).consoleLog "save error").alert "Save failed. See console.").setUi
        fun p => { p with saving := false } := by
  have ht : editTarget w.ui.editId = none := by simp [editTarget, hnew]
  have hcall : callAddDoc B ⟨formatFields w.ui.formData, .createdAt⟩
      (w.setUi fun p => { p with saving := true }) = (.error e, insertedWorld B w) := by
    apply Prod.ext
    · exact hadd
    · rfl
  rw [handleSaveProject_valid B w hn hd]
  simp only [saveWrites, ht, hcall]

/-- The panel parts a relocation in a new-project save does not touch. -/
theorem movedFor_ui (B : Backend σ) (w : World σ) (id : Str) :
    { (movedFor B w id).2.ui with moving := w.ui.moving, console := w.ui.console } =
      { w.ui with saving := true } :=
  (reach_moveUnsavedFilesForProject B id (formatFields w.ui.formData)
    (insertedWorld B w)).ui_frame

theorem movedFor_ui_fields (B : Backend σ) (w : World σ) (id : Str) :
    (movedFor B w id).2.ui.showModal = w.ui.showModal ∧
    (movedFor B w id).2.ui.editId = w.ui.editId ∧
    (movedFor B w id).2.ui.formData = w.ui.formData ∧
    (movedFor B w id).2.ui.alerts = w.ui.alerts ∧
    (movedFor B w id).2.ui.onUpdateCalls = w.ui.onUpdateCalls := by
  have h := movedFor_ui B w id
  have a1 := congrArg Panel.showModal h
  have a2 := congrArg Panel.editId h
  have a3 := congrArg Panel.formData h
  have a4 := congrArg Panel.alerts h
  have a5 := congrArg Panel.onUpdateCalls h
  exact ⟨a1, a2, a3, a4, a5⟩

theorem handleSaveProject_new_ok (B : Backend σ) (w : World σ) (id : Str)
    (hnew : w.ui.editId = none)
    (hn : trim w.ui.formData.name ≠ []) (hd : trim w.ui.formData.description ≠ [])
    (hadd : (B.addDoc ⟨formatFields w.ui.formData, .createdAt⟩ w.store).1 = .ok id)
    (hupd : (B.updateDoc id ⟨(movedFor B w id).1, .updatedAt⟩ (movedFor B w id).2.store).1
      = .ok ()) :
    (handleSaveProject B w).log =
      (movedFor B w id).2.log ++ [Call.updateDoc id ⟨(movedFor B w id).1, .updatedAt⟩ true] ∧
    SaveSucceeded w (handleSaveProject B w) := by
  have hcall : callUpdateDoc B id ⟨(movedFor B w id).1, .updatedAt⟩ (movedFor B w id).2 =
      (.ok (), (movedFor B w id).2.record
        (B.updateDoc id ⟨(movedFor B w id).1, .updatedAt⟩ (movedFor B w id).2.store).2
        (.updateDoc id ⟨(movedFor B w id).1, .updatedAt⟩ true)) := by
    apply Prod.ext
    · exact hupd
    · show World.record _ _ (Call.updateDoc _ _ (isOk _)) = _
      rw [hupd]
      rfl
  obtain ⟨h1, h2, h3, h4, h5⟩ := movedFor_ui_fields B w id
  rw [handleSaveProject_new_eq B w id hnew hn hd hadd, hcall]
  exact ⟨rfl, rfl, rfl, rfl, rfl, h4, congrArg (· + 1) h5⟩

theorem handleSaveProject_new_failed (B : Backend σ) (w : World σ) (id : Str) (e : JsError)
    (hnew : w.ui.editId = none)
    (hn : trim w.ui.formData.name ≠ []) (hd : trim w.ui.formData.description ≠ [])
    (hadd : (B.addDoc ⟨formatFields w.ui.formData, .createdAt⟩ w.store).1 = .ok id)
    (hupd : (B.updateDoc id ⟨(movedFor B w id).1, .updatedAt⟩ (movedFor B w id).2.store).1
      = .error e) :
    (handleSaveProject B w).log =
      (movedFor B w id).2.log ++ [Call.updateDoc id ⟨(movedFor B w id).1, .updatedAt⟩ false] ∧
    SaveAborted w (handleSaveProject B w) := by
  have hcall : callUpdateDoc B id ⟨(movedFor B w id).1, .updatedAt⟩ (movedFor B w id).2 =
      (.error e, (movedFor B w id).2.record
        (B.updateDoc id ⟨(movedFor B w id).1, .updatedAt⟩ (movedFor B w id).2.store).2
        (.updateDoc id ⟨(movedFor B w id).1, .updatedAt⟩ false)) := by
    apply Prod.ext
    · exact hupd
    · show World.record _ _ (Call.updateDoc _ _ (isOk _)) = _
      rw [hupd]
      rfl
  obtain ⟨h1, h2, h3, h4, h5⟩ := movedFor_ui_fields B w id
  rw [handleSaveProject_new_eq B w id hnew hn hd hadd, hcall]
  exact ⟨rfl, h1, h2, h3, rfl, congrArg (· ++ ["Save failed. See console."]) h4⟩

theorem handleSaveProject_insert_failed (B : Backend σ) (w : World σ) (e : JsError)
    (hnew : w.ui.editId = none)
    (hn : trim w.ui.formData.name ≠ []) (hd : trim w.ui.formData.description ≠ [])
    (hadd : (B.addDoc ⟨formatFields w.ui.formData, .createdAt⟩ w.store).1 = .error e) :
    (handleSaveProject B w).log =
      w.log ++ [Call.addDoc ⟨formatFields w.ui.formData, .createdAt⟩ false] ∧
    SaveAborted w (handleSaveProject B w) := by
  rw [handleSaveProject_add_failed B w e hnew hn hd hadd]
  refine ⟨?_, rfl, rfl, rfl, rfl, rfl⟩
  show w.log ++ [Call.addDoc _ (isOk (B.addDoc _ w.store).1)] = _
  rw [hadd]
  rfl

theorem handleSaveProject_edit_failed (B : Backend σ) (w : World σ) (id : Str) (e : JsError)
    (hedit : w.ui.editId = some id) (hid : id ≠ [])
    (hn : trim w.ui.formData.name ≠ []) (hd : trim w.ui.formData.description ≠ [])
    (hupd : (B.updateDoc id ⟨formatFields w.ui.formData, .updatedAt⟩ w.store).1 = .error e) :
    (handleSaveProject B w).log =
      w.log ++ [Call.updateDoc id ⟨formatFields w.ui.formData, .updatedAt⟩ false] ∧
    SaveAborted w (handleSaveProject B w) := by
  have ht : editTarget w.ui.editId = some id := by
    simp [editTarget, hedit, truthy, List.isEmpty_iff, hid]
  have hcall : callUpdateDoc B id ⟨formatFields w.ui.formData, .updatedAt⟩
      (w.setUi fun p => { p with saving := true }) =
      (.error e, (w.setUi fun p => { p with saving := true }).record
        (B.updateDoc id ⟨formatFields w.ui.formData, .updatedAt⟩ w.store).2
        (.updateDoc id ⟨formatFields w.ui.formData, .updatedAt⟩ false)) := by
    apply Prod.ext
    · exact hupd
    · show World.record _ _ (Call.updateDoc _ _ (isOk (B.updateDoc _ _ w.store).1)) = _
      rw [hupd]
      rfl
  rw [handleSaveProject_valid B w hn hd]
  simp only [saveWrites, ht, hcall]
  exact ⟨rfl, rfl, rfl, rfl, rfl, rfl⟩

/-- C14: in a new-project save with a valid form whose two document writes succeed
(the insert returning `id`), whatever the object-store operations of the
relocation do, succeed or fail, for every backend: `handleSaveProject` issues the
final `updateDoc` on `id` as its last call and finishes as a successful save (modal
closed, `editId` cleared, form reset, saving flag cleared, no alert). -/
theorem handleSaveProject_best_effort (B : Backend σ) (w : World σ) (id : Str)
    (hnew : w.ui.editId = none)
    (hn : trim w.ui.formData.name ≠ []) (hd : trim w.ui.formData.description ≠ [])
    (hadd : (B.addDoc ⟨formatFields w.ui.formData, .createdAt⟩ w.store).1 = .ok id)
    (hupd : (B.updateDoc id ⟨(movedFor B w id).1, .updatedAt⟩ (movedFor B w id).2.store).1
      = .ok ()) :
    (handleSaveProject B w).log =
      (movedFor B w id).2.log ++ [Call.updateDoc id ⟨(movedFor B w id).1, .updatedAt⟩ true] ∧
    SaveSucceeded w (handleSaveProject B w) :=
  handleSaveProject_new_ok B w id hnew hn hd hadd hupd

/-- C14 at a concrete input: the new-project save of `sampleForm` over a store whose
listing fails, so that the relocation of the main image throws. -/
theorem handleSaveProject_best_effort_witness :
    (handleSaveProject (withFailingList (refBackend demoConfig))
        (mkWorld sampleStore (panelWith sampleForm none))).log =
      (movedFor (withFailingList (refBackend demoConfig))
        (mkWorld sampleStore (panelWith sampleForm none)) "d".toList).2.log ++
        [Call.updateDoc "d".toList
          ⟨(movedFor (withFailingList (refBackend demoConfig))
            (mkWorld sampleStore (panelWith sampleForm none)) "d".toList).1, .updatedAt⟩ true] ∧
    SaveSucceeded (mkWorld sampleStore (panelWith sampleForm none))
      (handleSaveProject (withFailingList (refBackend demoConfig))
        (mkWorld sampleStore (panelWith sampleForm none))) :=
  handleSaveProject_best_effort (withFailingList (refBackend demoConfig))
    (mkWorld sampleStore (panelWith sampleForm none)) "d".toList rfl (by decide) (by decide)
    rfl rfl

theorem not_aborted_and_succeeded (w w2 : World σ) (h1 : SaveAborted w w2)
    (h2 : SaveSucceeded w w2) : False := by
  have h := h1.2.2.2.2.symm.trans h2.2.2.2.2.1
  have hl := congrArg List.length h
  simp at hl

/-- C15 as stated fails: with a store whose listing fails, the relocation of the
provisional main image of `sampleForm` throws, yet the save is not surfaced as
failed: the final update is issued and succeeds, the modal is closed and no alert
is shown. -/
theorem handleSaveProject_relocation_failure_counterexample :
    Call.listAll "projects/unsaved/main".toList false ∈
      (handleSaveProject (withFailingList (refBackend demoConfig))
        (mkWorld sampleStore (panelWith sampleForm none))).log ∧
    (handleSaveProject (withFailingList (refBackend demoConfig))
        (mkWorld sampleStore (panelWith sampleForm none))).log.getLast? =
      some (Call.updateDoc "d".toList ⟨formatFields sampleForm, .updatedAt⟩ true) ∧
    (handleSaveProject (withFailingList (refBackend demoConfig))
        (mkWorld sampleStore (panelWith sampleForm none))).ui.showModal = false ∧
    (handleSaveProject (withFailingList (refBackend demoConfig))
        (mkWorld sampleStore (panelWith sampleForm none))).ui.alerts = [] := by
  decide

/-- C15 (amended): in a new-project save with a valid form, for every backend, a
failure of an object-store operation during the relocation does not surface: the
save is aborted with the failure alert exactly when a document write fails (the
insert, or the final update of the inserted document), and otherwise it finishes
as a successful save. -/
theorem handleSaveProject_failure_iff (B : Backend σ) (w : World σ)
    (hnew : w.ui.editId = none)
    (hn : trim w.ui.formData.name ≠ []) (hd : trim w.ui.formData.description ≠ []) :
    (SaveAborted w (handleSaveProject B w) ↔
      (isOk (B.addDoc ⟨formatFields w.ui.formData, .createdAt⟩ w.store).1 = false ∨
        ∃ id, (B.addDoc ⟨formatFields w.ui.formData, .createdAt⟩ w.store).1 = .ok id ∧
          isOk (B.updateDoc id ⟨(movedFor B w id).1, .updatedAt⟩
            (movedFor B w id).2.store).1 = false)) ∧
    (¬ SaveAborted w (handleSaveProject B w) → SaveSucceeded w (handleSaveProject B w)) := by
  cases hadd : (B.addDoc ⟨formatFields w.ui.formData, .createdAt⟩ w.store).1 with
  | error e =>
    have hab := (handleSaveProject_insert_failed B w e hnew hn hd hadd).2
    exact ⟨⟨fun _ => Or.inl rfl, fun _ => hab⟩, fun h => absurd hab h⟩
  | ok id =>
    cases hupd : (B.updateDoc id ⟨(movedFor B w id).1, .updatedAt⟩ (movedFor B w id).2.store).1 with
    | error e =>
      have hab := (handleSaveProject_new_failed B w id e hnew hn hd hadd hupd).2
      refine ⟨⟨fun _ => Or.inr ⟨id, rfl, ?_⟩, fun _ => hab⟩, fun h => absurd hab h⟩
      rw [hupd]
      rfl
    | ok u =>
      have hsu := (handleSaveProject_new_ok B w id hnew hn hd hadd hupd).2
      refine ⟨⟨fun hab => (not_aborted_and_succeeded _ _ hab hsu).elim, ?_⟩, fun _ => hsu⟩
      rintro (h | ⟨id2, hid, h⟩)
      · exact absurd h (by simp [isOk])
      · injection hid with hid
        subst hid
        rw [hupd] at h
        exact absurd h (by simp [isOk])

/-- C15 (amended) at a concrete input: over a store whose `updateDoc` fails, the
new-project save of `sampleForm` is aborted. -/
theorem handleSaveProject_failure_iff_witness :
    SaveAborted (mkWorld sampleStore (panelWith sampleForm none))
      (handleSaveProject (withFailingUpdate (refBackend demoConfig))
        (mkWorld sampleStore (panelWith sampleForm none))) :=
  (handleSaveProject_failure_iff (withFailingUpdate (refBackend demoConfig))
    (mkWorld sampleStore (panelWith sampleForm none)) rfl (by decide) (by decide)).1.2
    (Or.inr ⟨"d".toList, rfl, rfl⟩)

/-- C16: when a document write of `handleSaveProject` fails (the update of the edited
document, the insert of a new project, or the final update after the relocation),
that failed write is the last call of the save, and the save is aborted: modal,
`editId` and `formData` are as before the save, the saving flag is cleared and
the failure alert is shown.  For every backend and every valid form. -/
theorem handleSaveProject_write_failure (B : Backend σ) (w : World σ)
    (hn : trim w.ui.formData.name ≠ []) (hd : trim w.ui.formData.description ≠ []) :
    (∀ (id : Str) (e : JsError), w.ui.editId = some id → id ≠ [] →
      (B.updateDoc id ⟨formatFields w.ui.formData, .updatedAt⟩ w.store).1 = .error e →
      (handleSaveProject B w).log =
        w.log ++ [Call.updateDoc id ⟨formatFields w.ui.formData, .updatedAt⟩ false] ∧
      SaveAborted w (handleSaveProject B w)) ∧
    (∀ e : JsError, w.ui.editId = none →
      (B.addDoc ⟨formatFields w.ui.formData, .createdAt⟩ w.store).1 = .error e →
      (handleSaveProject B w).log =
        w.log ++ [Call.addDoc ⟨formatFields w.ui.formData, .createdAt⟩ false] ∧
      SaveAborted w (handleSaveProject B w)) ∧
    (∀ (id : Str) (e : JsError), w.ui.editId = none →
      (B.addDoc ⟨formatFields w.ui.formData, .createdAt⟩ w.store).1 = .ok id →
      (B.updateDoc id ⟨(movedFor B w id).1, .updatedAt⟩ (movedFor B w id).2.store).1
        = .error e →
      (handleSaveProject B w).log =
        (movedFor B w id).2.log ++
          [Call.updateDoc id ⟨(movedFor B w id).1, .updatedAt⟩ false] ∧
      SaveAborted w (handleSaveProject B w)) :=
  ⟨fun id e hedit hid hupd => handleSaveProject_edit_failed B w id e hedit hid hn hd hupd,
   fun e hnew hadd => handleSaveProject_insert_failed B w e hnew hn hd hadd,
   fun id e hnew hadd hupd => handleSaveProject_new_failed B w id e hnew hn hd hadd hupd⟩

/-- C16 at a concrete input: editing `p1` over a store whose `updateDoc` fails. -/
theorem handleSaveProject_write_failure_witness :
    (handleSaveProject (withFailingUpdate (refBackend demoConfig))
        (mkWorld sampleStore (panelWith sampleForm (some "p1".toList)))).log =
      [] ++ [Call.updateDoc "p1".toList ⟨formatFields sampleForm, .updatedAt⟩ false] ∧
    SaveAborted (mkWorld sampleStore (panelWith sampleForm (some "p1".toList)))
      (handleSaveProject (withFailingUpdate (refBackend demoConfig))
        (mkWorld sampleStore (panelWith sampleForm (some "p1".toList)))) :=
  (handleSaveProject_write_failure (withFailingUpdate (refBackend demoConfig))
    (mkWorld sampleStore (panelWith sampleForm (some "p1".toList)))
    (by decide) (by decide)).1 "p1".toList ⟨"unavailable"⟩ rfl (by decide) rfl

/-! ### Relocation that finds nothing, relocation whose delete fails -/

theorem callGetDownloadURL_eq (B : Backend σ) (p : Str) (w : World σ) :
    callGetDownloadURL B p w =
      ((B.getDownloadURL p w.store).1,
        w.record (B.getDownloadURL p w.store).2
          (.getDownloadURL p (isOk (B.getDownloadURL p w.store).1))) := rfl

theorem moveSingleLoop_noMatch (B : Backend σ) (oldUrl pid : Str) (t : Slot)
    (items : List Str) (w : World σ) (hno : noMatch B oldUrl items w.store = true) :
    (moveSingleLoop B oldUrl pid t items w).1 = oldUrl ∧
    ∃ calls, (moveSingleLoop B oldUrl pid t items w).2.log = w.log ++ calls ∧
      ∀ c ∈ calls, c.isLookup = true := by
  induction items generalizing w with
  | nil => exact ⟨rfl, [], by simp [moveSingleLoop], by simp⟩
  | cons item rest ih =>
    rw [noMatch, Bool.and_eq_true] at hno
    obtain ⟨h1, h2⟩ := hno
    rw [moveSingleLoop, callGetDownloadURL_eq]
    cases hr : (B.getDownloadURL item w.store).1 with
    | error e =>
      obtain ⟨hres, calls, hlog, hall⟩ := ih
        ((w.record (B.getDownloadURL item w.store).2
          (.getDownloadURL item false)).consoleLog "check item failed") h2
      refine ⟨hres, Call.getDownloadURL item false :: calls, ?_, ?_⟩
      · show (moveSingleLoop B oldUrl pid t rest _).2.log = _
        rw [isOk, hlog]
        show (w.log ++ [_]) ++ calls = _
        simp
      · intro c hc
        rcases List.mem_cons.1 hc with h | h
        · rw [h]; rfl
        · exact hall c h
    | ok u =>
      rw [hr] at h1
      have hne : ¬ u = oldUrl := by simpa using h1
      obtain ⟨hres, calls, hlog, hall⟩ := ih
        (w.record (B.getDownloadURL item w.store).2 (.getDownloadURL item true)) h2
      dsimp only
      rw [if_neg hne]
      refine ⟨hres, Call.getDownloadURL item true :: calls, ?_, ?_⟩
      · rw [isOk, hlog]
        show (w.log ++ [_]) ++ calls = _
        simp
      · intro c hc
        rcases List.mem_cons.1 hc with h | h
        · rw [h]; rfl
        · exact hall c h

theorem moveSingleUnsavedUrl_noMatch (B : Backend σ) (oldUrl pid : Str) (t : Slot)
    (w : World σ) (items : List Str)
    (hlist : (B.listAll (unsavedFolder t) w.store).1 = .ok items)
    (hno : noMatch B oldUrl items (B.listAll (unsavedFolder t) w.store).2 = true) :
    (moveSingleUnsavedUrl B oldUrl pid t w).1 = .ok oldUrl ∧
    ∃ calls, (moveSingleUnsavedUrl B oldUrl pid t w).2.log = w.log ++ calls ∧
      ∀ c ∈ calls, c.isLookup = true := by
  have hcall : callListAll B (unsavedFolder t) w =
      (.ok items, w.record (B.listAll (unsavedFolder t) w.store).2
        (.listAll (unsavedFolder t) true)) := by
    apply Prod.ext
    · exact hlist
    · show World.record _ _ (Call.listAll _ (isOk _)) = _
      rw [hlist]
      rfl
  obtain ⟨hres, calls, hlog, hall⟩ := moveSingleLoop_noMatch B oldUrl pid t items
    (w.record (B.listAll (unsavedFolder t) w.store).2 (.listAll (unsavedFolder t) true)) hno
  rw [moveSingleUnsavedUrl, hcall]
  refine ⟨congrArg Except.ok hres, Call.listAll (unsavedFolder t) true :: calls, ?_, ?_⟩
  · show (moveSingleLoop B oldUrl pid t items _).2.log = _
    rw [hlog]
    show (w.log ++ [_]) ++ calls = _
    simp
  · intro c hc
    rcases List.mem_cons.1 hc with h | h
    · rw [h]; rfl
    · exact hall c h

theorem moveUnsaved_imageUrl_of_main (B : Backend σ) (pid : Str) (f : ProjectFields)
    (w : World σ) (u : Str) (hu : isUnsavedRef f.imageUrl = true)
    (h : (moveSingleUnsavedUrl B f.imageUrl pid .main
      (w.setUi fun p => { p with moving := true })).1 = .ok u) :
    (moveUnsavedFilesForProject B pid f w).1.imageUrl = u := by
  have hm : (moveMain B pid f.imageUrl (w.setUi fun p => { p with moving := true })).1 = .ok u := by
    rw [moveMain, if_pos hu]
    exact h
  rw [moveUnsavedFilesForProject]
  cases hmm : moveMain B pid f.imageUrl (w.setUi fun p => { p with moving := true }) with
  | mk res w1 =>
    rw [hmm] at hm
    simp only at hm
    subst hm
    rfl

/-- C12: for every backend, when the listing of `projects/unsaved/<slot>` succeeds and
none of the listed items has `oldUrl` as its access URL, `moveSingleUnsavedUrl`
returns `oldUrl` and makes look-up calls only (no fetch, no upload, no delete);
and a new-project save whose provisional `imageUrl` finds no match this way hands
the original reference to the final update, which, when the document writes
succeed, is issued and completes the save. -/
theorem moveSingleUnsavedUrl_fallback (B : Backend σ) (oldUrl : Str) :
    (∀ (pid : Str) (t : Slot) (w : World σ) (items : List Str),
      (B.listAll (unsavedFolder t) w.store).1 = .ok items →
      noMatch B oldUrl items (B.listAll (unsavedFolder t) w.store).2 = true →
      (moveSingleUnsavedUrl B oldUrl pid t w).1 = .ok oldUrl ∧
      ∃ calls, (moveSingleUnsavedUrl B oldUrl pid t w).2.log = w.log ++ calls ∧
        ∀ c ∈ calls, c.isLookup = true) ∧
    (∀ (w : World σ) (id : Str) (items : List Str), w.ui.editId = none →
      trim w.ui.formData.name ≠ [] → trim w.ui.formData.description ≠ [] →
      w.ui.formData.imageUrl = oldUrl → isUnsavedRef oldUrl = true →
      (B.addDoc ⟨formatFields w.ui.formData, .createdAt⟩ w.store).1 = .ok id →
      (B.listAll (unsavedFolder .main) (movingWorld B w).store).1 = .ok items →
      noMatch B oldUrl items (B.listAll (unsavedFolder .main) (movingWorld B w).store).2 = true →
      (movedFor B w id).1.imageUrl = oldUrl ∧
      ((B.updateDoc id ⟨(movedFor B w id).1, .updatedAt⟩ (movedFor B w id).2.store).1 = .ok () →
        (handleSaveProject B w).log =
          (movedFor B w id).2.log ++
            [Call.updateDoc id ⟨(movedFor B w id).1, .updatedAt⟩ true] ∧
        SaveSucceeded w (handleSaveProject B w))) := by
  refine ⟨fun pid t w items hlist hno =>
    moveSingleUnsavedUrl_noMatch B oldUrl pid t w items hlist hno, ?_⟩
  intro w id items hnew hn hd himg hu hadd hlist hno
  have himg2 : (formatFields w.ui.formData).imageUrl = oldUrl := himg
  refine ⟨?_, fun hupd => handleSaveProject_new_ok B w id hnew hn hd hadd hupd⟩
  apply moveUnsaved_imageUrl_of_main B id (formatFields w.ui.formData) (insertedWorld B w)
  · rw [himg2]
    exact hu
  · rw [himg2]
    exact (moveSingleUnsavedUrl_noMatch B oldUrl id .main (movingWorld B w) items hlist hno).1

/-- C12 at a concrete input: the new-project save of `sampleForm` after the provisional
object behind its main image was deleted. -/
theorem moveSingleUnsavedUrl_fallback_witness :
    (movedFor (refBackend demoConfig) (mkWorld danglingStore (panelWith sampleForm none))
      "d".toList).1.imageUrl = "https://cdn.test/projects/unsaved/main/abc".toList ∧
    SaveSucceeded (mkWorld danglingStore (panelWith sampleForm none))
      (handleSaveProject (refBackend demoConfig)
        (mkWorld danglingStore (panelWith sampleForm none))) :=
  have h := (moveSingleUnsavedUrl_fallback (refBackend demoConfig)
    "https://cdn.test/projects/unsaved/main/abc".toList).2
    (mkWorld danglingStore (panelWith sampleForm none)) "d".toList [] rfl (by decide) (by decide)
    rfl (by decide) rfl rfl rfl
  ⟨h.1, (h.2 rfl).2⟩

theorem getDownloadURL_fact {B : Backend σ} {p : Str} {w w1 : World σ}
    {r : Except JsError Str} (heq : callGetDownloadURL B p w = (r, w1)) :
    w1.log = w.log ++ [Call.getDownloadURL p (isOk r)] ∧
      (B.getDownloadURL p w.store).1 = r := by
  obtain ⟨h1, h2⟩ := Prod.mk.inj (heq.symm.trans (callGetDownloadURL_eq B p w))
  subst h1 h2
  exact ⟨rfl, rfl⟩

theorem fetch_fact {B : Backend σ} {u : Str} {w w1 : World σ}
    {r : Except JsError Blob} (heq : callFetch B u w = (r, w1)) :
    w1.log = w.log ++ [Call.fetch u (isOk r)] := by
  have h : callFetch B u w = ((B.fetch u w.store).1,
      w.record (B.fetch u w.store).2 (.fetch u (isOk (B.fetch u w.store).1))) := rfl
  obtain ⟨h1, h2⟩ := Prod.mk.inj (heq.symm.trans h)
  subst h1 h2
  rfl

theorem upload_fact {B : Backend σ} {p : Str} {b : Blob} {w w1 : World σ}
    {r : UploadTask} (heq : callUpload B p b w = (r, w1)) :
    w1.log = w.log ++ [Call.uploadBytes p b (isOk r.result)] := by
  have h : callUpload B p b w = ((B.uploadBytesResumable p b w.store).1,
      w.record (B.uploadBytesResumable p b w.store).2
        (.uploadBytes p b (isOk (B.uploadBytesResumable p b w.store).1.result))) := rfl
  obtain ⟨h1, h2⟩ := Prod.mk.inj (heq.symm.trans h)
  subst h1 h2
  rfl

theorem deleteObject_fact {B : Backend σ} {p : Str} {w w1 : World σ}
    {r : Except JsError Unit} (heq : callDeleteObject B p w = (r, w1)) :
    w1.log = w.log ++ [Call.deleteObject p (isOk r)] := by
  have h : callDeleteObject B p w = ((B.deleteObject p w.store).1,
      w.record (B.deleteObject p w.store).2
        (.deleteObject p (isOk (B.deleteObject p w.store).1))) := rfl
  obtain ⟨h1, h2⟩ := Prod.mk.inj (heq.symm.trans h)
  subst h1 h2
  rfl

theorem returnsUploaded_later {B : Backend σ} {pid : Str} {t : Slot} {w u : World σ}
    {e : List Call} (hlog : u.log = w.log ++ e)
    (hnd : ∀ item, Call.deleteObject item false ∉ e) (r : Str × World σ)
    (h : ∃ calls, r.2.log = u.log ++ calls ∧ ReturnsUploaded B pid t u calls r.1) :
    ∃ calls, r.2.log = w.log ++ calls ∧ ReturnsUploaded B pid t w calls r.1 := by
  obtain ⟨calls, hl, hru⟩ := h
  refine ⟨e ++ calls, by rw [hl, hlog, List.append_assoc], ?_⟩
  intro item hmem
  rcases List.mem_append.1 hmem with hm | hm
  · exact absurd hm (hnd item)
  · obtain ⟨pre, name, blob, v, hc, hv, hu⟩ := hru item hm
    refine ⟨e ++ pre, name, blob, v, ?_, ?_, hu⟩
    · rw [hc, List.append_assoc]
    · rw [hv, hlog]
      simp only [List.append_assoc]

theorem moveSingleLoop_returnsUploaded (B : Backend σ) (oldUrl pid : Str) (t : Slot)
    (items : List Str) (w : World σ) :
    ∃ calls, (moveSingleLoop B oldUrl pid t items w).2.log = w.log ++ calls ∧
      ReturnsUploaded B pid t w calls (moveSingleLoop B oldUrl pid t items w).1 := by
  induction items generalizing w with
  | nil =>
    refine ⟨[], by simp [moveSingleLoop], ?_⟩
    intro item hmem
    exact absurd hmem (List.not_mem_nil _)
  | cons item rest ih =>
    unfold moveSingleLoop
    split
    · rename_i e w1 heq
      have h1 := (getDownloadURL_fact heq).1
      exact returnsUploaded_later (u := w1.consoleLog "check item failed") h1
        (by simp [isOk]) _ (ih _)
    · rename_i itemUrl w1 heq
      have h1 := (getDownloadURL_fact heq).1
      split
      · split
        · rename_i e w2 heq2
          have h2 := fetch_fact heq2
          exact returnsUploaded_later (u := w2.consoleLog "check item failed")
            (e := [Call.getDownloadURL item true, Call.fetch oldUrl false])
            (by rw [show (w2.consoleLog "check item failed").log = w2.log from rfl, h2, h1]
                simp [isOk])
            (by simp) _ (ih _)
        · rename_i blob w2 heq2
          have h2 := fetch_fact heq2
          split
          · rename_i pr e w4 heq4
            have h4 := upload_fact heq4
            exact returnsUploaded_later (u := w4.consoleLog "check item failed")
              (e := [Call.getDownloadURL item true, Call.fetch oldUrl true,
                Call.uploadBytes (newPath pid t (callUuid B w2).1) blob false])
              (by rw [show (w4.consoleLog "check item failed").log = w4.log from rfl, h4,
                    show (callUuid B w2).2.log = w2.log from rfl, h2, h1]
                  simp [isOk])
              (by simp) _ (ih _)
          · rename_i pr u w4 heq4
            have h4 := upload_fact heq4
            have hw4 : w4.log = w.log ++ [Call.getDownloadURL item true, Call.fetch oldUrl true]
                ++ [Call.uploadBytes (newPath pid t (callUuid B w2).1) blob true] := by
              rw [h4, show (callUuid B w2).2.log = w2.log from rfl, h2, h1]
              simp [isOk]
            split
            · rename_i e w5 heq5
              have h5 := (getDownloadURL_fact heq5).1
              exact returnsUploaded_later (u := w5.consoleLog "check item failed")
                (e := [Call.getDownloadURL item true, Call.fetch oldUrl true,
                  Call.uploadBytes (newPath pid t (callUuid B w2).1) blob true,
                  Call.getDownloadURL (newPath pid t (callUuid B w2).1) false])
                (by rw [show (w5.consoleLog "check item failed").log = w5.log from rfl, h5, hw4]
                    simp [isOk])
                (by simp) _ (ih _)
            · rename_i newUrl w5 heq5
              obtain ⟨h5, hurl⟩ := getDownloadURL_fact heq5
              have hw5 : w5.log = w.log ++ [Call.getDownloadURL item true,
                  Call.fetch oldUrl true] ++
                  [Call.uploadBytes (newPath pid t (callUuid B w2).1) blob true,
                    Call.getDownloadURL (newPath pid t (callUuid B w2).1) true] := by
                rw [h5, hw4]
                simp [isOk]
              split
              · rename_i e w6 heq6
                have h6 := deleteObject_fact heq6
                refine ⟨[Call.getDownloadURL item true, Call.fetch oldUrl true] ++
                  [Call.uploadBytes (newPath pid t (callUuid B w2).1) blob true,
                    Call.getDownloadURL (newPath pid t (callUuid B w2).1) true,
                    Call.deleteObject item false], ?_, ?_⟩
                · show w6.log = _
                  rw [h6, hw5]
                  simp [isOk]
                · intro item2 hmem
                  have hi : item2 = item := by simpa using hmem
                  subst hi
                  exact ⟨_, (callUuid B w2).1, blob, w4, rfl, hw4, hurl⟩
              · rename_i u6 w6 heq6
                have h6 := deleteObject_fact heq6
                refine ⟨[Call.getDownloadURL item true, Call.fetch oldUrl true,
                    Call.uploadBytes (newPath pid t (callUuid B w2).1) blob true,
                    Call.getDownloadURL (newPath pid t (callUuid B w2).1) true,
                    Call.deleteObject item true], ?_, ?_⟩
                · rw [h6, hw5]
                  simp [isOk]
                · intro item2 hmem
                  simp at hmem
      · exact returnsUploaded_later (u := w1) (e := [Call.getDownloadURL item true])
          (by rw [h1]; simp [isOk]) (by simp) _ (ih _)

theorem moveSingleUnsavedUrl_returnsUploaded (B : Backend σ) (oldUrl pid : Str) (t : Slot)
    (w : World σ) :
    ∃ calls, (moveSingleUnsavedUrl B oldUrl pid t w).2.log = w.log ++ calls ∧
      ∀ item, Call.deleteObject item false ∈ calls →
        ∃ url, (moveSingleUnsavedUrl B oldUrl pid t w).1 = .ok url ∧
          ReturnsUploaded B pid t w calls url := by
  unfold moveSingleUnsavedUrl
  split
  · rename_i e w1 heq
    have h : callListAll B (unsavedFolder t) w = ((B.listAll (unsavedFolder t) w.store).1,
        w.record (B.listAll (unsavedFolder t) w.store).2
          (.listAll (unsavedFolder t) (isOk (B.listAll (unsavedFolder t) w.store).1))) := rfl
    obtain ⟨h1, h2⟩ := Prod.mk.inj (heq.symm.trans h)
    subst h2
    refine ⟨[Call.listAll (unsavedFolder t) (isOk (B.listAll (unsavedFolder t) w.store).1)],
      rfl, ?_⟩
    intro item hmem
    simp at hmem
  · rename_i items w1 heq
    have h : callListAll B (unsavedFolder t) w = ((B.listAll (unsavedFolder t) w.store).1,
        w.record (B.listAll (unsavedFolder t) w.store).2
          (.listAll (unsavedFolder t) (isOk (B.listAll (unsavedFolder t) w.store).1))) := rfl
    obtain ⟨h1, h2⟩ := Prod.mk.inj (heq.symm.trans h)
    have hlog : w1.log = w.log ++
        [Call.listAll (unsavedFolder t) (isOk (B.listAll (unsavedFolder t) w.store).1)] := by
      rw [h2]
      rfl
    obtain ⟨calls, hl, hru⟩ := returnsUploaded_later hlog (by simp) _
      (moveSingleLoop_returnsUploaded B oldUrl pid t items w1)
    exact ⟨calls, hl, fun item hmem => ⟨_, rfl, hru⟩⟩

/-- C13: for every backend, when a run of `moveSingleUnsavedUrl` contains a failed
delete, its calls end with the re-upload to `projects/<projectId>/<slot>/<name>`,
the look-up of the access URL of that path and the failed delete, and the function
returns that access URL (not the old reference, not an error); in a new-project
save the reference returned for the main image is the `imageUrl` handed to the
final update, which, when the document writes succeed, completes the save. -/
theorem moveSingleUnsavedUrl_delete_failure (B : Backend σ) :
    (∀ (oldUrl pid : Str) (t : Slot) (w : World σ),
      ∃ calls, (moveSingleUnsavedUrl B oldUrl pid t w).2.log = w.log ++ calls ∧
        ∀ item, Call.deleteObject item false ∈ calls →
          ∃ url, (moveSingleUnsavedUrl B oldUrl pid t w).1 = .ok url ∧
            ReturnsUploaded B pid t w calls url) ∧
    (∀ (w : World σ) (id url : Str), w.ui.editId = none →
      trim w.ui.formData.name ≠ [] → trim w.ui.formData.description ≠ [] →
      isUnsavedRef w.ui.formData.imageUrl = true →
      (B.addDoc ⟨formatFields w.ui.formData, .createdAt⟩ w.store).1 = .ok id →
      (moveSingleUnsavedUrl B w.ui.formData.imageUrl id .main (movingWorld B w)).1 = .ok url →
      (movedFor B w id).1.imageUrl = url ∧
      ((B.updateDoc id ⟨(movedFor B w id).1, .updatedAt⟩ (movedFor B w id).2.store).1 = .ok () →
        (handleSaveProject B w).log =
          (movedFor B w id).2.log ++
            [Call.updateDoc id ⟨(movedFor B w id).1, .updatedAt⟩ true] ∧
        SaveSucceeded w (handleSaveProject B w))) := by
  refine ⟨fun oldUrl pid t w => moveSingleUnsavedUrl_returnsUploaded B oldUrl pid t w, ?_⟩
  intro w id url hnew hn hd hu hadd hres
  exact ⟨moveUnsaved_imageUrl_of_main B id (formatFields w.ui.formData) (insertedWorld B w) url
      hu hres,
    fun hupd => handleSaveProject_new_ok B w id hnew hn hd hadd hupd⟩

/-- C13 at a concrete input: relocating the provisional main image of `sampleStore`
for project `p1` over a store whose deletes fail. -/
theorem moveSingleUnsavedUrl_delete_failure_witness :
    Call.deleteObject "projects/unsaved/main/abc".toList false ∈
      (moveSingleUnsavedUrl (withFailingDelete (refBackend demoConfig))
        "https://cdn.test/projects/unsaved/main/abc".toList "p1".toList .main
        (mkWorld sampleStore initialPanel)).2.log ∧
    ∃ url, (moveSingleUnsavedUrl (withFailingDelete (refBackend demoConfig))
        "https://cdn.test/projects/unsaved/main/abc".toList "p1".toList .main
        (mkWorld sampleStore initialPanel)).1 = .ok url ∧
      url = "https://cdn.test/projects/p1/main/u".toList := by
  obtain ⟨calls, hlog, h⟩ := (moveSingleUnsavedUrl_delete_failure
    (withFailingDelete (refBackend demoConfig))).1
    "https://cdn.test/projects/unsaved/main/abc".toList "p1".toList .main
    (mkWorld sampleStore initialPanel)
  have hmem : Call.deleteObject "projects/unsaved/main/abc".toList false ∈
      (moveSingleUnsavedUrl (withFailingDelete (refBackend demoConfig))
        "https://cdn.test/projects/unsaved/main/abc".toList "p1".toList .main
        (mkWorld sampleStore initialPanel)).2.log := by decide
  have hc : (moveSingleUnsavedUrl (withFailingDelete (refBackend demoConfig))
        "https://cdn.test/projects/unsaved/main/abc".toList "p1".toList .main
        (mkWorld sampleStore initialPanel)).2.log = calls := by
    rw [hlog]
    rfl
  obtain ⟨url, hres, -⟩ := h _ (hc ▸ hmem)
  refine ⟨hmem, url, hres, ?_⟩
  have hval : (moveSingleUnsavedUrl (withFailingDelete (refBackend demoConfig))
        "https://cdn.test/projects/unsaved/main/abc".toList "p1".toList .main
        (mkWorld sampleStore initialPanel)).1 =
      .ok "https://cdn.test/projects/p1/main/u".toList := rfl
  rw [hval] at hres
  injection hres with hres
  exact hres.symm

/-! ### Which references carry the provisional marker -/

theorem includes_skip (x r : Str) (hx : '/' ∉ x) :
    includes (x ++ r) unsavedMarker = includes r unsavedMarker := by
  induction x with
  | nil => rfl
  | cons c x2 ih =>
    have hc : ¬ c = '/' := fun h => hx (by simp [h])
    have hx2 : '/' ∉ x2 := fun h => hx (List.mem_cons_of_mem _ h)
    have hc2 : ('/' == c) = false := by
      simpa using fun h : '/' = c => hc h.symm
    rw [List.cons_append, includes, ih hx2]
    simp [unsavedMarker, List.isPrefixOf, hc2]

theorem includes_no_slash (x : Str) (hx : '/' ∉ x) : includes x unsavedMarker = false := by
  have h := includes_skip x [] hx
  rw [List.append_nil] at h
  rw [h]
  rfl

theorem isPrefixOf_segment (a m : Str) (ha : '/' ∉ a) :
    ∀ (y r : Str), '/' ∉ y →
      List.isPrefixOf (a ++ '/' :: m) (y ++ '/' :: r) = (decide (a = y) && List.isPrefixOf m r) := by
  induction a with
  | nil =>
    intro y r hy
    cases y with
    | nil => simp [List.isPrefixOf]
    | cons c y2 =>
      have hc : ¬ c = '/' := fun h => hy (by simp [h])
      have hc2 : ('/' == c) = false := by
        simpa using fun h : '/' = c => hc h.symm
      simp [List.isPrefixOf, hc2]
  | cons d a2 ih =>
    intro y r hy
    have hd : ¬ d = '/' := fun h => ha (by simp [h])
    have ha2 : '/' ∉ a2 := fun h => ha (List.mem_cons_of_mem _ h)
    cases y with
    | nil =>
      have hd2 : (d == '/') = false := by simpa using hd
      simp [List.isPrefixOf, hd2]
    | cons c y2 =>
      have hy2 : '/' ∉ y2 := fun h => hy (List.mem_cons_of_mem _ h)
      have hih := ih ha2 y2 r hy2
      by_cases hdc : d = c
      · subst hdc
        simpa [List.isPrefixOf] using hih
      · simp [List.isPrefixOf, hdc]

/-- One path segment: the marker `/projects/unsaved/` starts at the `/` in front of a
segment just when the segment is `projects` and `unsaved/` follows. -/
theorem includes_segment (x r : Str) (hx : '/' ∉ x) :
    includes ('/' :: (x ++ '/' :: r)) unsavedMarker =
      ((decide ("projects".toList = x) && List.isPrefixOf "unsaved/".toList r) ||
        includes ('/' :: r) unsavedMarker) := by
  rw [includes, includes_skip x _ hx]
  have h : List.isPrefixOf unsavedMarker ('/' :: (x ++ '/' :: r)) =
      List.isPrefixOf ("projects".toList ++ '/' :: "unsaved/".toList) (x ++ '/' :: r) := by
    simp [unsavedMarker, List.isPrefixOf]
  rw [h, isPrefixOf_segment _ _ (by decide) x r hx]

theorem includes_last_segment (x : Str) (hx : '/' ∉ x) :
    includes ('/' :: x) unsavedMarker = false := by
  rw [includes, includes_no_slash x hx, Bool.or_false]
  cases hp : List.isPrefixOf unsavedMarker ('/' :: x) with
  | false => rfl
  | true =>
    exfalso
    obtain ⟨z, hz⟩ := List.isPrefixOf_iff_prefix.1 hp
    apply hx
    have hmem : '/' ∈ ('/' :: x).tail := by
      rw [← hz]
      simp [unsavedMarker]
    simpa using hmem

theorem unsaved_prefix (y r : Str) (hy : '/' ∉ y) :
    List.isPrefixOf "unsaved/".toList (y ++ '/' :: r) = decide ("unsaved".toList = y) := by
  have h := isPrefixOf_segment "unsaved".toList [] (by decide) y r hy
  simp only [List.isPrefixOf, Bool.and_true] at h
  exact h

/-- A permanent path `/projects/<P>/<slot>/<name>` does not contain the marker. -/
theorem permanent_path_no_marker (P name : Str) (t : Slot) (hP : '/' ∉ P)
    (hPu : P ≠ "unsaved".toList) (hname : '/' ∉ name) :
    includes ('/' :: newPath P t name) unsavedMarker = false := by
  have hshape : '/' :: newPath P t name =
      '/' :: ("projects".toList ++ '/' :: (P ++ '/' :: (t.str ++ '/' :: name))) := by
    simp [newPath]
  have h1 : decide ("unsaved".toList = P) = false := by
    simpa using fun h : "unsaved".toList = P => hPu h.symm
  have h2 : decide ("projects".toList = t.str) = false := by
    cases t <;> decide
  have h3 : decide ("unsaved".toList = t.str) = false := by
    cases t <;> decide
  rw [hshape, includes_segment _ _ (by decide), unsaved_prefix P _ hP, h1,
    includes_segment P _ hP, unsaved_prefix t.str _ (slot_str_no_slash t), h3,
    includes_segment t.str _ (slot_str_no_slash t), h2,
    includes_last_segment name hname]
  simp

theorem marker_not_across (B T : Str) (hne : B ≠ [])
    (hB : List.isPrefixOf "/projects".toList B = false) :
    List.isPrefixOf unsavedMarker (B ++ '/' :: T) = false := by
  rcases B with _ | ⟨c1, _ | ⟨c2, _ | ⟨c3, _ | ⟨c4, _ | ⟨c5, _ | ⟨c6, _ | ⟨c7,
    _ | ⟨c8, _ | ⟨c9, rest⟩⟩⟩⟩⟩⟩⟩⟩⟩
  · exact absurd rfl hne
  all_goals
    first
      | (simp [unsavedMarker, List.isPrefixOf]; done)
      | (simp [unsavedMarker, List.isPrefixOf] at hB ⊢; tauto)

/-- In front of a `/`-separated path, a base without `/projects` adds no occurrence
of the marker. -/
theorem includes_base (base T : Str) (hbase : includes base "/projects".toList = false) :
    includes (base ++ '/' :: T) unsavedMarker = includes ('/' :: T) unsavedMarker := by
  induction base with
  | nil => rfl
  | cons c b ih =>
    rw [includes, Bool.or_eq_false_iff] at hbase
    rw [List.cons_append, includes, ih hbase.2]
    have := marker_not_across (c :: b) T (List.cons_ne_nil _ _) hbase.1
    rw [List.cons_append] at this
    rw [this, Bool.false_or]

theorem foldl_setUi_store (l : List Nat) (g : Nat → Panel → Panel) (w : World σ) :
    (l.foldl (fun acc pc => acc.setUi (g pc)) w).store = w.store := by
  induction l generalizing w with
  | nil => rfl
  | cons a t ih => simp only [List.foldl_cons]; rw [ih]; rfl

theorem ref_upload_result (cfg : RefConfig) (f : JsFile) (projectId : Option Str) (type : Slot)
    (index : Option Nat) (w : World RefStore) :
    (uploadFileWithProgress (refBackend cfg) (some f) projectId type index w).1 =
      .ok (cfg.urlOf (uploadPath projectId type (cfg.uuid w.store.nextUuid)),
        uploadPath projectId type (cfg.uuid w.store.nextUuid)) := by
  unfold uploadFileWithProgress
  dsimp only
  rw [ref_upload]
  dsimp only
  rw [ref_getDownloadURL_ok cfg _ _ f.bytes (by
    rw [foldl_setUi_store]
    show getKey (putKey _ _ _) _ = _
    rw [getKey_putKey, if_pos rfl])]
  rfl

/-- An upload at a concrete input: under an access-URL scheme that percent-encodes
the `/` of the path, the reference returned for an upload with `projectId` null
(stored at `projects/unsaved/main/u`) does not pass the test of
`moveUnsavedFilesForProject`. -/
theorem uploadFileWithProgress_marker_counterexample :
    Call.uploadBytes "projects/unsaved/main/u".toList [7] true ∈
      (uploadFileWithProgress (refBackend encodedConfig) (some ⟨"a.png".toList, [7]⟩) none
        .main none (mkWorld emptyStore initialPanel)).2.log ∧
    resultUrl (uploadFileWithProgress (refBackend encodedConfig) (some ⟨"a.png".toList, [7]⟩)
        none .main none (mkWorld emptyStore initialPanel)).1 =
      some "https://cdn.test/o/projects%2Funsaved%2Fmain%2Fu".toList ∧
    isUnsavedRef "https://cdn.test/o/projects%2Funsaved%2Fmain%2Fu".toList = false := by
  decide

/-- Stores whose URLs embed the path: over the reference stores with access URLs of
the form `<base>/<path>`, the reference returned by `uploadFileWithProgress` with
`projectId` null passes the test of `moveUnsavedFilesForProject` (non-empty and
containing `/projects/unsaved/`); the reference returned for an upload with a
project id (non-empty, without `/`, other than `unsaved`) does not, when the
generated name has no `/` and the base does not contain `/projects`. -/
theorem uploadFileWithProgress_marker (cfg : RefConfig) (base : Str)
    (hurl : ∀ p, cfg.urlOf p = base ++ '/' :: p) (f : JsFile) (type : Slot)
    (index : Option Nat) (w : World RefStore) :
    (∃ url, (uploadFileWithProgress (refBackend cfg) (some f) none type index w).1 =
        .ok (url, "projects/unsaved/".toList ++ type.str ++ "/".toList ++
          cfg.uuid w.store.nextUuid) ∧
      isUnsavedRef url = true) ∧
    (∀ P : Str, P ≠ [] → '/' ∉ P → P ≠ "unsaved".toList → '/' ∉ cfg.uuid w.store.nextUuid →
      includes base "/projects".toList = false →
      ∃ url, (uploadFileWithProgress (refBackend cfg) (some f) (some P) type index w).1 =
          .ok (url, "projects/".toList ++ P ++ "/".toList ++ type.str ++ "/".toList ++
            cfg.uuid w.store.nextUuid) ∧
        isUnsavedRef url = false) := by
  constructor
  · refine ⟨_, ref_upload_result cfg f none type index w, ?_⟩
    apply includes_true_isUnsavedRef
    rw [hurl, includes_iff_infix]
    exact ⟨base, type.str ++ '/' :: cfg.uuid w.store.nextUuid, by
      simp [unsavedMarker, uploadPath, baseFolder]⟩
  · intro P hP hPs hPu hname hbase
    have hpath : uploadPath (some P) type (cfg.uuid w.store.nextUuid) =
        newPath P type (cfg.uuid w.store.nextUuid) := by
      simp [uploadPath, baseFolder, newPath, truthy, List.isEmpty_iff, hP]
    have hres := ref_upload_result cfg f (some P) type index w
    rw [hpath] at hres
    refine ⟨cfg.urlOf (newPath P type (cfg.uuid w.store.nextUuid)), ?_, ?_⟩
    · rw [hres]
      simp [newPath]
    · apply includes_false_isUnsavedRef
      rw [hurl, includes_base _ _ hbase]
      exact permanent_path_no_marker P _ type hPs hPu hname

/-- Stores whose URLs embed the path, at a concrete input: an upload while editing
project `p1`, with access URLs `https://cdn.test/<path>`. -/
theorem uploadFileWithProgress_marker_witness :
    ∃ url, (uploadFileWithProgress (refBackend demoConfig) (some ⟨"a.png".toList, [7]⟩)
        (some "p1".toList) .gallery (some 0) (mkWorld sampleStore initialPanel)).1 =
        .ok (url, "projects/".toList ++ "p1".toList ++ "/".toList ++ Slot.gallery.str ++
          "/".toList ++ demoConfig.uuid (mkWorld sampleStore initialPanel).store.nextUuid) ∧
      isUnsavedRef url = false :=
  (uploadFileWithProgress_marker demoConfig "https://cdn.test".toList (fun _ => rfl)
    ⟨"a.png".toList, [7]⟩ .gallery (some 0) (mkWorld sampleStore initialPanel)).2
    "p1".toList (by decide) (by decide) (by decide) (by decide) (by decide)

end SaveTheorems

end Projects

/-! # Theorems on the gallery manager -/

namespace Gallery

open Projects (Str Blob JsError getKey putKey eraseKey isOk getKey_putKey)

section Generic
variable {σ : Type}

theorem callUpdateDoc_log (B : Backend σ) (coll id : Str) (b : Bool) (w : World σ) :
    (callUpdateDoc B coll id b w).2.log =
      w.log ++ [Call.updateDoc coll id b (isOk (callUpdateDoc B coll id b w).1)] := rfl

theorem callUpdateDoc_ui (B : Backend σ) (coll id : Str) (b : Bool) (w : World σ) :
    (callUpdateDoc B coll id b w).2.ui = w.ui := rfl

theorem clearFlag_log (B : Backend σ) (d : Str × ImageData) (w : World σ) :
    ∃ clears, (clearFlag B d w).log = w.log ++ clears ∧
      clears.map Call.write =
        (flaggedIds [d]).map fun id => some (collectionName, id, false) := by
  unfold clearFlag
  by_cases hd : d.2.isProfile = true
  · rw [if_pos hd]
    refine ⟨[Call.updateDoc collectionName d.1 false
      (isOk (callUpdateDoc B collectionName d.1 false w).1)], ?_, ?_⟩
    · have hl := callUpdateDoc_log B collectionName d.1 false w
      cases hc : callUpdateDoc B collectionName d.1 false w with
      | mk res w1 =>
        rw [hc] at hl
        cases res with
        | ok u => exact hl
        | error e => exact hl
    · simp [flaggedIds, hd, Call.write]
  · rw [if_neg hd]
    exact ⟨[], by simp, by simp [flaggedIds, hd]⟩

theorem flaggedIds_cons (d : Str × ImageData) (l : List (Str × ImageData)) :
    flaggedIds (d :: l) = flaggedIds [d] ++ flaggedIds l := by
  unfold flaggedIds
  by_cases hd : d.2.isProfile = true <;> simp [hd]

theorem clearAll_log (B : Backend σ) (l : List (Str × ImageData)) (w : World σ) :
    ∃ clears, (l.foldl (fun acc d => clearFlag B d acc) w).log = w.log ++ clears ∧
      clears.map Call.write =
        (flaggedIds l).map fun id => some (collectionName, id, false) := by
  induction l generalizing w with
  | nil => exact ⟨[], by simp, by simp [flaggedIds]⟩
  | cons d l ih =>
    obtain ⟨c1, h1, h2⟩ := clearFlag_log B d w
    obtain ⟨c2, h3, h4⟩ := ih (clearFlag B d w)
    refine ⟨c1 ++ c2, ?_, ?_⟩
    · rw [List.foldl_cons, h3, h1, List.append_assoc]
    · rw [List.map_append, h2, h4, ← List.map_append, ← flaggedIds_cons]

/-- The calls of a run of `setAsProfile` whose read succeeded: the read, one clearing
write per flagged document of the snapshot, then the write to the target. -/
theorem setAsProfile_log (B : Backend σ) (x : Str) (w : World σ)
    (allDocs : List (Str × ImageData))
    (hget : (B.getDocs collectionName w.store).1 = .ok allDocs) :
    ∃ clears ok, (setAsProfile B x w).log =
        w.log ++ [Call.getDocs collectionName true] ++ clears ++
          [Call.updateDoc collectionName x true ok] ∧
      clears.map Call.write =
        (flaggedIds allDocs).map fun id => some (collectionName, id, false) := by
  unfold setAsProfile
  have hg : callGetDocs B collectionName w =
      (.ok allDocs, w.record (B.getDocs collectionName w.store).2
        (.getDocs collectionName true)) := by
    unfold callGetDocs
    dsimp only
    rw [hget]
    rfl
  rw [hg]
  dsimp only
  obtain ⟨clears, h1, h2⟩ := clearAll_log B allDocs
    (w.record (B.getDocs collectionName w.store).2 (.getDocs collectionName true))
  have hl := callUpdateDoc_log B collectionName x true
    (allDocs.foldl (fun acc d => clearFlag B d acc)
      (w.record (B.getDocs collectionName w.store).2 (.getDocs collectionName true)))
  cases hc : callUpdateDoc B collectionName x true
    (allDocs.foldl (fun acc d => clearFlag B d acc)
      (w.record (B.getDocs collectionName w.store).2 (.getDocs collectionName true))) with
  | mk res w3 =>
    rw [hc] at hl
    refine ⟨clears, isOk res, ?_, h2⟩
    have hl2 : w3.log = w.log ++ [Call.getDocs collectionName true] ++ clears ++
        [Call.updateDoc collectionName x true (isOk res)] := by
      rw [hl, h1]
      rfl
    cases res with
    | ok u => exact hl2
    | error e => exact hl2

theorem filterMap_of_map_some {α β γ : Type} (g : α → Option β) (h : γ → β) :
    ∀ (l : List α) (L : List γ), l.map g = L.map (fun a => some (h a)) →
      l.filterMap g = L.map h := by
  intro l
  induction l with
  | nil =>
    intro L hL
    cases L with
    | nil => rfl
    | cons a L => simp at hL
  | cons c l ih =>
    intro L hL
    cases L with
    | nil => simp at hL
    | cons a L =>
      simp only [List.map_cons, List.cons.injEq] at hL
      rw [List.filterMap_cons, hL.1, List.map_cons, ih L hL.2]

/-- C18 (as the code behaves): when the read of the collection succeeds, the document
writes `setAsProfile(x)` issues are one `isProfile: false` write to every document
of the snapshot that is flagged, in snapshot order and the target `x` included
when it is flagged, followed by one `isProfile: true` write to `x`. -/
theorem setAsProfile_writes (B : Backend σ) (x : Str) (w : World σ)
    (allDocs : List (Str × ImageData))
    (hget : (B.getDocs collectionName w.store).1 = .ok allDocs) :
    ((setAsProfile B x w).log.drop w.log.length).filterMap Call.write =
      ((flaggedIds allDocs).map fun id => (collectionName, id, false)) ++
        [(collectionName, x, true)] := by
  obtain ⟨clears, ok, h1, h2⟩ := setAsProfile_log B x w allDocs hget
  rw [h1, List.append_assoc, List.append_assoc, List.drop_left]
  rw [List.filterMap_append, List.filterMap_append,
    filterMap_of_map_some Call.write (fun id => (collectionName, id, false)) clears _ h2]
  rfl

theorem setAsProfile_writes_witness :
    ((setAsProfile (refBackend Projects.demoConfig) "img1".toList
        (mkWorld sampleDb initialPanel)).log.drop 0).filterMap Call.write =
      [(collectionName, "img1".toList, false), (collectionName, "img1".toList, true)] :=
  setAsProfile_writes (refBackend Projects.demoConfig) "img1".toList
    (mkWorld sampleDb initialPanel) twoImages rfl

end Generic

/-! ## Over the reference stores -/

theorem docsOf_putKey (s : RefDb) (coll c2 : Str) (v : List (Str × ImageData)) :
    docsOf { s with collections := putKey s.collections coll v } c2 =
      if coll = c2 then v else docsOf s c2 := by
  unfold docsOf
  dsimp only
  rw [getKey_putKey]
  by_cases h : coll = c2 <;> simp [h]

/-- An update over the reference stores either succeeds, the document being there,
and merges the flag, or fails and leaves the store as it was. -/
theorem ref_callUpdateDoc (cfg : Projects.RefConfig) (coll id : Str) (b : Bool)
    (w : World RefDb) :
    (isOk (callUpdateDoc (refBackend cfg) coll id b w).1 = true ∧
        id ∈ (docsOf w.store coll).map Prod.fst ∧
        docsOf (callUpdateDoc (refBackend cfg) coll id b w).2.store coll =
          setFlag (docsOf w.store coll) id b) ∨
      (isOk (callUpdateDoc (refBackend cfg) coll id b w).1 = false ∧
        (callUpdateDoc (refBackend cfg) coll id b w).2.store = w.store) := by
  unfold callUpdateDoc refBackend World.record
  dsimp only
  by_cases h1 : id ∈ w.store.denied
  · right
    rw [if_pos h1]
    exact ⟨rfl, rfl⟩
  · rw [if_neg h1]
    by_cases h2 : id ∈ (docsOf w.store coll).map Prod.fst
    · left
      rw [if_pos h2]
      refine ⟨rfl, h2, ?_⟩
      dsimp only
      rw [docsOf_putKey, if_pos rfl]
    · right
      rw [if_neg h2]
      exact ⟨rfl, rfl⟩

/-- A write to one collection leaves the documents of every other collection alone. -/
theorem ref_callUpdateDoc_other (cfg : Projects.RefConfig) (coll id : Str) (b : Bool)
    (w : World RefDb) (c2 : Str) (hne : coll ≠ c2) :
    docsOf (callUpdateDoc (refBackend cfg) coll id b w).2.store c2 = docsOf w.store c2 := by
  unfold callUpdateDoc refBackend World.record
  dsimp only
  by_cases h1 : id ∈ w.store.denied
  · rw [if_pos h1]
  · rw [if_neg h1]
    by_cases h2 : id ∈ (docsOf w.store coll).map Prod.fst
    · rw [if_pos h2]
      dsimp only
      rw [docsOf_putKey, if_neg hne]
    · rw [if_neg h2]

theorem clearFlag_store (B : Backend RefDb) (d : Str × ImageData) (w : World RefDb) :
    (clearFlag B d w).store =
      if d.2.isProfile then (callUpdateDoc B collectionName d.1 false w).2.store
      else w.store := by
  unfold clearFlag
  by_cases hd : d.2.isProfile = true
  · rw [if_pos hd, if_pos hd]
    cases hc : callUpdateDoc B collectionName d.1 false w with
    | mk res w1 =>
      cases res with
      | ok u => rfl
      | error e => rfl
  · rw [if_neg hd, if_neg hd]

theorem ref_clearFlag_other (cfg : Projects.RefConfig) (d : Str × ImageData)
    (w : World RefDb) (c2 : Str) (hne : collectionName ≠ c2) :
    docsOf (clearFlag (refBackend cfg) d w).store c2 = docsOf w.store c2 := by
  rw [clearFlag_store]
  by_cases hd : d.2.isProfile = true
  · rw [if_pos hd, ref_callUpdateDoc_other cfg _ _ _ _ _ hne]
  · rw [if_neg hd]

theorem ref_clearAll_other (cfg : Projects.RefConfig) (l : List (Str × ImageData))
    (w : World RefDb) (c2 : Str) (hne : collectionName ≠ c2) :
    docsOf (l.foldl (fun acc d => clearFlag (refBackend cfg) d acc) w).store c2 =
      docsOf w.store c2 := by
  induction l generalizing w with
  | nil => rfl
  | cons d l ih => rw [List.foldl_cons, ih, ref_clearFlag_other cfg d w c2 hne]

theorem clearFlag_log_eq {σ : Type} (B : Backend σ) (d : Str × ImageData) (w : World σ) :
    (clearFlag B d w).log =
      if d.2.isProfile then (callUpdateDoc B collectionName d.1 false w).2.log
      else w.log := by
  unfold clearFlag
  by_cases hd : d.2.isProfile = true
  · rw [if_pos hd, if_pos hd]
    cases hc : callUpdateDoc B collectionName d.1 false w with
    | mk res w1 =>
      cases res with
      | ok u => rfl
      | error e => rfl
  · rw [if_neg hd, if_neg hd]

theorem ref_clearFlag_ok (cfg : Projects.RefConfig) (d : Str × ImageData) (w : World RefDb)
    (hok : ∀ c ∈ (clearFlag (refBackend cfg) d w).log, c.ok = true) :
    docsOf (clearFlag (refBackend cfg) d w).store collectionName =
      if d.2.isProfile then setFlag (docsOf w.store collectionName) d.1 false
      else docsOf w.store collectionName := by
  rw [clearFlag_store]
  rw [clearFlag_log_eq] at hok
  by_cases hd : d.2.isProfile = true
  · rw [if_pos hd] at hok ⊢
    rw [if_pos hd]
    rcases ref_callUpdateDoc cfg collectionName d.1 false w with ⟨_, _, h3⟩ | ⟨h1, _⟩
    · exact h3
    · have hbad := hok (Call.updateDoc collectionName d.1 false
          (isOk (callUpdateDoc (refBackend cfg) collectionName d.1 false w).1))
        (by rw [callUpdateDoc_log]; simp)
      rw [h1] at hbad
      exact absurd hbad (by simp [Call.ok])
  · rw [if_neg hd, if_neg hd]

theorem ref_clearAll_ok (cfg : Projects.RefConfig) (l : List (Str × ImageData))
    (w : World RefDb)
    (hok : ∀ c ∈ (l.foldl (fun acc d => clearFlag (refBackend cfg) d acc) w).log,
      c.ok = true) :
    docsOf (l.foldl (fun acc d => clearFlag (refBackend cfg) d acc) w).store collectionName =
      clearedDocs l (docsOf w.store collectionName) := by
  induction l generalizing w with
  | nil => rfl
  | cons d l ih =>
    rw [List.foldl_cons] at hok ⊢
    rw [ih _ hok]
    obtain ⟨clears, hl, _⟩ := clearAll_log (refBackend cfg) l (clearFlag (refBackend cfg) d w)
    rw [ref_clearFlag_ok cfg d w (fun c hc => hok c (by rw [hl]; exact List.mem_append_left _ hc))]
    rfl

/-! ## The flags after the writes -/

theorem setFlag_ids (docs : List (Str × ImageData)) (id : Str) (b : Bool) :
    (setFlag docs id b).map Prod.fst = docs.map Prod.fst := by
  unfold setFlag
  rw [List.map_map]
  apply List.map_congr_left
  intro e _
  by_cases h : e.1 = id <;> simp [h]

theorem clearedDocs_eq (snap : List (Str × ImageData)) :
    ∀ docs, clearedDocs snap docs =
      docs.map fun e =>
        if e.1 ∈ flaggedIds snap then (e.1, { e.2 with isProfile := false }) else e := by
  induction snap with
  | nil =>
    intro docs
    simp [clearedDocs, flaggedIds]
  | cons a snap ih =>
    intro docs
    have hstep : clearedDocs (a :: snap) docs =
        clearedDocs snap (if a.2.isProfile then setFlag docs a.1 false else docs) := rfl
    rw [hstep, ih]
    by_cases ha : a.2.isProfile = true
    · rw [if_pos ha]
      unfold setFlag
      rw [List.map_map]
      apply List.map_congr_left
      intro e _
      have hF : flaggedIds (a :: snap) = a.1 :: flaggedIds snap := by
        simp [flaggedIds, ha]
      rw [hF]
      by_cases he : e.1 = a.1
      · by_cases hm : a.1 ∈ flaggedIds snap <;> simp [he, hm]
      · by_cases hm : e.1 ∈ flaggedIds snap <;> simp [he, hm]
    · rw [if_neg ha]
      have hF : flaggedIds (a :: snap) = flaggedIds snap := by
        simp [flaggedIds, ha]
      rw [hF]

theorem clearedDocs_ids (snap docs : List (Str × ImageData)) :
    (clearedDocs snap docs).map Prod.fst = docs.map Prod.fst := by
  rw [clearedDocs_eq, List.map_map]
  apply List.map_congr_left
  intro e _
  by_cases h : e.1 ∈ flaggedIds snap <;> simp [h]

/-- Clearing the flagged documents of a snapshot of the collection leaves none flagged. -/
theorem clearedDocs_self (docs : List (Str × ImageData)) :
    ∀ e ∈ clearedDocs docs docs, e.2.isProfile = false := by
  intro e he
  rw [clearedDocs_eq, List.mem_map] at he
  obtain ⟨e0, h0, rfl⟩ := he
  by_cases hm : e0.1 ∈ flaggedIds docs
  · rw [if_pos hm]
  · rw [if_neg hm]
    cases hf : e0.2.isProfile with
    | false => rfl
    | true =>
      exact absurd (List.mem_map.mpr ⟨e0, List.mem_filter.mpr ⟨h0, hf⟩, rfl⟩) hm

theorem setFlag_true_iff (docs : List (Str × ImageData)) (x : Str)
    (h : ∀ e ∈ docs, e.2.isProfile = false) :
    ∀ e ∈ setFlag docs x true, (e.2.isProfile = true ↔ e.1 = x) := by
  intro e he
  unfold setFlag at he
  rw [List.mem_map] at he
  obtain ⟨e0, h0, rfl⟩ := he
  by_cases hx : e0.1 = x
  · rw [if_pos hx]
    simp [hx]
  · rw [if_neg hx]
    simp [hx, h e0 h0]

theorem filter_eq_singleton (x : Str) :
    ∀ l : List Str, l.Nodup → x ∈ l → l.filter (fun a => decide (a = x)) = [x] := by
  intro l
  induction l with
  | nil => intro _ hx; simp at hx
  | cons a l ih =>
    intro hn hx
    rw [List.nodup_cons] at hn
    by_cases ha : a = x
    · subst ha
      rw [List.filter_cons_of_pos (by simp)]
      congr 1
      rw [List.filter_eq_nil_iff]
      intro b hb
      have hne : b ≠ a := fun h => hn.1 (h ▸ hb)
      simp [hne]
    · rw [List.filter_cons_of_neg (by simp [ha])]
      rcases List.mem_cons.mp hx with h | h
      · exact absurd h.symm ha
      · exact ih hn.2 h

theorem flaggedIds_single (docs : List (Str × ImageData)) (x : Str)
    (hn : (docs.map Prod.fst).Nodup) (hx : x ∈ docs.map Prod.fst)
    (h : ∀ e ∈ docs, (e.2.isProfile = true ↔ e.1 = x)) :
    flaggedIds docs = [x] := by
  unfold flaggedIds
  have h1 : docs.filter (fun e => e.2.isProfile) =
      docs.filter ((fun a => decide (a = x)) ∘ Prod.fst) := by
    apply List.filter_congr
    intro e he
    by_cases hx : e.1 = x
    · simp [hx, (h e he).mpr hx]
    · have : e.2.isProfile = false := by
        cases hf : e.2.isProfile with
        | false => rfl
        | true => exact absurd ((h e he).mp hf) hx
      simp [hx, this]
  rw [h1, ← List.filter_map]
  exact filter_eq_singleton x _ hn hx

theorem clearFlag_alerts {σ : Type} (B : Backend σ) (d : Str × ImageData) (w : World σ) :
    (clearFlag B d w).ui.alerts = w.ui.alerts := by
  unfold clearFlag
  by_cases hd : d.2.isProfile = true
  · rw [if_pos hd]
    have hu := callUpdateDoc_ui B collectionName d.1 false w
    cases hc : callUpdateDoc B collectionName d.1 false w with
    | mk res w1 =>
      rw [hc] at hu
      have hu2 : w1.ui = w.ui := hu
      cases res with
      | ok u =>
        show w1.ui.alerts = _
        rw [hu2]
      | error e =>
        show w1.ui.alerts = _
        rw [hu2]
  · rw [if_neg hd]

theorem clearAll_alerts {σ : Type} (B : Backend σ) (l : List (Str × ImageData))
    (w : World σ) :
    (l.foldl (fun acc d => clearFlag B d acc) w).ui.alerts = w.ui.alerts := by
  induction l generalizing w with
  | nil => rfl
  | cons d l ih => rw [List.foldl_cons, ih, clearFlag_alerts]

/-- The run of `setAsProfile` after a successful read, in terms of its last call. -/
theorem setAsProfile_ok_eq {σ : Type} (B : Backend σ) (x : Str) (w w1 : World σ)
    (allDocs : List (Str × ImageData))
    (hget : callGetDocs B collectionName w = (.ok allDocs, w1)) :
    (setAsProfile B x w).store =
        (callUpdateDoc B collectionName x true
          (allDocs.foldl (fun acc d => clearFlag B d acc) w1)).2.store ∧
      (setAsProfile B x w).log =
        (callUpdateDoc B collectionName x true
          (allDocs.foldl (fun acc d => clearFlag B d acc) w1)).2.log ∧
      (setAsProfile B x w).ui.alerts =
        w1.ui.alerts ++
          (if isOk (callUpdateDoc B collectionName x true
              (allDocs.foldl (fun acc d => clearFlag B d acc) w1)).1
            then ["Profile photo updated!"] else []) := by
  unfold setAsProfile
  rw [hget]
  dsimp only
  have hu := callUpdateDoc_ui B collectionName x true
    (allDocs.foldl (fun acc d => clearFlag B d acc) w1)
  rw [← clearAll_alerts B allDocs w1]
  cases hc : callUpdateDoc B collectionName x true
    (allDocs.foldl (fun acc d => clearFlag B d acc) w1) with
  | mk res w3 =>
    rw [hc] at hu
    have hu2 : w3.ui = (allDocs.foldl (fun acc d => clearFlag B d acc) w1).ui := hu
    cases res with
    | ok u =>
      refine ⟨rfl, rfl, ?_⟩
      show w3.ui.alerts ++ _ = _
      rw [hu2]
      rfl
    | error e =>
      refine ⟨rfl, rfl, ?_⟩
      show w3.ui.alerts = _
      rw [hu2]
      simp [isOk]

/-- C17 (as the code behaves): over the reference stores, where the calls of one run
are applied in the order they are issued and nothing else writes, for every state
of the aboutGallery collection (document ids distinct) and every `x`: when no
call of `setAsProfile(x)` fails, the clearing writes it does not await included,
`x` is a document of the collection, afterwards the flagged documents of the
collection are exactly `x` (a document is flagged iff it is `x`), the documents are
the same ones as before, and the success alert was shown.  Completing without
error does not suffice: on the database whose flagged document `img1` cannot be
written, `setAsProfile(img2)` shows the success alert and logs no error, and
afterwards `img1` and `img2` are both flagged. -/
theorem setAsProfile_single (cfg : Projects.RefConfig) (db : RefDb) (p : Panel) (x : Str)
    (hn : ((docsOf db collectionName).map Prod.fst).Nodup)
    (hok : ∀ c ∈ (setAsProfile (refBackend cfg) x (mkWorld db p)).log, c.ok = true) :
    (x ∈ (docsOf db collectionName).map Prod.fst ∧
      flaggedIds (docsOf (setAsProfile (refBackend cfg) x (mkWorld db p)).store
        collectionName) = [x] ∧
      (∀ e ∈ docsOf (setAsProfile (refBackend cfg) x (mkWorld db p)).store collectionName,
        (e.2.isProfile = true ↔ e.1 = x)) ∧
      (docsOf (setAsProfile (refBackend cfg) x (mkWorld db p)).store collectionName).map
        Prod.fst = (docsOf db collectionName).map Prod.fst ∧
      (setAsProfile (refBackend cfg) x (mkWorld db p)).ui.alerts =
        p.alerts ++ ["Profile photo updated!"]) ∧
    ((setAsProfile (refBackend Projects.demoConfig) "img2".toList
          (mkWorld lockedDb initialPanel)).ui.alerts = ["Profile photo updated!"] ∧
      (setAsProfile (refBackend Projects.demoConfig) "img2".toList
          (mkWorld lockedDb initialPanel)).ui.console = [] ∧
      flaggedIds (docsOf (setAsProfile (refBackend Projects.demoConfig) "img2".toList
          (mkWorld lockedDb initialPanel)).store collectionName) =
        ["img1".toList, "img2".toList]) := by
  refine ⟨?_, by decide, by decide, by decide⟩
  obtain ⟨hs, hl, ha⟩ := setAsProfile_ok_eq (refBackend cfg) x (mkWorld db p)
    ((mkWorld db p).record db (.getDocs collectionName true)) (docsOf db collectionName) rfl
  rw [hl] at hok
  rw [hs, ha]
  have hok2 : ∀ c ∈ ((docsOf db collectionName).foldl
      (fun acc d => clearFlag (refBackend cfg) d acc)
      ((mkWorld db p).record db (.getDocs collectionName true))).log, c.ok = true := by
    intro c hc
    apply hok c
    rw [callUpdateDoc_log]
    exact List.mem_append_left _ hc
  have hdocs := ref_clearAll_ok cfg (docsOf db collectionName)
    ((mkWorld db p).record db (.getDocs collectionName true)) hok2
  have hdb : docsOf ((mkWorld db p).record db (.getDocs collectionName true)).store
      collectionName = docsOf db collectionName := rfl
  rw [hdb] at hdocs
  rcases ref_callUpdateDoc cfg collectionName x true
    ((docsOf db collectionName).foldl (fun acc d => clearFlag (refBackend cfg) d acc)
      ((mkWorld db p).record db (.getDocs collectionName true))) with ⟨h1, h2, h3⟩ | ⟨h1, _⟩
  · rw [hdocs] at h2 h3
    rw [clearedDocs_ids] at h2
    rw [h3, h1]
    have hiff := setFlag_true_iff (clearedDocs (docsOf db collectionName)
      (docsOf db collectionName)) x (clearedDocs_self _)
    have hids : (setFlag (clearedDocs (docsOf db collectionName)
        (docsOf db collectionName)) x true).map Prod.fst =
        (docsOf db collectionName).map Prod.fst := by
      rw [setFlag_ids, clearedDocs_ids]
    refine ⟨h2, ?_, hiff, hids, rfl⟩
    exact flaggedIds_single _ x (by rw [hids]; exact hn) (by rw [hids]; exact h2) hiff
  · have hbad := hok (Call.updateDoc collectionName x true
        (isOk (callUpdateDoc (refBackend cfg) collectionName x true
          ((docsOf db collectionName).foldl (fun acc d => clearFlag (refBackend cfg) d acc)
            ((mkWorld db p).record db (.getDocs collectionName true)))).1))
      (by rw [callUpdateDoc_log]; simp)
    rw [h1] at hbad
    exact absurd hbad (by simp [Call.ok])

/-- C17 at a concrete input: Scenario C (`img1` flagged, `setAsProfile(img2)`) over a
store that accepts every write, and the same call when `img1` cannot be written. -/
theorem setAsProfile_single_witness :
    ("img2".toList ∈ (docsOf sampleDb collectionName).map Prod.fst ∧
      flaggedIds (docsOf (setAsProfile (refBackend Projects.demoConfig) "img2".toList
        (mkWorld sampleDb initialPanel)).store collectionName) = ["img2".toList] ∧
      (∀ e ∈ docsOf (setAsProfile (refBackend Projects.demoConfig) "img2".toList
          (mkWorld sampleDb initialPanel)).store collectionName,
        (e.2.isProfile = true ↔ e.1 = "img2".toList)) ∧
      (docsOf (setAsProfile (refBackend Projects.demoConfig) "img2".toList
        (mkWorld sampleDb initialPanel)).store collectionName).map Prod.fst =
          (docsOf sampleDb collectionName).map Prod.fst ∧
      (setAsProfile (refBackend Projects.demoConfig) "img2".toList
        (mkWorld sampleDb initialPanel)).ui.alerts =
          initialPanel.alerts ++ ["Profile photo updated!"]) ∧
    (docsOf (setAsProfile (refBackend Projects.demoConfig) "img2".toList
        (mkWorld sampleDb initialPanel)).store collectionName).map
      (fun e => (e.1, e.2.isProfile)) = [("img1".toList, false), ("img2".toList, true)] ∧
    flaggedIds (docsOf sampleDb collectionName) = ["img1".toList] ∧
    flaggedIds (docsOf (setAsProfile (refBackend Projects.demoConfig) "img2".toList
        (mkWorld lockedDb initialPanel)).store collectionName) =
      ["img1".toList, "img2".toList] :=
  ⟨(setAsProfile_single Projects.demoConfig sampleDb initialPanel "img2".toList
      (by decide) (by decide)).1, by decide, by decide,
    (setAsProfile_single Projects.demoConfig sampleDb initialPanel "img2".toList
      (by decide) (by decide)).2.2.2⟩

end Gallery

/-! # Theorems on the public About section -/

namespace About

open Projects (Str)

theorem onSnapshot_eq (snap : List (Str × Gallery.ImageData)) (st : Option Str) :
    onSnapshot snap st =
      match firstFlaggedUrl snap with
      | some u => some u
      | none => st := by
  unfold onSnapshot firstFlaggedUrl
  cases snap.find? (fun img => img.2.isProfile) with
  | none => rfl
  | some a => rfl

theorem profileAfter_append (snaps : List (List (Str × Gallery.ImageData)))
    (snap : List (Str × Gallery.ImageData)) :
    profileAfter (snaps ++ [snap]) = onSnapshot snap (profileAfter snaps) := by
  unfold profileAfter
  rw [List.foldl_append]
  rfl

/-- C19 (the claim fails): after a snapshot with the flagged image and then one in
which no document is flagged, the About section still holds the url of the image
that was flagged before, not null. -/
theorem profileAfter_stale_counterexample :
    profileAfter [Gallery.twoImages, Gallery.setFlag Gallery.twoImages "img1".toList false] =
        some "https://cdn.test/1.png".toList ∧
      firstFlaggedUrl (Gallery.setFlag Gallery.twoImages "img1".toList false) = none := by
  decide

/-- C19 (amended): for every sequence of snapshots delivered to the About section,
the profile image it holds is the url of the first flagged document of the most
recent snapshot that contains a flagged document, and null only when no snapshot
so far contained one; so after a snapshot with a flagged document it is the url of
that snapshot's first flagged document, and after a snapshot without one it is
what it was before that snapshot. -/
theorem profileAfter_latest_flagged (snaps : List (List (Str × Gallery.ImageData))) :
    profileAfter snaps = snaps.reverse.findSome? firstFlaggedUrl ∧
      ∀ snap, profileAfter (snaps ++ [snap]) =
        match firstFlaggedUrl snap with
        | some u => some u
        | none => profileAfter snaps := by
  refine ⟨?_, fun snap => by rw [profileAfter_append, onSnapshot_eq]⟩
  induction snaps using List.reverseRecOn with
  | nil => rfl
  | append_singleton l a ih =>
    rw [profileAfter_append, onSnapshot_eq, List.reverse_append, List.reverse_singleton,
      List.singleton_append, List.findSome?_cons, ih]
    cases firstFlaggedUrl a <;> rfl

/-- C20 (as the code behaves): the About section subscribes to the collection
"gallery" while the gallery manager writes the flags to "aboutGallery"; over the
reference stores no run of `setAsProfile` changes the snapshot the About section
is delivered, and after a successful `setAsProfile(img2)` on the sample database,
where img2 then carries the flag in "aboutGallery", the About section holds no
profile image. -/
theorem snapshotOf_setAsProfile :
    (∀ (cfg : Projects.RefConfig) (db : Gallery.RefDb) (p : Gallery.Panel) (x : Str),
        snapshotOf (Gallery.setAsProfile (Gallery.refBackend cfg) x
          (Gallery.mkWorld db p)).store = snapshotOf db) ∧
      collectionName ≠ Gallery.collectionName ∧
      (Gallery.setAsProfile (Gallery.refBackend Projects.demoConfig) "img2".toList
          (Gallery.mkWorld Gallery.sampleDb Gallery.initialPanel)).ui.alerts =
        ["Profile photo updated!"] ∧
      Gallery.flaggedIds (Gallery.docsOf
          (Gallery.setAsProfile (Gallery.refBackend Projects.demoConfig) "img2".toList
            (Gallery.mkWorld Gallery.sampleDb Gallery.initialPanel)).store
          Gallery.collectionName) = ["img2".toList] ∧
      profileAfter [snapshotOf Gallery.sampleDb,
          snapshotOf (Gallery.setAsProfile (Gallery.refBackend Projects.demoConfig)
            "img2".toList (Gallery.mkWorld Gallery.sampleDb Gallery.initialPanel)).store] =
        none := by
  refine ⟨?_, by decide, by decide, by decide, by decide⟩
  intro cfg db p x
  have hne : Gallery.collectionName ≠ collectionName := by decide
  obtain ⟨hs, _, _⟩ := Gallery.setAsProfile_ok_eq (Gallery.refBackend cfg) x
    (Gallery.mkWorld db p)
    ((Gallery.mkWorld db p).record db (.getDocs Gallery.collectionName true))
    (Gallery.docsOf db Gallery.collectionName) rfl
  unfold snapshotOf
  rw [hs, Gallery.ref_callUpdateDoc_other cfg _ _ _ _ _ hne,
    Gallery.ref_clearAll_other cfg _ _ _ hne]
  rfl

end About

/-! # Theorems on the gallery manager: unobserved writes, uploads, deletes -/

namespace Gallery

open Projects (Str Blob JsError JsFile UploadTask getKey putKey eraseKey isOk getKey_putKey
  getKey_eraseKey)

theorem flaggedIds_setFlag_ne (docs : List (Str × ImageData)) (id y : Str) (b : Bool)
    (hy : y ∈ flaggedIds docs) (hne : y ≠ id) : y ∈ flaggedIds (setFlag docs id b) := by
  unfold flaggedIds at hy ⊢
  obtain ⟨e, he, rfl⟩ := List.mem_map.mp hy
  obtain ⟨he1, he2⟩ := List.mem_filter.mp he
  refine List.mem_map.mpr ⟨e, List.mem_filter.mpr ⟨?_, he2⟩, rfl⟩
  exact List.mem_map.mpr ⟨e, he1, by rw [if_neg hne]⟩

theorem flaggedIds_setFlag_self (docs : List (Str × ImageData)) (x : Str)
    (hx : x ∈ docs.map Prod.fst) : x ∈ flaggedIds (setFlag docs x true) := by
  obtain ⟨e, he, rfl⟩ := List.mem_map.mp hx
  unfold flaggedIds
  refine List.mem_map.mpr ⟨(e.1, { e.2 with isProfile := true }),
    List.mem_filter.mpr ⟨?_, rfl⟩, rfl⟩
  exact List.mem_map.mpr ⟨e, he, by rw [if_pos rfl]⟩

theorem ref_callUpdateDoc_denied (cfg : Projects.RefConfig) (coll id : Str) (b : Bool)
    (w : World RefDb) (h : id ∈ w.store.denied) :
    callUpdateDoc (refBackend cfg) coll id b w =
      (.error ⟨"permission-denied"⟩, w.record w.store (.updateDoc coll id b false)) := by
  unfold callUpdateDoc refBackend
  dsimp only
  rw [if_pos h]
  rfl

theorem ref_callUpdateDoc_allowed (cfg : Projects.RefConfig) (coll id : Str) (b : Bool)
    (w : World RefDb) (h1 : id ∉ w.store.denied)
    (h2 : id ∈ (docsOf w.store coll).map Prod.fst) :
    callUpdateDoc (refBackend cfg) coll id b w =
      (.ok (), w.record { w.store with
          collections := putKey w.store.collections coll (setFlag (docsOf w.store coll) id b) }
        (.updateDoc coll id b true)) := by
  unfold callUpdateDoc refBackend
  dsimp only
  rw [if_neg h1, if_pos h2]
  rfl

/-- What an update over the reference stores keeps: the denied ids, the ids of the
collection, and the flag of a document that cannot be written. -/
theorem ref_callUpdateDoc_keeps (cfg : Projects.RefConfig) (coll id : Str) (b : Bool)
    (w : World RefDb) (y : Str) (hy : y ∈ w.store.denied) :
    (callUpdateDoc (refBackend cfg) coll id b w).2.store.denied = w.store.denied ∧
      (docsOf (callUpdateDoc (refBackend cfg) coll id b w).2.store coll).map Prod.fst =
        (docsOf w.store coll).map Prod.fst ∧
      (y ∈ flaggedIds (docsOf w.store coll) →
        y ∈ flaggedIds (docsOf (callUpdateDoc (refBackend cfg) coll id b w).2.store coll)) := by
  by_cases h1 : id ∈ w.store.denied
  · rw [ref_callUpdateDoc_denied cfg coll id b w h1]
    exact ⟨rfl, rfl, fun h => h⟩
  · by_cases h2 : id ∈ (docsOf w.store coll).map Prod.fst
    · rw [ref_callUpdateDoc_allowed cfg coll id b w h1 h2]
      have hd : docsOf (w.record { w.store with
          collections := putKey w.store.collections coll (setFlag (docsOf w.store coll) id b) }
          (.updateDoc coll id b true)).store coll = setFlag (docsOf w.store coll) id b := by
        show docsOf { w.store with collections := _ } coll = _
        rw [docsOf_putKey, if_pos rfl]
      dsimp only
      rw [hd]
      refine ⟨rfl, setFlag_ids _ _ _, fun h => flaggedIds_setFlag_ne _ _ _ _ h ?_⟩
      intro heq
      exact h1 (heq ▸ hy)
    · rcases ref_callUpdateDoc cfg coll id b w with ⟨_, h, _⟩ | ⟨_, h⟩
      · exact absurd h h2
      · rw [h]
        exact ⟨rfl, rfl, fun h => h⟩

theorem ref_clearFlag_keeps (cfg : Projects.RefConfig) (d : Str × ImageData)
    (w : World RefDb) (y : Str) (hy : y ∈ w.store.denied) :
    (clearFlag (refBackend cfg) d w).store.denied = w.store.denied ∧
      (docsOf (clearFlag (refBackend cfg) d w).store collectionName).map Prod.fst =
        (docsOf w.store collectionName).map Prod.fst ∧
      (y ∈ flaggedIds (docsOf w.store collectionName) →
        y ∈ flaggedIds (docsOf (clearFlag (refBackend cfg) d w).store collectionName)) := by
  rw [clearFlag_store]
  by_cases hd : d.2.isProfile = true
  · rw [if_pos hd]
    exact ref_callUpdateDoc_keeps cfg collectionName d.1 false w y hy
  · rw [if_neg hd]
    exact ⟨rfl, rfl, fun h => h⟩

theorem ref_clearAll_keeps (cfg : Projects.RefConfig) (l : List (Str × ImageData))
    (w : World RefDb) (y : Str) (hy : y ∈ w.store.denied) :
    (l.foldl (fun acc d => clearFlag (refBackend cfg) d acc) w).store.denied =
        w.store.denied ∧
      (docsOf (l.foldl (fun acc d => clearFlag (refBackend cfg) d acc) w).store
        collectionName).map Prod.fst = (docsOf w.store collectionName).map Prod.fst ∧
      (y ∈ flaggedIds (docsOf w.store collectionName) →
        y ∈ flaggedIds (docsOf (l.foldl (fun acc d => clearFlag (refBackend cfg) d acc)
          w).store collectionName)) := by
  induction l generalizing w with
  | nil => exact ⟨rfl, rfl, fun h => h⟩
  | cons d l ih =>
    obtain ⟨h1, h2, h3⟩ := ref_clearFlag_keeps cfg d w y hy
    obtain ⟨k1, k2, k3⟩ := ih (clearFlag (refBackend cfg) d w) (h1 ▸ hy)
    rw [List.foldl_cons]
    exact ⟨k1.trans h1, k2.trans h2, fun h => k3 (h3 h)⟩

/-- The clearing write to a flagged document of the snapshot that cannot be
written is issued and fails. -/
theorem ref_clearAll_failed (cfg : Projects.RefConfig) (l : List (Str × ImageData))
    (w : World RefDb) (y : Str) (hden : y ∈ w.store.denied) (hy : y ∈ flaggedIds l) :
    Call.updateDoc collectionName y false false ∈
      (l.foldl (fun acc d => clearFlag (refBackend cfg) d acc) w).log := by
  induction l generalizing w with
  | nil => simp [flaggedIds] at hy
  | cons d l ih =>
    rw [List.foldl_cons]
    rw [flaggedIds_cons] at hy
    rcases List.mem_append.mp hy with h | h
    · obtain ⟨clears, hl, _⟩ := clearAll_log (refBackend cfg) l (clearFlag (refBackend cfg) d w)
      rw [hl]
      apply List.mem_append_left
      unfold flaggedIds at h
      obtain ⟨e, he, rfl⟩ := List.mem_map.mp h
      obtain ⟨he1, he2⟩ := List.mem_filter.mp he
      have hed : e = d := by simpa using he1
      subst hed
      rw [clearFlag_log_eq, if_pos he2, ref_callUpdateDoc_denied cfg _ _ _ _ hden]
      show _ ∈ w.log ++ [_]
      simp
    · exact ih (clearFlag (refBackend cfg) d w)
        ((ref_clearFlag_keeps cfg d w y hden).1 ▸ hden) h

theorem two_le_length_of_mem {α : Type} (l : List α) (x y : α) (hx : x ∈ l) (hy : y ∈ l)
    (hne : y ≠ x) : 2 ≤ l.length := by
  match l, hx, hy with
  | [a], hx, hy =>
    simp only [List.mem_singleton] at hx hy
    exact absurd (hy.trans hx.symm) hne
  | _ :: _ :: _, _, _ => simp

/-- C28: over the reference stores, for every collection in which a document `y`
other than the target `x` is flagged and cannot be written (its clearing write
fails), while `x` is a document that can be written: `setAsProfile(x)` issues the
failing clearing write to `y`, then as its last call writes `isProfile: true` to
`x`, shows the success alert, and leaves both `x` and `y` flagged, so more than
one document is flagged. -/
theorem setAsProfile_unobserved (cfg : Projects.RefConfig) (db : RefDb) (p : Panel)
    (x y : Str) (hy : y ∈ flaggedIds (docsOf db collectionName)) (hne : y ≠ x)
    (hden : y ∈ db.denied) (hx : x ∈ (docsOf db collectionName).map Prod.fst)
    (hxd : x ∉ db.denied) :
    Call.updateDoc collectionName y false false ∈
        (setAsProfile (refBackend cfg) x (mkWorld db p)).log ∧
      (setAsProfile (refBackend cfg) x (mkWorld db p)).log.getLast? =
        some (Call.updateDoc collectionName x true true) ∧
      (setAsProfile (refBackend cfg) x (mkWorld db p)).ui.alerts =
        p.alerts ++ ["Profile photo updated!"] ∧
      x ∈ flaggedIds (docsOf (setAsProfile (refBackend cfg) x (mkWorld db p)).store
        collectionName) ∧
      y ∈ flaggedIds (docsOf (setAsProfile (refBackend cfg) x (mkWorld db p)).store
        collectionName) ∧
      2 ≤ (flaggedIds (docsOf (setAsProfile (refBackend cfg) x (mkWorld db p)).store
        collectionName)).length := by
  obtain ⟨hs, hl, ha⟩ := setAsProfile_ok_eq (refBackend cfg) x (mkWorld db p)
    ((mkWorld db p).record db (.getDocs collectionName true)) (docsOf db collectionName) rfl
  obtain ⟨k1, k2, k3⟩ := ref_clearAll_keeps cfg (docsOf db collectionName)
    ((mkWorld db p).record db (.getDocs collectionName true)) y hden
  have hfail := ref_clearAll_failed cfg (docsOf db collectionName)
    ((mkWorld db p).record db (.getDocs collectionName true)) y hden hy
  have hxd2 : x ∉ ((docsOf db collectionName).foldl
      (fun acc d => clearFlag (refBackend cfg) d acc)
      ((mkWorld db p).record db (.getDocs collectionName true))).store.denied := by
    rw [k1]
    exact hxd
  have hx2 : x ∈ (docsOf ((docsOf db collectionName).foldl
      (fun acc d => clearFlag (refBackend cfg) d acc)
      ((mkWorld db p).record db (.getDocs collectionName true))).store
      collectionName).map Prod.fst := by
    rw [k2]
    exact hx
  have hcall := ref_callUpdateDoc_allowed cfg collectionName x true _ hxd2 hx2
  rw [hcall] at hs hl ha
  have hy2 := k3 hy
  have hdocs : docsOf (setAsProfile (refBackend cfg) x (mkWorld db p)).store collectionName =
      setFlag (docsOf ((docsOf db collectionName).foldl
        (fun acc d => clearFlag (refBackend cfg) d acc)
        ((mkWorld db p).record db (.getDocs collectionName true))).store collectionName)
        x true := by
    rw [hs]
    exact (docsOf_putKey _ collectionName collectionName _).trans (if_pos rfl)
  have hxf : x ∈ flaggedIds (docsOf (setAsProfile (refBackend cfg) x
      (mkWorld db p)).store collectionName) := by
    rw [hdocs]
    exact flaggedIds_setFlag_self _ x hx2
  have hyf : y ∈ flaggedIds (docsOf (setAsProfile (refBackend cfg) x
      (mkWorld db p)).store collectionName) := by
    rw [hdocs]
    exact flaggedIds_setFlag_ne _ _ _ _ hy2 hne
  refine ⟨?_, ?_, ha, hxf, hyf, two_le_length_of_mem _ x y hxf hyf hne⟩
  · rw [hl]
    show _ ∈ _ ++ [_]
    exact List.mem_append_left _ hfail
  · rw [hl]
    show (_ ++ [_]).getLast? = _
    rw [List.getLast?_append]
    rfl

theorem setAsProfile_unobserved_witness :
    Call.updateDoc collectionName "img1".toList false false ∈
        (setAsProfile (refBackend Projects.demoConfig) "img2".toList
          (mkWorld lockedDb initialPanel)).log ∧
      (setAsProfile (refBackend Projects.demoConfig) "img2".toList
          (mkWorld lockedDb initialPanel)).log.getLast? =
        some (Call.updateDoc collectionName "img2".toList true true) ∧
      (setAsProfile (refBackend Projects.demoConfig) "img2".toList
          (mkWorld lockedDb initialPanel)).ui.alerts =
        initialPanel.alerts ++ ["Profile photo updated!"] ∧
      "img2".toList ∈ flaggedIds (docsOf (setAsProfile (refBackend Projects.demoConfig)
        "img2".toList (mkWorld lockedDb initialPanel)).store collectionName) ∧
      "img1".toList ∈ flaggedIds (docsOf (setAsProfile (refBackend Projects.demoConfig)
        "img2".toList (mkWorld lockedDb initialPanel)).store collectionName) ∧
      2 ≤ (flaggedIds (docsOf (setAsProfile (refBackend Projects.demoConfig)
        "img2".toList (mkWorld lockedDb initialPanel)).store collectionName)).length :=
  setAsProfile_unobserved Projects.demoConfig lockedDb initialPanel "img2".toList
    "img1".toList (by decide) (by decide) (by decide) (by decide) (by decide)

/-! ## Uploads -/

theorem foldl_progress {σ : Type} (l : List Nat) (w : World σ) :
    (l.foldl (fun acc pc => { acc with ui := { acc.ui with progress := pc } }) w).log = w.log ∧
    (l.foldl (fun acc pc => { acc with ui := { acc.ui with progress := pc } }) w).store =
      w.store ∧
    (l.foldl (fun acc pc => { acc with ui := { acc.ui with progress := pc } }) w).ui =
      { w.ui with progress := (l.getLast?).getD w.ui.progress } := by
  induction l generalizing w with
  | nil => exact ⟨rfl, rfl, rfl⟩
  | cons a l ih =>
    rw [List.foldl_cons]
    obtain ⟨h1, h2, h3⟩ := ih { w with ui := { w.ui with progress := a } }
    refine ⟨h1, h2, ?_⟩
    rw [h3]
    cases l with
    | nil => rfl
    | cons b l =>
      have h4 : (a :: b :: l).getLast? = (b :: l).getLast? := List.getLast?_cons_cons
      obtain ⟨z, hz⟩ : ∃ z, (b :: l).getLast? = some z :=
        ⟨_, List.getLast?_eq_getLast _ (List.cons_ne_nil b l)⟩
      rw [h4, hz]
      rfl

theorem afterProgress_eq {σ : Type} (task : UploadTask) (w : World σ) :
    (afterProgress task w).log = w.log ∧ (afterProgress task w).store = w.store ∧
      (afterProgress task w).ui =
        { w.ui with uploading := true,
                    progress := (task.progress.getLast?).getD w.ui.progress } := by
  unfold afterProgress
  obtain ⟨h1, h2, h3⟩ := foldl_progress task.progress
    { w with ui := { w.ui with uploading := true } }
  exact ⟨h1, h2, h3⟩

/-- The run of `handleUpload` on a file, by the outcome of the transfer, of the
look-up of the access URL and of the insert. -/
theorem handleUpload_eq {σ : Type} (B : Backend σ) (f : JsFile) (w : World σ) :
    handleUpload B (some f) w =
      match (uploaded B f w).1.result with
      | .error e =>
        { (uploaded B f w).2 with
          ui := { (uploaded B f w).2.ui with
            console := (uploaded B f w).2.ui.console ++ [e.msg], uploading := false } }
      | .ok _ =>
        match callGetDownloadURL B (uploadPath (B.now w.store).1 f.name) (uploaded B f w).2 with
        | (.error _, w4) => { w4 with ui := { w4.ui with unhandled := w4.ui.unhandled + 1 } }
        | (.ok url, w4) =>
          match callAddDoc B collectionName
            ⟨url, uploadPath (B.now w.store).1 f.name, false⟩ w4 with
          | (.error _, w5) => { w5 with ui := { w5.ui with unhandled := w5.ui.unhandled + 1 } }
          | (.ok _, w5) => { w5 with ui := { w5.ui with uploading := false, progress := 0 } } :=
  rfl

theorem getDownloadURL_logged {σ : Type} (B : Backend σ) (path : Str) (w : World σ) :
    callGetDownloadURL B path w =
      ((B.getDownloadURL path w.store).1,
        w.record (B.getDownloadURL path w.store).2
          (.getDownloadURL path (isOk (B.getDownloadURL path w.store).1))) := rfl

theorem callAddDoc_eq {σ : Type} (B : Backend σ) (coll : Str) (data : NewImage)
    (w : World σ) :
    callAddDoc B coll data w =
      ((B.addDoc coll data w.store).1,
        w.record (B.addDoc coll data w.store).2
          (.addDoc coll data (isOk (B.addDoc coll data w.store).1))) := rfl

theorem uploaded_eq {σ : Type} (B : Backend σ) (f : JsFile) (w : World σ) :
    (uploaded B f w).2.log =
        w.log ++ [Call.uploadBytes (uploadPath (B.now w.store).1 f.name) f.bytes
          (isOk (uploaded B f w).1.result)] ∧
      (uploaded B f w).2.ui =
        { w.ui with uploading := true,
                    progress := ((uploaded B f w).1.progress.getLast?).getD w.ui.progress } := by
  obtain ⟨h1, _, h3⟩ := afterProgress_eq
    (callUpload B (uploadPath (B.now w.store).1 f.name) f.bytes
      { w with store := (B.now w.store).2 }).1
    (callUpload B (uploadPath (B.now w.store).1 f.name) f.bytes
      { w with store := (B.now w.store).2 }).2
  exact ⟨h1, h3⟩

/-- The calls of `handleUpload`, by outcome, for every backend. -/
theorem handleUpload_log {σ : Type} (B : Backend σ) (f : JsFile) (w : World σ) :
    (∀ e, (uploaded B f w).1.result = .error e →
      (handleUpload B (some f) w).log = (uploaded B f w).2.log) ∧
    ((uploaded B f w).1.result = .ok () →
      (∀ e, (B.getDownloadURL (uploadPath (B.now w.store).1 f.name)
          (uploaded B f w).2.store).1 = .error e →
        (handleUpload B (some f) w).log = (uploaded B f w).2.log ++
          [Call.getDownloadURL (uploadPath (B.now w.store).1 f.name) false]) ∧
      (∀ url, (B.getDownloadURL (uploadPath (B.now w.store).1 f.name)
          (uploaded B f w).2.store).1 = .ok url →
        (handleUpload B (some f) w).log = (uploaded B f w).2.log ++
          [Call.getDownloadURL (uploadPath (B.now w.store).1 f.name) true,
           Call.addDoc collectionName ⟨url, uploadPath (B.now w.store).1 f.name, false⟩
            (isOk (B.addDoc collectionName
              ⟨url, uploadPath (B.now w.store).1 f.name, false⟩
              (B.getDownloadURL (uploadPath (B.now w.store).1 f.name)
                (uploaded B f w).2.store).2).1)])) := by
  refine ⟨fun e he => ?_, fun hok => ⟨fun e he => ?_, fun url hu => ?_⟩⟩
  · rw [handleUpload_eq, he]
  · rw [handleUpload_eq, hok]
    dsimp only
    rw [getDownloadURL_logged, he]
    rfl
  · rw [handleUpload_eq, hok]
    dsimp only
    rw [getDownloadURL_logged, hu]
    dsimp only
    rw [callAddDoc_eq]
    cases hadd : (B.addDoc collectionName ⟨url, uploadPath (B.now w.store).1 f.name, false⟩
        ((uploaded B f w).2.record
          (B.getDownloadURL (uploadPath (B.now w.store).1 f.name) (uploaded B f w).2.store).2
          (Call.getDownloadURL (uploadPath (B.now w.store).1 f.name)
            (isOk (Except.ok url : Except JsError Str)))).store).1 with
    | error e =>
      have hadd2 : (B.addDoc collectionName
          ⟨url, uploadPath (B.now w.store).1 f.name, false⟩
          (B.getDownloadURL (uploadPath (B.now w.store).1 f.name)
            (uploaded B f w).2.store).2).1 = .error e := hadd
      rw [hadd2]
      show ((uploaded B f w).2.log ++ [_]) ++ [_] = _
      simp [isOk]
    | ok id =>
      have hadd2 : (B.addDoc collectionName
          ⟨url, uploadPath (B.now w.store).1 f.name, false⟩
          (B.getDownloadURL (uploadPath (B.now w.store).1 f.name)
            (uploaded B f w).2.store).2).1 = .ok id := hadd
      rw [hadd2]
      show ((uploaded B f w).2.log ++ [_]) ++ [_] = _
      simp [isOk]

/-- An upload over the reference stores: the blob is stored, its URL is looked up,
and one document is appended. -/
theorem ref_handleUpload (cfg : Projects.RefConfig) (db : RefDb) (p : Panel) (f : JsFile) :
    handleUpload (refBackend cfg) (some f) (mkWorld db p) =
      { store :=
          { db with
            objects := putKey db.objects (uploadPath db.clock f.name) f.bytes,
            collections := putKey db.collections collectionName
              (docsOf db collectionName ++
                [(cfg.docId db.nextId,
                  ⟨cfg.urlOf (uploadPath db.clock f.name), uploadPath db.clock f.name,
                    db.clock, false⟩)]),
            nextId := db.nextId + 1, clock := db.clock + 1 },
        log := [Call.uploadBytes (uploadPath db.clock f.name) f.bytes true,
          Call.getDownloadURL (uploadPath db.clock f.name) true,
          Call.addDoc collectionName
            ⟨cfg.urlOf (uploadPath db.clock f.name), uploadPath db.clock f.name, false⟩ true],
        ui := { p with uploading := false, progress := 0 } } := by
  rw [handleUpload_eq]
  have hres : (uploaded (refBackend cfg) f (mkWorld db p)).1.result = .ok () := rfl
  rw [hres]
  dsimp only
  rw [getDownloadURL_logged]
  have hu : (refBackend cfg).getDownloadURL (uploadPath db.clock f.name)
      (uploaded (refBackend cfg) f (mkWorld db p)).2.store =
      (.ok (cfg.urlOf (uploadPath db.clock f.name)),
        (uploaded (refBackend cfg) f (mkWorld db p)).2.store) := by
    show (match getKey (putKey db.objects (uploadPath db.clock f.name) f.bytes)
        (uploadPath db.clock f.name) with
      | some _ => _
      | none => _) = _
    rw [getKey_putKey, if_pos rfl]
  have hnow : ((refBackend cfg).now (mkWorld db p).store).1 = db.clock := rfl
  rw [hnow, hu]
  rfl

/-- C21: for every backend, `handleUpload` first uploads the file to
"aboutGallery/uploads/<t>-<file.name>", `t` being `Date.now()`; when the transfer
fails, or the look-up of the access URL fails, nothing is inserted; when both
succeed it issues exactly one insert, into "aboutGallery", of a document whose
`storagePath` is that path, whose `url` is the access URL returned for it and
whose `isProfile` is false.  Over the reference stores the upload completes: the
blob is at that path, the collection is the old one followed by the new document,
and the flagged documents are the same as before. -/
theorem handleUpload_inserts {σ : Type} (B : Backend σ) (f : JsFile) (w : World σ)
    (cfg : Projects.RefConfig) (db : RefDb) (p : Panel) :
    ((uploaded B f w).2.log =
        w.log ++ [Call.uploadBytes (uploadPath (B.now w.store).1 f.name) f.bytes
          (isOk (uploaded B f w).1.result)] ∧
      (∀ e, (uploaded B f w).1.result = .error e →
        (handleUpload B (some f) w).log = (uploaded B f w).2.log) ∧
      ((uploaded B f w).1.result = .ok () →
        (∀ e, (B.getDownloadURL (uploadPath (B.now w.store).1 f.name)
            (uploaded B f w).2.store).1 = .error e →
          (handleUpload B (some f) w).log = (uploaded B f w).2.log ++
            [Call.getDownloadURL (uploadPath (B.now w.store).1 f.name) false]) ∧
        (∀ url, (B.getDownloadURL (uploadPath (B.now w.store).1 f.name)
            (uploaded B f w).2.store).1 = .ok url →
          (handleUpload B (some f) w).log = (uploaded B f w).2.log ++
            [Call.getDownloadURL (uploadPath (B.now w.store).1 f.name) true,
             Call.addDoc collectionName ⟨url, uploadPath (B.now w.store).1 f.name, false⟩
              (isOk (B.addDoc collectionName
                ⟨url, uploadPath (B.now w.store).1 f.name, false⟩
                (B.getDownloadURL (uploadPath (B.now w.store).1 f.name)
                  (uploaded B f w).2.store).2).1)]))) ∧
    ((handleUpload (refBackend cfg) (some f) (mkWorld db p)).log =
        [Call.uploadBytes (uploadPath db.clock f.name) f.bytes true,
          Call.getDownloadURL (uploadPath db.clock f.name) true,
          Call.addDoc collectionName
            ⟨cfg.urlOf (uploadPath db.clock f.name), uploadPath db.clock f.name, false⟩ true] ∧
      getKey (handleUpload (refBackend cfg) (some f) (mkWorld db p)).store.objects
        (uploadPath db.clock f.name) = some f.bytes ∧
      docsOf (handleUpload (refBackend cfg) (some f) (mkWorld db p)).store collectionName =
        docsOf db collectionName ++
          [(cfg.docId db.nextId,
            ⟨cfg.urlOf (uploadPath db.clock f.name), uploadPath db.clock f.name,
              db.clock, false⟩)] ∧
      flaggedIds (docsOf (handleUpload (refBackend cfg) (some f) (mkWorld db p)).store
        collectionName) = flaggedIds (docsOf db collectionName)) := by
  refine ⟨⟨(uploaded_eq B f w).1, (handleUpload_log B f w).1, (handleUpload_log B f w).2⟩, ?_⟩
  rw [ref_handleUpload]
  have hdocs : docsOf
      { db with
        objects := putKey db.objects (uploadPath db.clock f.name) f.bytes,
        collections := putKey db.collections collectionName
          (docsOf db collectionName ++
            [(cfg.docId db.nextId,
              ⟨cfg.urlOf (uploadPath db.clock f.name), uploadPath db.clock f.name,
                db.clock, false⟩)]),
        nextId := db.nextId + 1, clock := db.clock + 1 } collectionName =
      docsOf db collectionName ++
        [(cfg.docId db.nextId,
          ⟨cfg.urlOf (uploadPath db.clock f.name), uploadPath db.clock f.name,
            db.clock, false⟩)] := by
    unfold docsOf
    dsimp only
    rw [getKey_putKey, if_pos rfl]
    rfl
  refine ⟨rfl, ?_, hdocs, ?_⟩
  · show getKey (putKey db.objects _ _) _ = _
    rw [getKey_putKey, if_pos rfl]
  · dsimp only
    rw [hdocs]
    simp [flaggedIds, List.filter_append]

/-! ## Deletes -/

theorem callDeleteObject_eq {σ : Type} (B : Backend σ) (path : Str) (w : World σ) :
    callDeleteObject B path w =
      ((B.deleteObject path w.store).1,
        w.record (B.deleteObject path w.store).2
          (.deleteObject path (isOk (B.deleteObject path w.store).1))) := rfl

theorem callDeleteDoc_eq {σ : Type} (B : Backend σ) (coll id : Str) (w : World σ) :
    callDeleteDoc B coll id w =
      ((B.deleteDoc coll id w.store).1,
        w.record (B.deleteDoc coll id w.store).2
          (.deleteDoc coll id (isOk (B.deleteDoc coll id w.store).1))) := rfl

/-- A confirmed delete whose blob deletion fails stops there. -/
theorem handleDelete_blob_failed {σ : Type} (B : Backend σ) (item : Str × ImageData)
    (w : World σ) (e : JsError) (h : (B.deleteObject item.2.storagePath w.store).1 = .error e) :
    (handleDelete B true item w).log =
        w.log ++ [Call.deleteObject item.2.storagePath false] ∧
      (handleDelete B true item w).store = (B.deleteObject item.2.storagePath w.store).2 := by
  unfold handleDelete
  rw [if_pos rfl, callDeleteObject_eq, h]
  exact ⟨rfl, rfl⟩

/-- A confirmed delete whose blob deletion succeeds goes on to delete the document. -/
theorem handleDelete_blob_ok {σ : Type} (B : Backend σ) (item : Str × ImageData)
    (w : World σ) (h : (B.deleteObject item.2.storagePath w.store).1 = .ok ()) :
    (handleDelete B true item w).log =
        w.log ++ [Call.deleteObject item.2.storagePath true,
          Call.deleteDoc collectionName item.1
            (isOk (B.deleteDoc collectionName item.1
              (B.deleteObject item.2.storagePath w.store).2).1)] ∧
      (handleDelete B true item w).store =
        (B.deleteDoc collectionName item.1 (B.deleteObject item.2.storagePath w.store).2).2 := by
  unfold handleDelete
  rw [if_pos rfl, callDeleteObject_eq, h]
  dsimp only
  rw [callDeleteDoc_eq]
  cases hd : (B.deleteDoc collectionName item.1
      (w.record (B.deleteObject item.2.storagePath w.store).2
        (Call.deleteObject item.2.storagePath (isOk (Except.ok () : Except JsError Unit)))).store).1 with
  | error e2 =>
    have hd2 : (B.deleteDoc collectionName item.1
        (B.deleteObject item.2.storagePath w.store).2).1 = .error e2 := hd
    rw [hd2]
    refine ⟨?_, rfl⟩
    show (w.log ++ [_]) ++ [_] = _
    simp [isOk]
  | ok u =>
    have hd2 : (B.deleteDoc collectionName item.1
        (B.deleteObject item.2.storagePath w.store).2).1 = .ok u := hd
    rw [hd2]
    refine ⟨?_, rfl⟩
    show (w.log ++ [_]) ++ [_] = _
    simp [isOk]

theorem not_mem_eraseKey {α : Type} (m : List (Str × α)) (k : Str) :
    k ∉ (eraseKey m k).map Prod.fst := by
  unfold eraseKey
  intro h
  obtain ⟨e, he, hk⟩ := List.mem_map.mp h
  have h2 := (List.mem_filter.mp he).2
  simp [hk] at h2

/-- C22: for every backend and every gallery item: a delete that is not confirmed
does nothing; a confirmed delete first deletes the blob at `item.storagePath`,
and only when that succeeds deletes the document `item.id` of "aboutGallery"; when
the blob deletion fails no `deleteDoc` is issued.  Over the reference stores:
when the blob is there, afterwards it is gone and the collection is the old one
without `item.id`; when it is not there (the deletion fails), the store is
unchanged.  Both cases are evaluated for `img1`. -/
theorem handleDelete_removes {σ : Type} (B : Backend σ) (item : Str × ImageData)
    (w : World σ) (cfg : Projects.RefConfig) (db : RefDb) (p : Panel) :
    (handleDelete B false item w = w ∧
      (∀ e, (B.deleteObject item.2.storagePath w.store).1 = .error e →
        (handleDelete B true item w).log =
            w.log ++ [Call.deleteObject item.2.storagePath false] ∧
          (handleDelete B true item w).store =
            (B.deleteObject item.2.storagePath w.store).2) ∧
      ((B.deleteObject item.2.storagePath w.store).1 = .ok () →
        (handleDelete B true item w).log =
            w.log ++ [Call.deleteObject item.2.storagePath true,
              Call.deleteDoc collectionName item.1
                (isOk (B.deleteDoc collectionName item.1
                  (B.deleteObject item.2.storagePath w.store).2).1)] ∧
          (handleDelete B true item w).store =
            (B.deleteDoc collectionName item.1
              (B.deleteObject item.2.storagePath w.store).2).2)) ∧
    ((∀ blob, getKey db.objects item.2.storagePath = some blob →
        (handleDelete (refBackend cfg) true item (mkWorld db p)).log =
            [Call.deleteObject item.2.storagePath true,
              Call.deleteDoc collectionName item.1 true] ∧
          getKey (handleDelete (refBackend cfg) true item (mkWorld db p)).store.objects
            item.2.storagePath = none ∧
          docsOf (handleDelete (refBackend cfg) true item (mkWorld db p)).store
            collectionName = eraseKey (docsOf db collectionName) item.1 ∧
          item.1 ∉ (docsOf (handleDelete (refBackend cfg) true item (mkWorld db p)).store
            collectionName).map Prod.fst) ∧
      (getKey db.objects item.2.storagePath = none →
        (handleDelete (refBackend cfg) true item (mkWorld db p)).log =
            [Call.deleteObject item.2.storagePath false] ∧
          (handleDelete (refBackend cfg) true item (mkWorld db p)).store = db)) ∧
    ((docsOf (handleDelete (refBackend Projects.demoConfig) true img1
          (mkWorld storedDb initialPanel)).store collectionName).map Prod.fst =
        ["img2".toList] ∧
      (handleDelete (refBackend Projects.demoConfig) true img1
          (mkWorld storedDb initialPanel)).store.objects = [] ∧
      (handleDelete (refBackend Projects.demoConfig) true img1
          (mkWorld sampleDb initialPanel)).store = sampleDb) := by
  refine ⟨⟨rfl, fun e he => handleDelete_blob_failed B item w e he,
    fun h => handleDelete_blob_ok B item w h⟩, ⟨fun blob hb => ?_, fun hb => ?_⟩,
    by decide, by decide, by decide⟩
  · have hdel : (refBackend cfg).deleteObject item.2.storagePath (mkWorld db p).store =
        (.ok (), { db with objects := eraseKey db.objects item.2.storagePath }) := by
      show (match getKey db.objects item.2.storagePath with
        | some _ => _
        | none => _) = _
      rw [hb]
      rfl
    obtain ⟨h1, h2⟩ := handleDelete_blob_ok (refBackend cfg) item (mkWorld db p)
      (by rw [hdel])
    rw [h1, h2, hdel]
    have hdocs : docsOf ((refBackend cfg).deleteDoc collectionName item.1
        { db with objects := eraseKey db.objects item.2.storagePath }).2 collectionName =
        eraseKey (docsOf db collectionName) item.1 := by
      exact (docsOf_putKey _ collectionName collectionName _).trans (if_pos rfl)
    refine ⟨rfl, ?_, hdocs, ?_⟩
    · show getKey (eraseKey db.objects item.2.storagePath) item.2.storagePath = none
      rw [getKey_eraseKey, if_pos rfl]
    · rw [hdocs]
      exact not_mem_eraseKey _ _
  · have hdel : (refBackend cfg).deleteObject item.2.storagePath (mkWorld db p).store =
        (.error ⟨"storage/object-not-found"⟩, db) := by
      show (match getKey db.objects item.2.storagePath with
        | some _ => _
        | none => _) = _
      rw [hb]
      rfl
    obtain ⟨h1, h2⟩ := handleDelete_blob_failed (refBackend cfg) item (mkWorld db p) _
      (by rw [hdel])
    rw [h1, h2, hdel]
    exact ⟨rfl, rfl⟩

end Gallery

/-! # Theorems on the projects panel: upload failures, the edit form -/

namespace Projects

section UploadFailures
variable {σ : Type}

theorem uploadFileWithProgress_eq (B : Backend σ) (f : JsFile) (projectId : Option Str)
    (type : Slot) (index : Option Nat) (w : World σ) :
    uploadFileWithProgress B (some f) projectId type index w =
      match (uploadedTask B f projectId type index w).1.result with
      | .error e =>
        (.error e,
          (uploadedTask B f projectId type index w).2.setUi (setUploadState type index false 0))
      | .ok _ =>
        match callGetDownloadURL B (uploadPath projectId type (callUuid B w).1)
          (uploadedTask B f projectId type index w).2 with
        | (.ok url, w5) =>
          (.ok (url, uploadPath projectId type (callUuid B w).1),
            w5.setUi (setUploadState type index false 100))
        | (.error e, w5) => (.error e, w5) := rfl

theorem foldl_setUi_ui (l : List Nat) (g : Nat → Panel → Panel) (w : World σ) :
    (l.foldl (fun acc pc => acc.setUi (g pc)) w).ui = l.foldl (fun p pc => g pc p) w.ui := by
  induction l generalizing w with
  | nil => rfl
  | cons a t ih => simp only [List.foldl_cons]; rw [ih]; rfl

theorem lookup_setKey {α : Type} (m : List (Nat × α)) (k : Nat) (v : α) :
    (setKey m k v).lookup k = some v := by
  simp [setKey, List.lookup]

theorem setUploadState_flags (type : Slot) (index : Option Nat) (b : Bool) (n : Nat)
    (p : Panel) (htr : tracked type index = true) :
    uploadingFlag type index (setUploadState type index b n p) = some b ∧
      progressOf type index (setUploadState type index b n p) = some n := by
  cases type with
  | main => exact ⟨rfl, rfl⟩
  | gallery =>
    cases index with
    | none => simp [tracked] at htr
    | some i => exact ⟨lookup_setKey _ _ _, lookup_setKey _ _ _⟩

theorem setProgress_flags (type : Slot) (index : Option Nat) (pc : Nat) (p : Panel)
    (htr : tracked type index = true) :
    uploadingFlag type index (setProgress type index pc p) = uploadingFlag type index p ∧
      progressOf type index (setProgress type index pc p) = some pc := by
  cases type with
  | main => exact ⟨rfl, rfl⟩
  | gallery =>
    cases index with
    | none => simp [tracked] at htr
    | some i => exact ⟨rfl, lookup_setKey _ _ _⟩

theorem getLast?_cons_getD {α : Type} (a d : α) (l : List α) :
    ((a :: l).getLast?).getD d = (l.getLast?).getD a := by
  cases l with
  | nil => rfl
  | cons b l =>
    have h4 : (a :: b :: l).getLast? = (b :: l).getLast? := List.getLast?_cons_cons
    obtain ⟨z, hz⟩ : ∃ z, (b :: l).getLast? = some z :=
      ⟨_, List.getLast?_eq_getLast _ (List.cons_ne_nil b l)⟩
    rw [h4, hz]
    rfl

theorem foldl_setProgress_flags (type : Slot) (index : Option Nat)
    (htr : tracked type index = true) (l : List Nat) (p : Panel) (d : Nat)
    (hd : progressOf type index p = some d) :
    uploadingFlag type index (l.foldl (fun q pc => setProgress type index pc q) p) =
        uploadingFlag type index p ∧
      progressOf type index (l.foldl (fun q pc => setProgress type index pc q) p) =
        some ((l.getLast?).getD d) := by
  induction l generalizing p d with
  | nil => exact ⟨rfl, hd⟩
  | cons a l ih =>
    obtain ⟨h1, h2⟩ := setProgress_flags type index a p htr
    obtain ⟨k1, k2⟩ := ih (setProgress type index a p) a h2
    rw [List.foldl_cons, getLast?_cons_getD]
    exact ⟨k1.trans h1, k2⟩

/-- The indicators when the upload task has ended: the flag is set and the progress
is the last percentage reported (zero when none was). -/
theorem uploadedTask_flags (B : Backend σ) (f : JsFile) (projectId : Option Str)
    (type : Slot) (index : Option Nat) (w : World σ) (htr : tracked type index = true) :
    uploadingFlag type index (uploadedTask B f projectId type index w).2.ui = some true ∧
      progressOf type index (uploadedTask B f projectId type index w).2.ui =
        some (((uploadedTask B f projectId type index w).1.progress.getLast?).getD 0) := by
  unfold uploadedTask
  dsimp only
  rw [foldl_setUi_ui]
  obtain ⟨h1, h2⟩ := setUploadState_flags type index true 0
    (callUpload B (uploadPath projectId type (callUuid B w).1) f.bytes (callUuid B w).2).2.ui htr
  obtain ⟨k1, k2⟩ := foldl_setProgress_flags type index htr
    (callUpload B (uploadPath projectId type (callUuid B w).1) f.bytes
      (callUuid B w).2).1.progress _ 0 h2
  exact ⟨k1.trans h1, k2⟩

theorem handleUpload_transfer_failed {τ : Type} (G : Gallery.Backend τ) (gf : JsFile)
    (gw : Gallery.World τ) (e : JsError) (he : (Gallery.uploaded G gf gw).1.result = .error e) :
    (Gallery.handleUpload G (some gf) gw).ui.uploading = false ∧
      (Gallery.handleUpload G (some gf) gw).ui.progress =
        ((Gallery.uploaded G gf gw).1.progress.getLast?).getD gw.ui.progress := by
  rw [Gallery.handleUpload_eq, he]
  refine ⟨rfl, ?_⟩
  show (Gallery.uploaded G gf gw).2.ui.progress = _
  rw [(Gallery.uploaded_eq G gf gw).2]

theorem handleUpload_url_failed {τ : Type} (G : Gallery.Backend τ) (gf : JsFile)
    (gw : Gallery.World τ) (e : JsError)
    (hok : (Gallery.uploaded G gf gw).1.result = .ok ())
    (he : (G.getDownloadURL (Gallery.uploadPath (G.now gw.store).1 gf.name)
      (Gallery.uploaded G gf gw).2.store).1 = .error e) :
    (Gallery.handleUpload G (some gf) gw).ui.uploading = true ∧
      (Gallery.handleUpload G (some gf) gw).ui.progress =
        ((Gallery.uploaded G gf gw).1.progress.getLast?).getD gw.ui.progress ∧
      (Gallery.handleUpload G (some gf) gw).ui.unhandled = gw.ui.unhandled + 1 := by
  rw [Gallery.handleUpload_eq, hok]
  dsimp only
  rw [Gallery.getDownloadURL_logged, he]
  have hui := (Gallery.uploaded_eq G gf gw).2
  refine ⟨?_, ?_, ?_⟩
  · show (Gallery.uploaded G gf gw).2.ui.uploading = _
    rw [hui]
  · show (Gallery.uploaded G gf gw).2.ui.progress = _
    rw [hui]
  · show (Gallery.uploaded G gf gw).2.ui.unhandled + 1 = _
    rw [hui]

/-- C26 (as the code behaves): for every backend.  In `uploadFileWithProgress`, for the
main slot and for a gallery upload with an index: when the transfer fails the
promise rejects, the uploading flag is cleared and the progress is reset to zero;
when the transfer succeeds and the look-up of the access URL fails the promise
rejects but the uploading flag stays set and the progress stays at the last
percentage reported.  In the gallery manager's `handleUpload`: when the transfer
fails the uploading flag is cleared but the progress keeps its last value; when
the look-up of the access URL fails the uploading flag stays set, the progress
keeps its last value and the rejection is unhandled. -/
theorem upload_failure_state (B : Backend σ) (f : JsFile) (projectId : Option Str)
    (type : Slot) (index : Option Nat) (w : World σ) (htr : tracked type index = true)
    {τ : Type} (G : Gallery.Backend τ) (gf : JsFile) (gw : Gallery.World τ) :
    (∀ e, (uploadedTask B f projectId type index w).1.result = .error e →
      (uploadFileWithProgress B (some f) projectId type index w).1 = .error e ∧
      uploadingFlag type index
        (uploadFileWithProgress B (some f) projectId type index w).2.ui = some false ∧
      progressOf type index
        (uploadFileWithProgress B (some f) projectId type index w).2.ui = some 0) ∧
    ((uploadedTask B f projectId type index w).1.result = .ok () →
      ∀ e, (B.getDownloadURL (uploadPath projectId type (callUuid B w).1)
          (uploadedTask B f projectId type index w).2.store).1 = .error e →
        (uploadFileWithProgress B (some f) projectId type index w).1 = .error e ∧
        uploadingFlag type index
          (uploadFileWithProgress B (some f) projectId type index w).2.ui = some true ∧
        progressOf type index
          (uploadFileWithProgress B (some f) projectId type index w).2.ui =
            some (((uploadedTask B f projectId type index w).1.progress.getLast?).getD 0)) ∧
    (∀ e, (Gallery.uploaded G gf gw).1.result = .error e →
      (Gallery.handleUpload G (some gf) gw).ui.uploading = false ∧
      (Gallery.handleUpload G (some gf) gw).ui.progress =
        ((Gallery.uploaded G gf gw).1.progress.getLast?).getD gw.ui.progress) ∧
    ((Gallery.uploaded G gf gw).1.result = .ok () →
      ∀ e, (G.getDownloadURL (Gallery.uploadPath (G.now gw.store).1 gf.name)
          (Gallery.uploaded G gf gw).2.store).1 = .error e →
        (Gallery.handleUpload G (some gf) gw).ui.uploading = true ∧
        (Gallery.handleUpload G (some gf) gw).ui.progress =
          ((Gallery.uploaded G gf gw).1.progress.getLast?).getD gw.ui.progress ∧
        (Gallery.handleUpload G (some gf) gw).ui.unhandled = gw.ui.unhandled + 1) := by
  refine ⟨fun e he => ?_, fun hok e he => ?_,
    fun e he => handleUpload_transfer_failed G gf gw e he,
    fun hok e he => handleUpload_url_failed G gf gw e hok he⟩
  · rw [uploadFileWithProgress_eq, he]
    exact ⟨rfl, setUploadState_flags type index false 0 _ htr⟩
  · rw [uploadFileWithProgress_eq, hok]
    dsimp only
    rw [callGetDownloadURL_eq, he]
    exact ⟨rfl, uploadedTask_flags B f projectId type index w htr⟩

/-- C26 at a concrete input: a main-image upload over a store whose `getDownloadURL`
fails leaves `uploadingMain` set and `mainProgress` at 100 (the flag is still set
after `handleMainImageFileSelect`, whose `finally` block resets the progress
only); a gallery-manager upload whose transfer fails at 40 percent keeps the
progress at 40. -/
theorem upload_failure_state_witness :
    (uploadFileWithProgress (withFailingUrl (refBackend demoConfig))
        (some ⟨"a.png".toList, [7]⟩) none .main none (mkWorld emptyStore initialPanel)).2.ui.uploadingMain
      = true ∧
    (uploadFileWithProgress (withFailingUrl (refBackend demoConfig))
        (some ⟨"a.png".toList, [7]⟩) none .main none (mkWorld emptyStore initialPanel)).2.ui.mainProgress
      = 100 ∧
    (Gallery.handleUpload (Gallery.withFailingTransfer (Gallery.refBackend demoConfig))
        (some Gallery.sampleFile) (Gallery.mkWorld Gallery.sampleDb Gallery.initialPanel)).ui.progress
      = 40 ∧
    (handleMainImageFileSelect (withFailingUrl (refBackend demoConfig))
        (some ⟨"a.png".toList, [7]⟩) (mkWorld emptyStore initialPanel)).ui.uploadingMain = true :=
  have h := upload_failure_state (withFailingUrl (refBackend demoConfig))
    ⟨"a.png".toList, [7]⟩ none .main none (mkWorld emptyStore initialPanel) rfl
    (Gallery.withFailingTransfer (Gallery.refBackend demoConfig)) Gallery.sampleFile
    (Gallery.mkWorld Gallery.sampleDb Gallery.initialPanel)
  have h2 := h.2.1 rfl ⟨"storage/unauthorized"⟩ rfl
  have h3 := h.2.2.1 ⟨"storage/canceled"⟩ rfl
  ⟨Option.some.inj h2.2.1, Option.some.inj h2.2.2, h3.2, by decide⟩

end UploadFailures

/-! ## The edit form -/

theorem splitComma_no_comma (t : Str) (h : ',' ∉ t) : splitComma t = [t] := by
  induction t with
  | nil => rfl
  | cons c cs ih =>
    have hc : c ≠ ',' := fun e => h (e ▸ List.mem_cons_self _ _)
    have hcs : ',' ∉ cs := fun e => h (List.mem_cons_of_mem _ e)
    rw [splitComma, if_neg hc, ih hcs]

theorem splitComma_append (t r : Str) (h : ',' ∉ t) :
    splitComma (t ++ ',' :: r) = t :: splitComma r := by
  induction t with
  | nil =>
    show splitComma (',' :: r) = _
    rw [splitComma, if_pos rfl]
  | cons c cs ih =>
    have hc : c ≠ ',' := fun e => h (e ▸ List.mem_cons_self _ _)
    have hcs : ',' ∉ cs := fun e => h (List.mem_cons_of_mem _ e)
    rw [List.cons_append, splitComma, if_neg hc, ih hcs]

theorem splitComma_space (s : Str) (p : Str) (ps : List Str) (h : splitComma s = p :: ps) :
    splitComma (' ' :: s) = (' ' :: p) :: ps := by
  rw [splitComma, if_neg (by decide), h]

theorem splitComma_join (rest : List Str) :
    ∀ x : Str, (∀ t ∈ x :: rest, ',' ∉ t) →
      splitComma (join ", ".toList (x :: rest)) = x :: rest.map fun t => ' ' :: t := by
  induction rest with
  | nil =>
    intro x h
    exact splitComma_no_comma x (h x (List.mem_cons_self _ _))
  | cons y r ih =>
    intro x h
    have hx := h x (List.mem_cons_self _ _)
    have hrest : ∀ t ∈ y :: r, ',' ∉ t := fun t ht => h t (List.mem_cons_of_mem _ ht)
    have hj : join ", ".toList (x :: y :: r) = x ++ ',' :: (' ' :: join ", ".toList (y :: r)) := by
      rw [join]
      simp
    rw [hj, splitComma_append _ _ hx, splitComma_space _ _ _ (ih y hrest)]
    rfl

theorem trim_space_cons (t : Str) : trim (' ' :: t) = trim t := by
  unfold trim
  rw [List.dropWhile_cons_of_pos (by decide)]

theorem trim_of_noOuterSpace (t : Str) (h : noOuterSpace t = true) : trim t = t := by
  cases t with
  | nil => rfl
  | cons c cs =>
    unfold noOuterSpace at h
    rw [Bool.and_eq_true] at h
    obtain ⟨h1, h2⟩ := h
    have hc : ¬ isJsWhitespace c = true := by simpa using h1
    unfold trim
    rw [List.dropWhile_cons_of_neg hc, trimEnd_eq_rdropWhile, List.rdropWhile_eq_self_iff]
    intro hl
    rw [List.getLast?_eq_getLast _ hl] at h2
    simpa using h2

theorem filter_trim_nonblank (l : List Str) (h : ∀ g ∈ l, isBlank g = false) :
    l.filter (fun g => trim g != []) = l := by
  rw [List.filter_eq_self]
  intro g hg
  have hne : trim g ≠ [] := fun e => by
    have := (trim_eq_nil_iff g).1 e
    rw [h g hg] at this
    exact absurd this (by decide)
  simpa using hne

theorem filter_orBlankRow (l : List Str) (h : ∀ g ∈ l, isBlank g = false) :
    (orBlankRow (some l)).filter (fun g => trim g != []) = l := by
  cases l with
  | nil => decide
  | cons x xs => exact filter_trim_nonblank (x :: xs) h

theorem technologies_roundtrip (techs : List Str)
    (h : ∀ t ∈ techs, t ≠ [] ∧ ',' ∉ t ∧ noOuterSpace t = true) :
    ((splitComma (join ", ".toList techs)).map trim).filter (fun t => !t.isEmpty) = techs := by
  cases techs with
  | nil => decide
  | cons x rest =>
    rw [splitComma_join rest x (fun t ht => (h t ht).2.1)]
    have hmap : (x :: rest.map fun t => ' ' :: t).map trim = x :: rest := by
      rw [List.map_cons, trim_of_noOuterSpace x (h x (List.mem_cons_self _ _)).2.2,
        List.map_map]
      congr 1
      conv_rhs => rw [← List.map_id rest]
      apply List.map_congr_left
      intro t ht
      show trim (' ' :: t) = _
      rw [trim_space_cons, trim_of_noOuterSpace t (h t (List.mem_cons_of_mem _ ht)).2.2]
      rfl
    rw [hmap, List.filter_eq_self]
    intro t ht
    have hne := (h t ht).1
    cases t with
    | nil => exact absurd rfl hne
    | cons c cs => rfl

/-- C27: for every stored project whose `technologies` is an array of non-empty
strings without commas and without leading or trailing whitespace, and whose
`gallery` and `stages` are arrays of non-blank strings: the form `handleEdit`
fills, normalised as `handleSaveProject` does, has exactly the stored
technologies, gallery and stages. -/
theorem handleEdit_roundtrip (project : StoredProject) (p : Panel)
    (techs gallery stages : List Str)
    (ht : project.technologies = .list techs) (hg : project.gallery = some gallery)
    (hs : project.stages = some stages)
    (htech : ∀ t ∈ techs, t ≠ [] ∧ ',' ∉ t ∧ noOuterSpace t = true)
    (hgal : ∀ g ∈ gallery, isBlank g = false) (hst : ∀ g ∈ stages, isBlank g = false) :
    (formatFields (handleEdit project p).formData).technologies = techs ∧
      (formatFields (handleEdit project p).formData).gallery = gallery ∧
      (formatFields (handleEdit project p).formData).stages = stages := by
  unfold handleEdit formatFields
  dsimp only
  rw [ht, hg, hs]
  exact ⟨technologies_roundtrip techs htech, filter_orBlankRow gallery hgal,
    filter_orBlankRow stages hst⟩

theorem handleEdit_roundtrip_witness :
    (formatFields (handleEdit storedSample initialPanel).formData).technologies =
        ["React".toList, "Node JS".toList, "C#".toList] ∧
      (formatFields (handleEdit storedSample initialPanel).formData).gallery =
        ["https://x.test/a.png".toList] ∧
      (formatFields (handleEdit storedSample initialPanel).formData).stages =
        ["Design".toList, "Build it".toList] :=
  handleEdit_roundtrip storedSample initialPanel _ _ _ rfl rfl rfl
    (by decide) (by decide) (by decide)

end Projects

/-! # Theorems on the dashboard forms -/

namespace Docs

open Projects (Str JsError isOk)

theorem isOk_map {α β : Type} (r : Except JsError α) (g : α → β) :
    isOk (r.map g) = isOk r := by
  cases r <;> rfl

/-- The write of a save: its outcome, the one call it logs, the panel untouched. -/
theorem callWrite_spec {σ π : Type} (B : Backend σ) (coll : Str) (editing : Option Str)
    (data : Fields) (w : World σ π) :
    (callWrite B coll editing data w).1 = writeResult B coll editing data w.store ∧
      (callWrite B coll editing data w).2.ui = w.ui ∧
      (callWrite B coll editing data w).2.log =
        w.log ++ [writeCall coll editing data (isOk (writeResult B coll editing data w.store))] := by
  cases editing with
  | some id => exact ⟨rfl, rfl, rfl⟩
  | none =>
    refine ⟨rfl, rfl, ?_⟩
    show w.log ++ [_] = w.log ++ [_]
    unfold writeResult writeCall
    dsimp only
    rw [isOk_map]

end Docs

namespace SocialMedia

open Projects (Str JsError isOk)
open Docs (Fields Backend Call Toast World callWrite writeResult writeCall callWrite_spec)

theorem handleSave_invalid {σ : Type} (toLowerCase : Str → Str) (B : Backend σ)
    (w : World σ Panel) (h : w.ui.formData.name = [] ∨ w.ui.formData.url = []) :
    handleSave toLowerCase B w =
      (.ok (), { w with ui := { w.ui with
        toasts := w.ui.toasts ++ [.error "Platform name and URL are required."] } }) := by
  unfold handleSave
  rw [if_pos]
  rcases h with h | h <;> simp [h]

theorem handleSave_valid {σ : Type} (toLowerCase : Str → Str) (B : Backend σ)
    (w : World σ Panel) (hname : w.ui.formData.name ≠ []) (hurl : w.ui.formData.url ≠ []) :
    handleSave toLowerCase B w =
      match callWrite B collectionName (w.ui.editingLink.map fun l => l.id)
          (linkData toLowerCase w.ui.formData) w with
      | (.ok _, w1) =>
        (.ok (), { w1 with ui := { w1.ui with
          showForm := false, editingLink := none, formData := emptyForm } })
      | (.error _, w1) =>
        (.ok (), { w1 with ui := { w1.ui with
          toasts := w1.ui.toasts ++ [.error "Error saving link:"] } }) := by
  unfold handleSave
  rw [if_neg]
  simp [List.isEmpty_iff, hname, hurl]

/-- The calls of a save of a valid form: the one write. -/
theorem handleSave_log {σ : Type} (toLowerCase : Str → Str) (B : Backend σ)
    (w : World σ Panel) (hname : w.ui.formData.name ≠ []) (hurl : w.ui.formData.url ≠ []) :
    (handleSave toLowerCase B w).2.log =
      w.log ++ [writeCall collectionName (w.ui.editingLink.map fun l => l.id)
        (linkData toLowerCase w.ui.formData)
        (isOk (writeResult B collectionName (w.ui.editingLink.map fun l => l.id)
          (linkData toLowerCase w.ui.formData) w.store))] := by
  rw [handleSave_valid toLowerCase B w hname hurl]
  obtain ⟨_, _, h3⟩ := callWrite_spec B collectionName (w.ui.editingLink.map fun l => l.id)
    (linkData toLowerCase w.ui.formData) w
  cases hc : callWrite B collectionName (w.ui.editingLink.map fun l => l.id)
      (linkData toLowerCase w.ui.formData) w with
  | mk r w1 =>
    rw [hc] at h3
    cases r with
    | ok u => exact h3
    | error e => exact h3

/-- A save of a valid form whose write fails: an error toast, the promise resolves,
the form stays as it was. -/
theorem handleSave_failed {σ : Type} (toLowerCase : Str → Str) (B : Backend σ)
    (w : World σ Panel) (e : JsError)
    (hname : w.ui.formData.name ≠ []) (hurl : w.ui.formData.url ≠ [])
    (hfail : writeResult B collectionName (w.ui.editingLink.map fun l => l.id)
      (linkData toLowerCase w.ui.formData) w.store = .error e) :
    (handleSave toLowerCase B w).1 = .ok () ∧
      (handleSave toLowerCase B w).2.ui =
        { w.ui with toasts := w.ui.toasts ++ [.error "Error saving link:"] } := by
  rw [handleSave_valid toLowerCase B w hname hurl]
  obtain ⟨h1, h2, _⟩ := callWrite_spec B collectionName (w.ui.editingLink.map fun l => l.id)
    (linkData toLowerCase w.ui.formData) w
  cases hc : callWrite B collectionName (w.ui.editingLink.map fun l => l.id)
      (linkData toLowerCase w.ui.formData) w with
  | mk r w1 =>
    rw [hc] at h1 h2
    have hr : r = .error e := h1.trans hfail
    have hu : w1.ui = w.ui := h2
    subst hr
    refine ⟨rfl, ?_⟩
    rw [← hu]

/-- C23: for every form state `handleSave` accepts (name and url non-empty), for
every backend and whatever `toLowerCase` computes: the save issues exactly one
document write, an `updateDoc` of the edited link in the edit flow and an
`addDoc` in the add flow, both on "socialMedia", and the data written is exactly
the three fields `name` (the form's name lower-cased), `displayName` and `url`
(the form's values unchanged). -/
theorem handleSave_persists {σ : Type} (toLowerCase : Str → Str) (B : Backend σ)
    (w : World σ Panel) (hname : w.ui.formData.name ≠ []) (hurl : w.ui.formData.url ≠ []) :
    (∀ link, w.ui.editingLink = some link →
      ∃ ok, (handleSave toLowerCase B w).2.log =
        w.log ++ [Call.updateDoc "socialMedia".toList link.id
          [("name", toLowerCase w.ui.formData.name),
           ("displayName", w.ui.formData.displayName), ("url", w.ui.formData.url)] ok]) ∧
    (w.ui.editingLink = none →
      ∃ ok, (handleSave toLowerCase B w).2.log =
        w.log ++ [Call.addDoc "socialMedia".toList
          [("name", toLowerCase w.ui.formData.name),
           ("displayName", w.ui.formData.displayName), ("url", w.ui.formData.url)] ok]) := by
  have hlog := handleSave_log toLowerCase B w hname hurl
  constructor
  · intro link hl
    rw [hl] at hlog
    exact ⟨_, hlog⟩
  · intro hl
    rw [hl] at hlog
    exact ⟨_, hlog⟩

theorem handleSave_persists_witness :
    (∃ ok, (handleSave asciiLower Docs.accepting
        ⟨(), [], panelWith sampleForm (some sampleLink)⟩).2.log =
      [] ++ [Call.updateDoc "socialMedia".toList "l1".toList
        [("name", asciiLower "GitHub".toList), ("displayName", "My GitHub".toList),
         ("url", "https://github.com/Me".toList)] ok]) ∧
    (∃ ok, (handleSave asciiLower Docs.accepting ⟨(), [], panelWith sampleForm none⟩).2.log =
      [] ++ [Call.addDoc "socialMedia".toList
        [("name", asciiLower "GitHub".toList), ("displayName", "My GitHub".toList),
         ("url", "https://github.com/Me".toList)] ok]) ∧
    asciiLower "GitHub".toList = "github".toList :=
  ⟨(handleSave_persists asciiLower Docs.accepting
      ⟨(), [], panelWith sampleForm (some sampleLink)⟩ (by decide) (by decide)).1 sampleLink rfl,
   (handleSave_persists asciiLower Docs.accepting
      ⟨(), [], panelWith sampleForm none⟩ (by decide) (by decide)).2 rfl,
   by decide⟩

end SocialMedia

namespace Awards

open Projects (Str JsError isOk getKey)
open Docs (Fields Backend Call Toast World callWrite writeResult writeCall callWrite_spec
  resolve)

theorem saveAward_invalid {σ : Type} (currentYear : Nat) (B : Backend σ) (w : World σ Panel)
    (h : w.ui.formData.title = [] ∨ w.ui.formData.description = [] ∨
      w.ui.formData.year = []) :
    saveAward currentYear B w =
      (.ok (), { w with ui := { w.ui with
        toasts := w.ui.toasts ++ [.error "Please fill in all fields."] } }) := by
  unfold saveAward
  rw [if_pos]
  rcases h with h | h | h <;> simp [h]

theorem saveAward_valid {σ : Type} (currentYear : Nat) (B : Backend σ) (w : World σ Panel)
    (ht : w.ui.formData.title ≠ []) (hd : w.ui.formData.description ≠ [])
    (hy : w.ui.formData.year ≠ []) :
    saveAward currentYear B w =
      match callWrite B collectionName (w.ui.editingAward.map fun a => a.id)
          (awardData w.ui.formData)
          { w with ui := { w.ui with toasts := w.ui.toasts ++
            [.loading (if w.ui.editingAward.isSome then "Updating award..."
              else "Saving award...")] } } with
      | (.ok _, w1) =>
        (.ok (), { w1 with ui := { w1.ui with
          toasts := w1.ui.toasts ++
            [.success (if w.ui.editingAward.isSome then "Award updated!" else "Award added!")],
          showForm := false, editingAward := none, formData := freshForm currentYear } })
      | (.error _, w1) => saveAwardCatch w1 := by
  unfold saveAward
  rw [if_neg]
  simp [List.isEmpty_iff, ht, hd, hy]

theorem saveAwardCatch_eq {σ : Type} (w : World σ Panel) :
    saveAwardCatch w = (.error ⟨"ReferenceError: loading is not defined"⟩, w) := rfl

/-- A save of a valid form whose write fails: the `catch` block throws, so the
promise rejects and no error toast is raised. -/
theorem saveAward_failed {σ : Type} (currentYear : Nat) (B : Backend σ) (w : World σ Panel)
    (e : JsError) (ht : w.ui.formData.title ≠ []) (hd : w.ui.formData.description ≠ [])
    (hy : w.ui.formData.year ≠ [])
    (hfail : writeResult B collectionName (w.ui.editingAward.map fun a => a.id)
      (awardData w.ui.formData) w.store = .error e) :
    (saveAward currentYear B w).1 = .error ⟨"ReferenceError: loading is not defined"⟩ ∧
      (saveAward currentYear B w).2.ui =
        { w.ui with toasts := w.ui.toasts ++
          [Toast.loading (if w.ui.editingAward.isSome then "Updating award..."
            else "Saving award...")] } := by
  rw [saveAward_valid currentYear B w ht hd hy]
  obtain ⟨h1, h2, _⟩ := callWrite_spec B collectionName (w.ui.editingAward.map fun a => a.id)
    (awardData w.ui.formData)
    { w with ui := { w.ui with toasts := w.ui.toasts ++
      [Toast.loading (if w.ui.editingAward.isSome then "Updating award..."
        else "Saving award...")] } }
  cases hc : callWrite B collectionName (w.ui.editingAward.map fun a => a.id)
      (awardData w.ui.formData)
      { w with ui := { w.ui with toasts := w.ui.toasts ++
        [Toast.loading (if w.ui.editingAward.isSome then "Updating award..."
          else "Saving award...")] } } with
  | mk r w1 =>
    rw [hc] at h1 h2
    have hr : r = .error e := h1.trans hfail
    subst hr
    dsimp only
    rw [saveAwardCatch_eq]
    exact ⟨rfl, h2⟩

/-- C24: for every backend, when the title, the description or the year of the award
form is empty `saveAward` makes no store call, raises the error toast "Please
fill in all fields." and leaves the panel state as it was; when the name or the
url of the link form is empty `handleSave` makes no store call, raises the error
toast "Platform name and URL are required." and leaves the panel state as it
was.  Neither promise rejects. -/
theorem saveAward_validation {σ τ : Type} (currentYear : Nat) (B : Backend σ)
    (w : World σ Panel) (toLowerCase : Str → Str) (B2 : Backend τ)
    (w2 : World τ SocialMedia.Panel)
    (h : w.ui.formData.title = [] ∨ w.ui.formData.description = [] ∨ w.ui.formData.year = [])
    (h2 : w2.ui.formData.name = [] ∨ w2.ui.formData.url = []) :
    saveAward currentYear B w =
        (.ok (), { w with ui := { w.ui with
          toasts := w.ui.toasts ++ [.error "Please fill in all fields."] } }) ∧
      SocialMedia.handleSave toLowerCase B2 w2 =
        (.ok (), { w2 with ui := { w2.ui with
          toasts := w2.ui.toasts ++ [.error "Platform name and URL are required."] } }) :=
  ⟨saveAward_invalid currentYear B w h, SocialMedia.handleSave_invalid toLowerCase B2 w2 h2⟩

theorem saveAward_validation_witness :
    ((saveAward 2025 Docs.accepting
        ⟨(), [], panelWith { sampleForm with year := [] } none⟩).2.log = [] ∧
      (saveAward 2025 Docs.accepting
        ⟨(), [], panelWith { sampleForm with year := [] } none⟩).2.ui =
        { panelWith { sampleForm with year := [] } none with
          toasts := [.error "Please fill in all fields."] }) ∧
    ((SocialMedia.handleSave SocialMedia.asciiLower Docs.accepting
        ⟨(), [], SocialMedia.panelWith { SocialMedia.sampleForm with url := [] } none⟩).2.log
        = [] ∧
      (SocialMedia.handleSave SocialMedia.asciiLower Docs.accepting
        ⟨(), [], SocialMedia.panelWith { SocialMedia.sampleForm with url := [] } none⟩).2.ui =
        { SocialMedia.panelWith { SocialMedia.sampleForm with url := [] } none with
          toasts := [.error "Platform name and URL are required."] }) :=
  have h := saveAward_validation 2025 Docs.accepting
    ⟨(), [], panelWith { sampleForm with year := [] } none⟩ SocialMedia.asciiLower
    Docs.accepting
    ⟨(), [], SocialMedia.panelWith { SocialMedia.sampleForm with url := [] } none⟩
    (Or.inr (Or.inr rfl)) (Or.inr rfl)
  ⟨⟨congrArg (fun r => r.2.log) h.1, congrArg (fun r => r.2.ui) h.1⟩,
   ⟨congrArg (fun r => r.2.log) h.2, congrArg (fun r => r.2.ui) h.2⟩⟩

/-- C25 (as the code behaves): for every backend and every valid form.  When the
document write of `saveAward` fails, its `catch` block evaluates the identifier
`loading`, which is declared inside the `try` block and not bound there: a
ReferenceError is thrown, the promise of `saveAward` rejects with it, and no
error toast is raised (the loading toast is the last one).  When the write of the
social-media `handleSave` fails the promise resolves and the error toast
"Error saving link:" is raised; when a document write of `handleSaveProject`
fails the save is aborted with the alert "Save failed. See console.". -/
theorem save_failure_reporting {σ τ ρ : Type} (currentYear : Nat) (B : Backend σ)
    (w : World σ Panel) (toLowerCase : Str → Str) (B2 : Backend τ)
    (w2 : World τ SocialMedia.Panel) (PB : Projects.Backend ρ) (pw : Projects.World ρ)
    (ht : w.ui.formData.title ≠ []) (hd : w.ui.formData.description ≠ [])
    (hy : w.ui.formData.year ≠ [])
    (hname : w2.ui.formData.name ≠ []) (hurl : w2.ui.formData.url ≠ [])
    (hpn : Projects.trim pw.ui.formData.name ≠ [])
    (hpd : Projects.trim pw.ui.formData.description ≠ []) :
    (∀ e, writeResult B collectionName (w.ui.editingAward.map fun a => a.id)
        (awardData w.ui.formData) w.store = .error e →
      (saveAward currentYear B w).1 = .error ⟨"ReferenceError: loading is not defined"⟩ ∧
      (saveAward currentYear B w).2.ui =
        { w.ui with toasts := w.ui.toasts ++
          [.loading (if w.ui.editingAward.isSome then "Updating award..."
            else "Saving award...")] }) ∧
    (∀ e, writeResult B2 SocialMedia.collectionName (w2.ui.editingLink.map fun l => l.id)
        (SocialMedia.linkData toLowerCase w2.ui.formData) w2.store = .error e →
      (SocialMedia.handleSave toLowerCase B2 w2).1 = .ok () ∧
      (SocialMedia.handleSave toLowerCase B2 w2).2.ui =
        { w2.ui with toasts := w2.ui.toasts ++ [.error "Error saving link:"] }) ∧
    (∀ (id : Str) (e : JsError), pw.ui.editId = some id → id ≠ [] →
      (PB.updateDoc id ⟨Projects.formatFields pw.ui.formData, .updatedAt⟩ pw.store).1
        = .error e →
      Projects.SaveAborted pw (Projects.handleSaveProject PB pw)) ∧
    (∀ e : JsError, pw.ui.editId = none →
      (PB.addDoc ⟨Projects.formatFields pw.ui.formData, .createdAt⟩ pw.store).1 = .error e →
      Projects.SaveAborted pw (Projects.handleSaveProject PB pw)) ∧
    (∀ (id : Str) (e : JsError), pw.ui.editId = none →
      (PB.addDoc ⟨Projects.formatFields pw.ui.formData, .createdAt⟩ pw.store).1 = .ok id →
      (PB.updateDoc id ⟨(Projects.movedFor PB pw id).1, .updatedAt⟩
        (Projects.movedFor PB pw id).2.store).1 = .error e →
      Projects.SaveAborted pw (Projects.handleSaveProject PB pw)) :=
  ⟨fun e he => saveAward_failed currentYear B w e ht hd hy he,
   fun e he => SocialMedia.handleSave_failed toLowerCase B2 w2 e hname hurl he,
   fun id e hedit hid hupd =>
     (Projects.handleSaveProject_edit_failed PB pw id e hedit hid hpn hpd hupd).2,
   fun e hnew hadd => (Projects.handleSaveProject_insert_failed PB pw e hnew hpn hpd hadd).2,
   fun id e hnew hadd hupd =>
     (Projects.handleSaveProject_new_failed PB pw id e hnew hpn hpd hadd hupd).2⟩

/-- C25 at a concrete input: saving a new award, a new link and a new project over
stores whose writes fail. -/
theorem save_failure_reporting_witness :
    ((saveAward 2025 Docs.failing ⟨(), [], panelWith sampleForm none⟩).1 =
        .error ⟨"ReferenceError: loading is not defined"⟩ ∧
      (saveAward 2025 Docs.failing ⟨(), [], panelWith sampleForm none⟩).2.ui.toasts =
        [.loading "Saving award..."]) ∧
    ((SocialMedia.handleSave SocialMedia.asciiLower Docs.failing
        ⟨(), [], SocialMedia.panelWith SocialMedia.sampleForm none⟩).1 = .ok () ∧
      (SocialMedia.handleSave SocialMedia.asciiLower Docs.failing
        ⟨(), [], SocialMedia.panelWith SocialMedia.sampleForm none⟩).2.ui.toasts =
        [.error "Error saving link:"]) ∧
    (Projects.handleSaveProject (Projects.withFailingAdd (Projects.refBackend Projects.demoConfig))
        (Projects.mkWorld Projects.sampleStore
          (Projects.panelWith Projects.sampleForm none))).ui.alerts =
      ["Save failed. See console."] :=
  have h := save_failure_reporting 2025 Docs.failing ⟨(), [], panelWith sampleForm none⟩
    SocialMedia.asciiLower Docs.failing
    ⟨(), [], SocialMedia.panelWith SocialMedia.sampleForm none⟩
    (Projects.withFailingAdd (Projects.refBackend Projects.demoConfig))
    (Projects.mkWorld Projects.sampleStore (Projects.panelWith Projects.sampleForm none))
    (by decide) (by decide) (by decide) (by decide) (by decide) (by decide) (by decide)
  have h1 := h.1 ⟨"unavailable"⟩ rfl
  have h2 := h.2.1 ⟨"unavailable"⟩ rfl
  have h3 := h.2.2.2.1 ⟨"unavailable"⟩ rfl rfl
  ⟨⟨h1.1, congrArg Panel.toasts h1.2⟩, ⟨h2.1, congrArg SocialMedia.Panel.toasts h2.2⟩,
    h3.2.2.2.2⟩

end Awards

/-! # Theorems on the public awards section -/

namespace PortfolioAwards

open Projects (Str getKey truthy isJsWhitespace)

theorem shownIcon_outside (n : Str) (h1 : n ∉ Awards.selectable)
    (h2 : n ∉ Awards.objectPrototypeKeys) : Awards.shownIcon n = .icon .FaTrophy := by
  have hk : getKey Awards.awardIcons n = none := by
    simp only [Awards.selectable, Awards.awardIcons, List.map_cons, List.map_nil,
      List.mem_cons, List.mem_singleton, List.not_mem_nil, or_false, not_or] at h1
    obtain ⟨a1, a2, a3, a4, a5, a6⟩ := h1
    simp only [Awards.awardIcons, getKey]
    rw [if_neg (Ne.symm a1), if_neg (Ne.symm a2), if_neg (Ne.symm a3), if_neg (Ne.symm a4),
      if_neg (Ne.symm a5), if_neg (Ne.symm a6)]
  unfold Awards.shownIcon
  rw [hk]
  dsimp only
  rw [if_neg h2]

theorem iconComponent_absent (Icons : List (Str × Awards.Icon)) (n : Str)
    (h : getKey Icons n = none) : iconComponent Icons n = getKey Icons "FaAward".toList := by
  unfold iconComponent
  by_cases ht : truthy n = true
  · rw [if_pos ht, h]
  · rw [if_neg ht]

/-- C29 (as the code behaves): for every icon module that exports `FaAward` under
that name and has no export named by one of the six names the dashboard form
offers (the exports of react-icons are named `Fa...`): the public display
resolves every one of the six names to its fallback `FaAward`, while the
dashboard shows `FaAward` for "award" only; so the two agree on "award" alone.
A name that is neither one of the six nor a property of `Object.prototype` shows
`FaTrophy` in the dashboard (an inherited property is rendered instead of an
icon), and every name the module does not export shows `FaAward` in the public
display. -/
theorem iconComponent_fallback (Icons : List (Str × Awards.Icon))
    (hfa : getKey Icons "FaAward".toList = some .FaAward)
    (hnone : ∀ n ∈ Awards.selectable, getKey Icons n = none) :
    (∀ n ∈ Awards.selectable, iconComponent Icons n = some .FaAward) ∧
    (∀ n ∈ Awards.selectable,
      (Awards.shownIcon n = .icon .FaAward ↔ n = "award".toList)) ∧
    (∀ n, n ∉ Awards.selectable → n ∉ Awards.objectPrototypeKeys →
      Awards.shownIcon n = .icon .FaTrophy) ∧
    (∀ n ∈ Awards.objectPrototypeKeys, Awards.shownIcon n = .inherited n) ∧
    (∀ n, getKey Icons n = none → iconComponent Icons n = some .FaAward) :=
  ⟨fun n hn => (iconComponent_absent Icons n (hnone n hn)).trans hfa,
   by decide,
   fun n h1 h2 => shownIcon_outside n h1 h2,
   by decide,
   fun n h => (iconComponent_absent Icons n h).trans hfa⟩

/-- C29 at a concrete input: an award stored with the icon name "trophy", the
module exporting the six components the dashboard imports. -/
theorem iconComponent_fallback_witness :
    iconComponent faIcons "trophy".toList = some .FaAward ∧
      Awards.shownIcon "trophy".toList = .icon .FaTrophy ∧
      iconComponent faIcons "FaTrophy".toList = some .FaTrophy :=
  ⟨(iconComponent_fallback faIcons (by decide) (by decide)).1 "trophy".toList (by decide),
   by decide, by decide⟩

/-! ## Years of experience -/

theorem foldl_min_le (ys : List Int) :
    ∀ y : Int, ys.foldl min y ≤ y ∧ (∀ z ∈ ys, ys.foldl min y ≤ z) ∧
      ys.foldl min y ∈ y :: ys := by
  induction ys with
  | nil => intro y; exact ⟨le_refl _, by simp, by simp⟩
  | cons a t ih =>
    intro y
    obtain ⟨h1, h2, h3⟩ := ih (min y a)
    rw [List.foldl_cons]
    refine ⟨le_trans h1 (min_le_left _ _), ?_, ?_⟩
    · intro z hz
      rcases List.mem_cons.mp hz with rfl | hz
      · exact le_trans h1 (min_le_right _ _)
      · exact h2 z hz
    · rcases List.mem_cons.mp h3 with h | h
      · rw [h]
        rcases min_choice y a with hc | hc <;> rw [hc] <;> simp
      · exact List.mem_cons_of_mem _ (List.mem_cons_of_mem _ h)

theorem le_foldl_max (ys : List Int) :
    ∀ y : Int, y ≤ ys.foldl max y ∧ (∀ z ∈ ys, z ≤ ys.foldl max y) ∧
      ys.foldl max y ∈ y :: ys := by
  induction ys with
  | nil => intro y; exact ⟨le_refl _, by simp, by simp⟩
  | cons a t ih =>
    intro y
    obtain ⟨h1, h2, h3⟩ := ih (max y a)
    rw [List.foldl_cons]
    refine ⟨le_trans (le_max_left _ _) h1, ?_, ?_⟩
    · intro z hz
      rcases List.mem_cons.mp hz with rfl | hz
      · exact le_trans (le_max_right _ _) h1
      · exact h2 z hz
    · rcases List.mem_cons.mp h3 with h | h
      · rw [h]
        rcases max_choice y a with hc | hc <;> rw [hc] <;> simp
      · exact List.mem_cons_of_mem _ (List.mem_cons_of_mem _ h)

theorem onExperience_parsed (docYears : List Str) (c : Int) (badges : List Badge)
    (y : Int) (ys : List Int) (h : docYears.filterMap parseInt = y :: ys) :
    onExperience docYears c badges =
      badges.map fun b =>
        if b.title = "Years of Experience" then
          { b with value := toString (max (c - minOf y ys + 1)
              (maxOf y ys - minOf y ys + 1)) ++ "+" }
        else b := by
  unfold onExperience
  have hne : docYears.isEmpty = false := by
    cases docYears with
    | nil => simp at h
    | cons a t => rfl
  rw [hne, h]
  rfl

/-- C30: for every snapshot of the experience collection and every current year `c`:
when the years that parse are `y :: ys`, with least element `minYear` and
greatest element `maxYear`, the badge "Years of Experience" is set to the decimal
of `max(c, maxYear) - minYear + 1` followed by "+", the other badges are kept,
and that number is at least 1 and at least `maxYear - minYear + 1`; when no year
parses (or the snapshot is empty) the badges are unchanged. -/
theorem onExperience_badge (docYears : List Str) (c : Int) (badges : List Badge) :
    (∀ y ys, docYears.filterMap parseInt = y :: ys →
      minOf y ys ∈ y :: ys ∧ (∀ z ∈ y :: ys, minOf y ys ≤ z) ∧
      maxOf y ys ∈ y :: ys ∧ (∀ z ∈ y :: ys, z ≤ maxOf y ys) ∧
      onExperience docYears c badges =
        (badges.map fun b =>
          if b.title = "Years of Experience" then
            { b with value := toString (max c (maxOf y ys) - minOf y ys + 1) ++ "+" }
          else b) ∧
      1 ≤ max c (maxOf y ys) - minOf y ys + 1 ∧
      maxOf y ys - minOf y ys + 1 ≤ max c (maxOf y ys) - minOf y ys + 1) ∧
    (docYears.filterMap parseInt = [] → onExperience docYears c badges = badges) := by
  constructor
  · intro y ys h
    obtain ⟨a1, a2, a3⟩ := foldl_min_le ys y
    obtain ⟨b1, b2, b3⟩ := le_foldl_max ys y
    have hmin : ∀ z ∈ y :: ys, minOf y ys ≤ z := by
      intro z hz
      rcases List.mem_cons.mp hz with rfl | hz
      · exact a1
      · exact a2 z hz
    have hmax : ∀ z ∈ y :: ys, z ≤ maxOf y ys := by
      intro z hz
      rcases List.mem_cons.mp hz with rfl | hz
      · exact b1
      · exact b2 z hz
    have hle : minOf y ys ≤ maxOf y ys := le_trans a1 b1
    have harith : max (c - minOf y ys + 1) (maxOf y ys - minOf y ys + 1) =
        max c (maxOf y ys) - minOf y ys + 1 := by
      rcases le_total c (maxOf y ys) with hc | hc
      · rw [max_eq_right hc, max_eq_right (by omega)]
      · rw [max_eq_left hc, max_eq_left (by omega)]
    refine ⟨a3, hmin, b3, hmax, ?_, ?_, ?_⟩
    · rw [onExperience_parsed docYears c badges y ys h, harith]
    · have := le_max_right c (maxOf y ys)
      omega
    · have := le_max_right c (maxOf y ys)
      omega
  · intro h
    unfold onExperience
    rw [h]
    by_cases he : docYears.isEmpty = true
    · rw [if_pos he]
    · rw [if_neg he]

/-- C30 at a concrete input: documents with the years "2019", "n/a" and "2021",
read in 2025 and in 2020. -/
theorem onExperience_badge_witness :
    onExperience ["2019".toList, "n/a".toList, "2021".toList] 2025 initialBadges =
        [⟨1, "Awards Won", "0"⟩, ⟨2, "Projects Completed", "0"⟩,
          ⟨3, "Customer Satisfaction", "0%"⟩, ⟨4, "Years of Experience", "7+"⟩] ∧
      onExperience ["2019".toList, "n/a".toList, "2021".toList] 2020 initialBadges =
        [⟨1, "Awards Won", "0"⟩, ⟨2, "Projects Completed", "0"⟩,
          ⟨3, "Customer Satisfaction", "0%"⟩, ⟨4, "Years of Experience", "3+"⟩] ∧
      onExperience ["n/a".toList] 2025 initialBadges = initialBadges :=
  ⟨((onExperience_badge ["2019".toList, "n/a".toList, "2021".toList] 2025 initialBadges).1
      2019 [2021] (by decide)).2.2.2.2.1.trans (by decide),
   ((onExperience_badge ["2019".toList, "n/a".toList, "2021".toList] 2020 initialBadges).1
      2019 [2021] (by decide)).2.2.2.2.1.trans (by decide),
   (onExperience_badge ["n/a".toList] 2025 initialBadges).2 (by decide)⟩

end PortfolioAwards

/-! # The upload and the delete of the gallery manager at concrete inputs -/

namespace Gallery

open Projects (Str getKey)

/-- C21 at a concrete input: uploading `me.png` at time 3 into the sample database. -/
theorem handleUpload_inserts_witness :
    (handleUpload (refBackend Projects.demoConfig) (some sampleFile)
        (mkWorld sampleDb initialPanel)).log =
      [Call.uploadBytes "aboutGallery/uploads/3-me.png".toList [1, 2, 3] true,
        Call.getDownloadURL "aboutGallery/uploads/3-me.png".toList true,
        Call.addDoc "aboutGallery".toList
          ⟨"https://cdn.test/aboutGallery/uploads/3-me.png".toList,
            "aboutGallery/uploads/3-me.png".toList, false⟩ true] ∧
    flaggedIds (docsOf (handleUpload (refBackend Projects.demoConfig) (some sampleFile)
        (mkWorld sampleDb initialPanel)).store collectionName) = ["img1".toList] :=
  have h := (handleUpload_inserts (refBackend Projects.demoConfig) sampleFile
    (mkWorld sampleDb initialPanel) Projects.demoConfig sampleDb initialPanel).2
  ⟨h.1.trans (by decide), h.2.2.2.trans (by decide)⟩

/-- C22 at a concrete input: deleting `img1` when its blob is stored, and when it is
not. -/
theorem handleDelete_removes_witness :
    (handleDelete (refBackend Projects.demoConfig) true img1
        (mkWorld storedDb initialPanel)).log =
      [Call.deleteObject "aboutGallery/uploads/1-a.png".toList true,
        Call.deleteDoc "aboutGallery".toList "img1".toList true] ∧
    (handleDelete (refBackend Projects.demoConfig) true img1
        (mkWorld sampleDb initialPanel)).store = sampleDb :=
  have h := (handleDelete_removes (refBackend Projects.demoConfig) img1
    (mkWorld storedDb initialPanel) Projects.demoConfig storedDb initialPanel).2.1
  have h2 := (handleDelete_removes (refBackend Projects.demoConfig) img1
    (mkWorld sampleDb initialPanel) Projects.demoConfig sampleDb initialPanel).2.1
  ⟨(h.1 [9, 9] (by decide)).1, (h2.2 (by decide)).2⟩

end Gallery

/-! # Theorems on the projects panel: references that do not carry the marker -/

namespace Projects

/-- The percent-encoded form of a path contains no `/`. -/
theorem encoded_no_slash (p : Str) :
    '/' ∉ p.flatMap fun c => if c = '/' then "%2F".toList else [c] := by
  intro h
  obtain ⟨c, _, hc⟩ := List.mem_flatMap.mp h
  by_cases h1 : c = '/'
  · rw [if_pos h1] at hc
    revert hc
    decide
  · rw [if_neg h1] at hc
    exact h1 (List.mem_singleton.mp hc).symm

theorem isPrefixOf_no_slash (r : Str) (hr : '/' ∉ r) :
    List.isPrefixOf "projects/unsaved/".toList r = false := by
  cases h : List.isPrefixOf "projects/unsaved/".toList r with
  | false => rfl
  | true =>
    have hp := List.isPrefixOf_iff_prefix.mp h
    exact absurd (hp.subset (by decide)) hr

/-- An access URL of the percent-encoding store never contains the provisional
marker, whatever the path. -/
theorem encoded_no_marker (p : Str) : includes (encodedConfig.urlOf p) unsavedMarker = false := by
  have hr := encoded_no_slash p
  have h1 : encodedConfig.urlOf p = "https:".toList ++ ('/' :: '/' :: ("cdn.test".toList ++
      ('/' :: ("o".toList ++ ('/' :: p.flatMap fun c => if c = '/' then "%2F".toList else [c]))))) :=
    rfl
  have hstep : ∀ cs : Str, includes ('/' :: cs) unsavedMarker =
      (List.isPrefixOf "projects/unsaved/".toList cs || includes cs unsavedMarker) := by
    intro cs
    rw [includes]
    rfl
  rw [h1, includes_skip _ _ (by decide), hstep, hstep, includes_skip _ _ (by decide), hstep,
    includes_skip _ _ (by decide), hstep, isPrefixOf_no_slash _ hr, includes_no_slash _ hr]
  rfl

section Unmoved
variable {σ : Type}

/-- A relocation pass over fields none of whose references passes the test changes
neither the fields nor the store nor the log. -/
theorem moveUnsaved_untested (B : Backend σ) (pid : Str) (f : ProjectFields) (w : World σ)
    (hm : isUnsavedRef f.imageUrl = false) (hg : ∀ u ∈ f.gallery, isUnsavedRef u = false) :
    (moveUnsavedFilesForProject B pid f w).1 = f ∧
    (moveUnsavedFilesForProject B pid f w).2.log = w.log ∧
    (moveUnsavedFilesForProject B pid f w).2.store = w.store := by
  simp only [moveUnsavedFilesForProject, moveMain, hm, Bool.false_eq_true, if_false,
    moveGallery_noop B pid f.gallery _ hg]
  exact ⟨trivial, rfl, rfl⟩

end Unmoved

/-- C9 (as the code behaves): over the reference stores, for a new project with a
valid form whose `imageUrl` is the access URL of an object stored at
`projects/unsaved/main/<name>`, when that access URL does not contain the text
`/projects/unsaved/` literally (the store percent-encodes the path in its URLs)
and no gallery entry contains it: every store call of `handleSaveProject`
succeeds and the save finishes as a success, the calls are the insert and the
final update only (nothing is listed, uploaded or deleted), the persisted
document still has the provisional URL as its `imageUrl`, and the object is still
stored at `projects/unsaved/main/<name>`. -/
theorem handleSaveProject_main_unmoved (cfg : RefConfig) (s : RefStore) (p : Panel)
    (name : Str) (b : Blob) (hnew : p.editId = none)
    (hn : isBlank p.formData.name = false) (hd : isBlank p.formData.description = false)
    (hobj : getKey s.objects ("projects/unsaved/main/".toList ++ name) = some b)
    (hurl : p.formData.imageUrl = cfg.urlOf ("projects/unsaved/main/".toList ++ name))
    (hmark : includes (cfg.urlOf ("projects/unsaved/main/".toList ++ name)) unsavedMarker
      = false)
    (hgal : ∀ g ∈ p.formData.gallery, includes g unsavedMarker = false) :
    (handleSaveProject (refBackend cfg) (mkWorld s p)).log =
      [Call.addDoc ⟨formatFields p.formData, .createdAt⟩ true,
        Call.updateDoc (cfg.docId s.nextDoc) ⟨formatFields p.formData, .updatedAt⟩ true] ∧
    (getKey (handleSaveProject (refBackend cfg) (mkWorld s p)).store.docs
        (cfg.docId s.nextDoc)).map (fun d => d.fields.imageUrl) =
      some (cfg.urlOf ("projects/unsaved/main/".toList ++ name)) ∧
    getKey (handleSaveProject (refBackend cfg) (mkWorld s p)).store.objects
      ("projects/unsaved/main/".toList ++ name) = some b ∧
    SaveSucceeded (mkWorld s p) (handleSaveProject (refBackend cfg) (mkWorld s p)) := by
  have hn2 : trim (mkWorld s p).ui.formData.name ≠ [] := fun h => by
    have := (trim_eq_nil_iff _).1 h
    simp [mkWorld, hn] at this
  have hd2 : trim (mkWorld s p).ui.formData.description ≠ [] := fun h => by
    have := (trim_eq_nil_iff _).1 h
    simp [mkWorld, hd] at this
  have hm : isUnsavedRef (formatFields p.formData).imageUrl = false := by
    show isUnsavedRef p.formData.imageUrl = false
    rw [hurl]
    exact includes_false_isUnsavedRef hmark
  have hg : ∀ u ∈ (formatFields p.formData).gallery, isUnsavedRef u = false := by
    intro u hu
    exact includes_false_isUnsavedRef (hgal u (List.mem_filter.mp hu).1)
  obtain ⟨m1, m2, m3⟩ := moveUnsaved_untested (refBackend cfg) (cfg.docId s.nextDoc)
    (formatFields p.formData) (insertedWorld (refBackend cfg) (mkWorld s p)) hm hg
  have k1 : (movedFor (refBackend cfg) (mkWorld s p) (cfg.docId s.nextDoc)).1 =
      formatFields p.formData := m1
  have k2 : (movedFor (refBackend cfg) (mkWorld s p) (cfg.docId s.nextDoc)).2.log =
      [Call.addDoc ⟨formatFields p.formData, .createdAt⟩ true] := m2
  have k3 : (movedFor (refBackend cfg) (mkWorld s p) (cfg.docId s.nextDoc)).2.store =
      { s with docs := s.docs ++ [(cfg.docId s.nextDoc,
                 applyWrite none ⟨formatFields p.formData, .createdAt⟩ s.clock)],
               nextDoc := s.nextDoc + 1, clock := s.clock + 1 } := m3
  obtain ⟨d0, hd0⟩ := getKey_mem (s.docs ++ [(cfg.docId s.nextDoc,
      applyWrite none ⟨formatFields p.formData, .createdAt⟩ s.clock)]) (cfg.docId s.nextDoc) (by
    rw [List.map_append]
    exact List.mem_append_right _ (List.mem_cons_self _ _))
  have hupd : (refBackend cfg).updateDoc (cfg.docId s.nextDoc)
      ⟨(movedFor (refBackend cfg) (mkWorld s p) (cfg.docId s.nextDoc)).1, .updatedAt⟩
      (movedFor (refBackend cfg) (mkWorld s p) (cfg.docId s.nextDoc)).2.store =
      (.ok (), { s with
        docs := putKey (s.docs ++ [(cfg.docId s.nextDoc,
            applyWrite none ⟨formatFields p.formData, .createdAt⟩ s.clock)])
          (cfg.docId s.nextDoc)
          (applyWrite (some d0) ⟨formatFields p.formData, .updatedAt⟩ (s.clock + 1)),
        nextDoc := s.nextDoc + 1, clock := s.clock + 1 + 1 }) := by
    rw [k1, k3]
    simp [refBackend, hd0]
  obtain ⟨hlog, hsucc⟩ := handleSaveProject_new_ok (refBackend cfg) (mkWorld s p)
    (cfg.docId s.nextDoc) hnew hn2 hd2 rfl (by rw [hupd])
  have hstore : (handleSaveProject (refBackend cfg) (mkWorld s p)).store =
      ((refBackend cfg).updateDoc (cfg.docId s.nextDoc)
        ⟨(movedFor (refBackend cfg) (mkWorld s p) (cfg.docId s.nextDoc)).1, .updatedAt⟩
        (movedFor (refBackend cfg) (mkWorld s p) (cfg.docId s.nextDoc)).2.store).2 := by
    rw [handleSaveProject_new_eq (refBackend cfg) (mkWorld s p) (cfg.docId s.nextDoc) hnew
      hn2 hd2 rfl]
    cases hc : callUpdateDoc (refBackend cfg) (cfg.docId s.nextDoc)
        ⟨(movedFor (refBackend cfg) (mkWorld s p) (cfg.docId s.nextDoc)).1, .updatedAt⟩
        (movedFor (refBackend cfg) (mkWorld s p) (cfg.docId s.nextDoc)).2 with
    | mk r w2 =>
      have hw2 : w2.store = ((refBackend cfg).updateDoc (cfg.docId s.nextDoc)
          ⟨(movedFor (refBackend cfg) (mkWorld s p) (cfg.docId s.nextDoc)).1, .updatedAt⟩
          (movedFor (refBackend cfg) (mkWorld s p) (cfg.docId s.nextDoc)).2.store).2 :=
        (congrArg (fun x : Except JsError Unit × World RefStore => x.2.store) hc).symm
      cases r with
      | ok u => exact hw2
      | error e => exact hw2
  refine ⟨?_, ?_, ?_, hsucc⟩
  · rw [hlog, k1, k2]
    rfl
  · rw [hstore, hupd]
    show (getKey (putKey _ _ _) _).map _ = _
    rw [getKey_putKey, if_pos rfl]
    show some p.formData.imageUrl = _
    rw [hurl]
  · rw [hstore, hupd]
    exact hobj

/-- C9 at a concrete input: the new-project save of `sampleForm` with the main image
referenced by the URL the percent-encoding store returns for
`projects/unsaved/main/abc`. -/
theorem handleSaveProject_main_unmoved_witness :
    (handleSaveProject (refBackend encodedConfig)
        (mkWorld sampleStore (panelWith
          { sampleForm with
              imageUrl := "https://cdn.test/o/projects%2Funsaved%2Fmain%2Fabc".toList }
          none))).log.map Call.ok = [true, true] ∧
    (getKey (handleSaveProject (refBackend encodedConfig)
        (mkWorld sampleStore (panelWith
          { sampleForm with
              imageUrl := "https://cdn.test/o/projects%2Funsaved%2Fmain%2Fabc".toList }
          none))).store.docs "d".toList).map (fun d => d.fields.imageUrl) =
      some "https://cdn.test/o/projects%2Funsaved%2Fmain%2Fabc".toList ∧
    getKey (handleSaveProject (refBackend encodedConfig)
        (mkWorld sampleStore (panelWith
          { sampleForm with
              imageUrl := "https://cdn.test/o/projects%2Funsaved%2Fmain%2Fabc".toList }
          none))).store.objects "projects/unsaved/main/abc".toList = some [1, 2, 3] :=
  have h := handleSaveProject_main_unmoved encodedConfig sampleStore
    (panelWith
      { sampleForm with
          imageUrl := "https://cdn.test/o/projects%2Funsaved%2Fmain%2Fabc".toList } none)
    "abc".toList [1, 2, 3] rfl (by decide) (by decide) (by decide) (by decide)
    (encoded_no_marker _) (by decide)
  ⟨(congrArg (List.map Call.ok) h.1).trans rfl, h.2.1, h.2.2.1⟩

/-- C11 (as the code behaves): over the reference stores the reference
`uploadFileWithProgress` returns for an upload with `projectId` null is the access
URL the store answers for `projects/unsaved/<slot>/<name>`, so whether it passes
the test of `moveUnsavedFilesForProject` is decided by how the store writes its
URLs; over the store that percent-encodes the path in its URLs, for every file,
slot, index and store state, the reference returned for the provisional upload
does not pass the test (it does not contain `/projects/unsaved/`). -/
theorem uploadFileWithProgress_unrecognised (cfg : RefConfig) (f : JsFile) (type : Slot)
    (index : Option Nat) (w v : World RefStore) :
    (uploadFileWithProgress (refBackend cfg) (some f) none type index w).1 =
        .ok (cfg.urlOf ("projects/unsaved/".toList ++ type.str ++ "/".toList ++
            cfg.uuid w.store.nextUuid),
          "projects/unsaved/".toList ++ type.str ++ "/".toList ++ cfg.uuid w.store.nextUuid) ∧
    (∃ url, (uploadFileWithProgress (refBackend encodedConfig) (some f) none type index v).1 =
        .ok (url, "projects/unsaved/".toList ++ type.str ++ "/".toList ++
          encodedConfig.uuid v.store.nextUuid) ∧
      isUnsavedRef url = false) :=
  ⟨ref_upload_result cfg f none type index w,
   _, ref_upload_result encodedConfig f none type index v,
   includes_false_isUnsavedRef (encoded_no_marker _)⟩

/-- C11 at a concrete input: the upload of a main image before the project exists,
over the percent-encoding store. -/
theorem uploadFileWithProgress_unrecognised_witness :
    ∃ url, (uploadFileWithProgress (refBackend encodedConfig) (some ⟨"a.png".toList, [7]⟩)
        none .main none (mkWorld emptyStore initialPanel)).1 =
        .ok (url, "projects/unsaved/main/u".toList) ∧
      isUnsavedRef url = false :=
  (uploadFileWithProgress_unrecognised encodedConfig ⟨"a.png".toList, [7]⟩ .main none
    (mkWorld emptyStore initialPanel) (mkWorld emptyStore initialPanel)).2

end Projects
